import Mathlib

/-!
# NKU chat room: message codec, client registry and connection handler

A shallow embedding of `chat_protocol.c` (the line codec) and of `chat_server.c`
(the client table and `client_handler`), with the properties of the
specification that concern them.

Conventions of the embedding.

* A C `char` is a `Byte` (a natural number; only comparisons with fixed byte
  values occur, so no upper bound is needed).
* A `char *` argument or a `char[]` field is the list of bytes found in memory
  from the pointer on.  The C string it denotes is `cstr`: the bytes before the
  first NUL, the end of the list standing for a NUL when the list holds none.
* `long` is 32 bits wide: the program is written against the Win32 API
  (`winsock2.h`, `windows.h`), whose ABI fixes `sizeof(long) = 4`.
* A function that returns `-1` without a usable result returns `none`.
* The effects of the server are recorded in a `World`: the client table, the
  calls of `send` and of `closesocket` in the order issued, and the lines handed
  to `deserialize_message`.  A step of a handler is taken as a whole; the
  timestamps it reads are parameters.
* Where two handlers run at the same time, each is the list of its steps on
  the shared state (`Event`), and `run_threads` puts them in the order of a
  schedule, one holder of `client_mutex` at a time.
-/

namespace Chat

/-! ## Bytes and C strings -/

abbrev Byte := Nat

/-- The field delimiter `'|'`. -/
abbrev PIPE : Byte := 124

/-- The line terminator `'\n'`. -/
abbrev NEWLINE : Byte := 10

def MAX_BUFFER_SIZE : Nat := 4096
def MAX_USERNAME_LEN : Nat := 64
def MAX_MESSAGE_LEN : Nat := 2048
def MAX_CLIENTS : Nat := 100
/-- The array bound of `char timestamp[32]` in `ChatMessage`. -/
def TIMESTAMP_SIZE : Nat := 32

/-- The C string stored at a pointer: the bytes before the first NUL. -/
def cstr (s : List Byte) : List Byte := s.takeWhile (fun b => b != 0)

/-- The libc `strlen`. -/
def strlen (s : List Byte) : Nat := (cstr s).length

/-- The libc `strcmp`, reduced to what the callers test: `0` when the two C strings are equal
byte for byte, a nonzero value otherwise. -/
def strcmp (a b : List Byte) : Int := if cstr a = cstr b then 0 else 1

/-- The libc `strchr(s, c)` for a non-NUL `c`: `none` for a NULL result, otherwise the bytes
skipped before the match and the memory from the match on. -/
def strchr : List Byte → Byte → Option (List Byte × List Byte)
  | [], _ => none
  | b :: rest, c =>
    if b = c then some ([], b :: rest)
    else if b = 0 then none
    else match strchr rest c with
      | none => none
      | some (skipped, found) => some (b :: skipped, found)

/-- The bytes `strncpy(dst, src, n)` followed by `dst[n] = '\0'` leaves in `dst` as a C string:
at most `n` bytes of the C string at `src`. -/
def strncpy (src : List Byte) (n : Nat) : List Byte := (cstr src).take n

/-- The bytes `memcpy(dst, src, n)` moves: the next `n` bytes of memory, whatever they are. -/
def memcpy (src : List Byte) (n : Nat) : List Byte := src.take n

/-- The libc `isspace` in the C locale. -/
def isspace (c : Byte) : Bool := c == 32 || (decide (9 ≤ c) && decide (c ≤ 13))

/-- The libc `isdigit`. -/
def isdigit (c : Byte) : Bool := decide (48 ≤ c) && decide (c ≤ 57)

/-- The value of a run of decimal digits, most significant first. -/
def digitsValue (ds : List Byte) : Nat := ds.foldl (fun acc d => 10 * acc + (d - 48)) 0

def LONG_MAX : Int := 2147483647
def LONG_MIN : Int := -2147483648
def INT_MAX : Int := 2147483647
def INT_MIN : Int := -2147483648

/-- The result of `strtol` on overflow: the value is clamped to the range of `long`. -/
def clampLong (v : Int) : Int :=
  if v > LONG_MAX then LONG_MAX else if v < LONG_MIN then LONG_MIN else v

/-- The libc `strtol(nptr, &endptr, 10)`: the value and `endptr`.  White space is skipped, one
sign is accepted, then the longest run of digits is converted; when there is no digit nothing
is converted, the value is `0` and `endptr = nptr`. -/
def strtol (nptr : List Byte) : Int × List Byte :=
  let s := nptr.dropWhile isspace
  let neg := s.head? == some 45
  let t := if s.head? == some 45 || s.head? == some 43 then s.tail else s
  let ds := t.takeWhile isdigit
  if ds.isEmpty then (0, nptr)
  else (clampLong (if neg then -(digitsValue ds : Int) else (digitsValue ds : Int)),
        t.dropWhile isdigit)

/-- The decimal digits of a natural number, most significant first; `fuel` bounds the number
of digits. -/
def natDigits : Nat → Nat → List Byte
  | 0, _ => []
  | fuel + 1, n => if n < 10 then [48 + n] else natDigits fuel (n / 10) ++ [48 + n % 10]

/-- The output of the `printf` conversion `%d`. -/
def fmt_d (v : Int) : List Byte :=
  if v < 0 then 45 :: natDigits (v.natAbs + 1) v.natAbs else natDigits (v.natAbs + 1) v.natAbs

/-- The output of the `printf` conversion `%s`. -/
def fmt_s (s : List Byte) : List Byte := cstr s

/-- The output of the `printf` conversion `%.*s`: at most `prec` bytes of the C string; a
negative precision counts as no precision. -/
def fmt_s_prec (prec : Int) (s : List Byte) : List Byte :=
  if prec < 0 then cstr s else (cstr s).take prec.toNat

/-! ## The message codec (`chat_protocol.c`) -/

/-- The struct `ChatMessage`.  `type` is the integer tag of the `MessageType` enum; the three
arrays are given by their contents. -/
structure ChatMessage where
  type : Int
  timestamp : List Byte
  username : List Byte
  content : List Byte
  content_length : Int
  deriving DecidableEq

/-- The line `snprintf` formats for `"%d|%s|%s|%d|%.*s"`. -/
def format_line (msg : ChatMessage) : List Byte :=
  fmt_d msg.type ++ PIPE :: (fmt_s msg.timestamp ++ PIPE :: (fmt_s msg.username ++ PIPE ::
    (fmt_d msg.content_length ++ PIPE :: fmt_s_prec msg.content_length msg.content)))

/-- The function `serialize_message(msg, buffer, buffer_size)`: the returned `int` and the C
string left in `buffer`.  `snprintf` returns the length of the whole formatted line and stores
at most `buffer_size - 1` bytes of it. -/
def serialize_message (msg : ChatMessage) (buffer_size : Nat) : Int × List Byte :=
  let line := format_line msg
  let result : Int := (line.length : Int)
  if result < 0 ∨ line.length ≥ buffer_size then (-1, line.take (buffer_size - 1))
  else (result, line)

/-- The function `deserialize_message(buffer, msg)`: `none` for the return value `-1`,
`some m` for the return value `0` with `*msg = m`. -/
def deserialize_message (buffer : List Byte) : Option ChatMessage :=
  -- Parse type
  let (type, endptr) := strtol buffer
  if endptr.head? ≠ some PIPE then none else
  let p := endptr.tail
  -- Parse timestamp
  match strchr p PIPE with
  | none => none
  | some (skipped, timestamp_end) =>
    let timestamp_len :=
      if skipped.length ≥ TIMESTAMP_SIZE then TIMESTAMP_SIZE - 1 else skipped.length
    let timestamp := strncpy p timestamp_len
    let p := timestamp_end.tail
    -- Parse username
    match strchr p PIPE with
    | none => none
    | some (skipped, username_end) =>
      let username_len :=
        if skipped.length ≥ MAX_USERNAME_LEN then MAX_USERNAME_LEN - 1 else skipped.length
      let username := strncpy p username_len
      let p := username_end.tail
      -- Parse content length
      let (content_length, endptr) := strtol p
      if endptr.head? ≠ some PIPE then none else
      if content_length < 0 ∨ content_length ≥ (MAX_MESSAGE_LEN : Int) then none else
      let p := endptr.tail
      -- Parse content
      if content_length > 0 then
        let content_length :=
          if content_length.toNat ≥ MAX_MESSAGE_LEN then ((MAX_MESSAGE_LEN - 1 : Nat) : Int)
          else content_length
        some { type := type, timestamp := timestamp, username := username,
               content := memcpy p content_length.toNat, content_length := content_length }
      else
        some { type := type, timestamp := timestamp, username := username,
               content := [], content_length := content_length }

/-- The bytes of an ASCII string literal. -/
def ascii (s : String) : List Byte := s.toList.map Char.toNat

/-- A chat message whose body holds the field delimiter. -/
def msg_pipe_body : ChatMessage :=
  { type := 3, timestamp := ascii "2024-01-01 00:00:00", username := ascii "alice",
    content := ascii "a|b", content_length := 3 }

/-- A message whose line `3|t|u|2|ab` is ten bytes long. -/
def msg_ten_bytes : ChatMessage :=
  { type := 3, timestamp := ascii "t", username := ascii "u", content := ascii "ab",
    content_length := 2 }

/-- A message whose declared length 5 exceeds its two-byte body. -/
def msg_long_declared : ChatMessage :=
  { type := 3, timestamp := ascii "t", username := ascii "u", content := ascii "ab",
    content_length := 5 }

/-- The receive buffer holding the line `3|t|u|5|ab`, its terminator, and the bytes `XYZ` of
whatever follows in memory. -/
def buf_short_body : List Byte := ascii "3|t|u|5|ab" ++ 0 :: ascii "XYZ"

/-! ## The client table (`chat_server.c`) -/

abbrev SOCKET := Nat

/-- The struct `ClientInfo`. -/
structure ClientInfo where
  socket : SOCKET
  user_id : Int
  username : List Byte
  active : Int
  deriving DecidableEq

/-- The globals `clients`, `client_count` and `next_user_id`.  The mutex is not part of the
state: each function below is one critical section, executed as one step. -/
structure Registry where
  clients : List ClientInfo
  client_count : Nat
  next_user_id : Int
  deriving DecidableEq

/-- The registry when `main` enters the accept loop: the table zeroed by `memset`, the counters
at their initialisers. -/
def Registry.init : Registry :=
  { clients := List.replicate MAX_CLIENTS { socket := 0, user_id := 0, username := [], active := 0 },
    client_count := 0,
    next_user_id := 1 }

/-- The slots `clients[0 .. client_count - 1]`, over which every loop of the server runs. -/
def Registry.used (st : Registry) : List ClientInfo := st.clients.take st.client_count

/-- The duplicate check of `add_client`: whether the loop reaches `return -2`. -/
def duplicate_loop : List ClientInfo → List Byte → Bool
  | [], _ => false
  | c :: rest, username =>
    if c.active ≠ 0 ∧ strcmp c.username username = 0 then true
    else duplicate_loop rest username

/-- The slot `add_client` fills in: the socket, the id taken from `next_user_id`, the nickname
copied by `strncpy(.., MAX_USERNAME_LEN - 1)` and terminated, and `active = 1`. -/
def new_entry (st : Registry) (socket : SOCKET) (username : List Byte) : ClientInfo :=
  { socket := socket, user_id := st.next_user_id,
    username := strncpy username (MAX_USERNAME_LEN - 1), active := 1 }

/-- The function `add_client(socket, username, &assigned_id)`: the returned `int`, the value
stored through `assigned_id` if any, and the registry afterwards. -/
def add_client (st : Registry) (socket : SOCKET) (username : List Byte) :
    Int × Option Int × Registry :=
  if st.client_count ≥ MAX_CLIENTS then (-1, none, st)
  else if duplicate_loop st.used username then (-2, none, st)
  else
    let user_id := st.next_user_id
    (0, some user_id,
      { clients := st.clients.set st.client_count (new_entry st socket username),
        client_count := st.client_count + 1,
        next_user_id := st.next_user_id + 1 })

/-- The loop of `remove_client` over the used slots: the slots afterwards and the sockets
passed to `closesocket`. -/
def remove_loop : List ClientInfo → SOCKET → List ClientInfo × List SOCKET
  | [], _ => ([], [])
  | c :: rest, socket =>
    if c.socket = socket ∧ c.active ≠ 0 then ({ c with active := 0 } :: rest, [c.socket])
    else (c :: (remove_loop rest socket).1, (remove_loop rest socket).2)

/-- The function `remove_client(socket)`: the registry afterwards and the sockets closed. -/
def remove_client (st : Registry) (socket : SOCKET) : Registry × List SOCKET :=
  let r := remove_loop st.used socket
  ({ st with clients := r.1 ++ st.clients.drop st.client_count }, r.2)

/-- One call of `send(socket, data, len, 0)`: the destination and the bytes handed over. -/
abbrev Send := SOCKET × List Byte

/-- The send loop of `broadcast_message`. -/
def broadcast_loop : List ClientInfo → SOCKET → List Byte → List Send
  | [], _, _ => []
  | c :: rest, sender_socket, buffer =>
    if c.active ≠ 0 ∧ c.socket ≠ sender_socket then
      (c.socket, buffer) :: (c.socket, [NEWLINE]) :: broadcast_loop rest sender_socket buffer
    else broadcast_loop rest sender_socket buffer

/-- The function `broadcast_message(msg, sender_socket)`: the registry afterwards and the
`send` calls made, in order. -/
def broadcast_message (st : Registry) (msg : ChatMessage) (sender_socket : SOCKET) :
    Registry × List Send :=
  let r := serialize_message msg MAX_BUFFER_SIZE
  if r.1 < 0 then (st, [])
  else (st, broadcast_loop st.used sender_socket (r.2.take r.1.toNat))

/-! ## Runs of the registry -/

/-- A call on the registry, made under the mutex. -/
inductive Op where
  | add (socket : SOCKET) (username : List Byte)
  | remove (socket : SOCKET)
  deriving DecidableEq

/-- The registry after one call. -/
def step (st : Registry) : Op → Registry
  | Op.add socket username => (add_client st socket username).2.2
  | Op.remove socket => (remove_client st socket).1

/-- The registry after a sequence of calls. -/
def run (st : Registry) (ops : List Op) : Registry := ops.foldl step st

/-- The user ids handed out by the successful `add_client` calls of a run, in order. -/
def assigned_ids : Registry → List Op → List Int
  | _, [] => []
  | st, Op.add socket username :: ops =>
    let r := add_client st socket username
    (if r.1 = 0 then r.2.1.toList else []) ++ assigned_ids r.2.2 ops
  | st, Op.remove socket :: ops => assigned_ids (remove_client st socket).1 ops

/-- The active sessions of the registry, in table order. -/
def Registry.active_sessions (st : Registry) : List ClientInfo :=
  st.used.filter (fun c => c.active != 0)

/-- The nicknames of the active sessions, in table order. -/
def Registry.active_names (st : Registry) : List (List Byte) :=
  st.active_sessions.map (fun c => c.username)

/-- The table is the 100-entry array and the count stays within it. -/
def Registry.wf (st : Registry) : Prop :=
  st.clients.length = MAX_CLIENTS ∧ st.client_count ≤ MAX_CLIENTS

/-- A call the connection handler can make: it registers only nicknames that passed
`validate_username`, which are 1 to 63 bytes long. -/
def Op.valid : Op → Bool
  | Op.add _ username => decide (1 ≤ strlen username) && decide (strlen username ≤ 63)
  | Op.remove _ => true

/-- A run in which `alice` is taken, refused to a second connection, released and taken
again. -/
def ops_alice : List Op :=
  [Op.add 1 (ascii "alice"), Op.add 2 (ascii "alice"), Op.add 3 (ascii "bob"), Op.remove 1,
   Op.add 4 (ascii "alice"), Op.add 5 (ascii "Alice")]

/-- The bytes a log of `send` calls hands to one socket, in order. -/
def delivered : List Send → SOCKET → List Byte
  | [], _ => []
  | e :: rest, s => if e.1 = s then e.2 ++ delivered rest s else delivered rest s

/-- The byte string `x` repeated `n` times. -/
def copies : Nat → List Byte → List Byte
  | 0, _ => []
  | n + 1, x => x ++ copies n x

/-- The number of active sessions whose connection is `s`. -/
def Registry.sessions_on (st : Registry) (s : SOCKET) : Nat :=
  (st.active_sessions.filter (fun c => c.socket == s)).length

/-- Connections 1 (`alice`) and 2 (`bob`) registered, connection 3 (`carol`) registered and
gone. -/
def st_three : Registry :=
  run Registry.init [Op.add 1 (ascii "alice"), Op.add 2 (ascii "bob"), Op.add 3 (ascii "carol"),
    Op.remove 3]

/-- The nickname `u<i>`, used to fill the table with distinct names. -/
def nick (i : Nat) : List Byte := 117 :: natDigits 3 i

/-- The registrations of `n` connections `1 .. n` under the nicknames `u0 .. u<n-1>`. -/
def fill (n : Nat) : List Op := (List.range n).map (fun i => Op.add (i + 1) (nick i))

/-! ## The connection handler (`client_handler` and its helpers in `chat_server.c`) -/

/-- The libc `strncat(dest, src, n)`: the C string in `dest` afterwards. -/
def strncat (dest src : List Byte) (n : Nat) : List Byte := cstr dest ++ (cstr src).take n

/-- The C string `snprintf(temp, size, "[ID:%d]%s", user_id, username)` leaves in `temp`. -/
def snprintf_id_name (size : Nat) (user_id : Int) (username : List Byte) : List Byte :=
  (ascii "[ID:" ++ (fmt_d user_id ++ (ascii "]" ++ fmt_s username))).take (size - 1)

/-- The loop of `get_user_list` over the used slots: the C string in `buffer` afterwards.
`first` is the local flag of that name. -/
def user_list_loop : List ClientInfo → Nat → List Byte → Bool → List Byte
  | [], _, buffer, _ => buffer
  | c :: rest, buffer_size, buffer, first =>
    if c.active ≠ 0 then
      let buffer1 :=
        if first = false then strncat buffer (ascii ", ") (buffer_size - strlen buffer - 1)
        else buffer
      let temp := snprintf_id_name 128 c.user_id c.username
      let buffer2 := strncat buffer1 temp (buffer_size - strlen buffer1 - 1)
      user_list_loop rest buffer_size buffer2 false
    else user_list_loop rest buffer_size buffer first

/-- The function `get_user_list(buffer, buffer_size)`: the C string left in `buffer`. -/
def get_user_list (st : Registry) (buffer_size : Nat) : List Byte :=
  user_list_loop st.used buffer_size [] true

/-- The function `validate_username(username)`. -/
def validate_username (username : List Byte) : Int :=
  if strlen username = 0 ∨ strlen username ≥ MAX_USERNAME_LEN then 0
  else if (strchr username PIPE).isSome then 0
  else 1

/-- What a connection handler acts on: the registry, the log of `send` calls, the log of
`closesocket` calls, and the log of the lines the main loop hands to `deserialize_message`
(the C string at `line_start` at each call).  A handler's steps are taken one after the other,
without a step of another handler in between; `run_threads` lets two handlers take turns. -/
structure World where
  reg : Registry
  sends : List Send
  closes : List SOCKET
  lines : List (List Byte)
  deriving DecidableEq

/-- The function `send_to_client(socket, msg)`. -/
def send_to_client (w : World) (socket : SOCKET) (msg : ChatMessage) : World :=
  let r := serialize_message msg MAX_BUFFER_SIZE
  if r.1 < 0 then w
  else { w with sends := w.sends ++ [(socket, r.2.take r.1.toNat), (socket, [NEWLINE])] }

/-- The call `broadcast_message(msg, sender_socket)` made by a handler. -/
def broadcast (w : World) (msg : ChatMessage) (sender_socket : SOCKET) : World :=
  { w with reg := (broadcast_message w.reg msg sender_socket).1,
           sends := w.sends ++ (broadcast_message w.reg msg sender_socket).2 }

/-- The call `closesocket(socket)` made by a handler. -/
def closesocket (w : World) (socket : SOCKET) : World :=
  { w with closes := w.closes ++ [socket] }

/-- The call `remove_client(socket)` made by a handler. -/
def unregister (w : World) (socket : SOCKET) : World :=
  { w with reg := (remove_client w.reg socket).1,
           closes := w.closes ++ (remove_client w.reg socket).2 }

/-- A message the server composes: the given type, the timestamp `get_timestamp` wrote, the
sender `SERVER`, the content as `snprintf(.., MAX_MESSAGE_LEN, ..)` or `strncpy(..,
MAX_MESSAGE_LEN - 1)` stores it, and `content_length = strlen(content)`. -/
def server_message (type : Int) (now : List Byte) (text : List Byte) : ChatMessage :=
  { type := type, timestamp := now, username := ascii "SERVER",
    content := (cstr text).take (MAX_MESSAGE_LEN - 1),
    content_length := (((cstr text).take (MAX_MESSAGE_LEN - 1)).length : Int) }

/-- The locals of `client_handler` that live across the main loop. -/
structure Handler where
  client_socket : SOCKET
  client_username : List Byte
  recv_buffer : List Byte
  recv_pos : Nat
  deriving DecidableEq

/-- What the first `select` and `recv` of a handler bring. -/
inductive FirstRead where
  | timeout
  | failed
  | data (bytes : List Byte)

/-- The local `buffer` when the handshake parses it: the bytes received, the terminator
stored after them, and the first `'\n'` of the string overwritten by a NUL. -/
def first_line (bytes : List Byte) : List Byte :=
  match strchr (bytes ++ [0]) NEWLINE with
  | none => bytes ++ [0]
  | some (skipped, found) => skipped ++ 0 :: found.tail

/-- The handshake of `client_handler`, up to the main loop: the world afterwards, and the
handler's locals when it reaches the main loop (`none` when it has returned).  `garbage` is
the content of the uninitialised `recv_buffer`; `now_reply` and `now_join` are the timestamps
read for the reply to the client and for the join notice. -/
def handshake (w : World) (client_socket : SOCKET) (garbage now_reply now_join : List Byte) :
    FirstRead → World × Option Handler
  | FirstRead.timeout => (closesocket w client_socket, none)
  | FirstRead.failed => (closesocket w client_socket, none)
  | FirstRead.data bytes =>
    match deserialize_message (first_line bytes) with
    | none => (closesocket w client_socket, none)
    | some msg =>
      if msg.type = 8 then
        if validate_username msg.content = 0 then
          (closesocket (send_to_client w client_socket
            (server_message 5 now_reply (ascii "Invalid nickname format"))) client_socket, none)
        else
          let r := add_client w.reg client_socket msg.content
          if r.1 = -2 then
            (closesocket (send_to_client w client_socket
              (server_message 5 now_reply
                (ascii "Nickname already exists, please choose another one"))) client_socket,
              none)
          else if r.1 ≠ 0 then
            (closesocket (send_to_client w client_socket
              (server_message 5 now_reply (ascii "Server is full"))) client_socket, none)
          else
            let assigned_id := r.2.1.getD 0
            let w1 : World := { w with reg := r.2.2 }
            let w2 := send_to_client w1 client_socket
              (server_message 6 now_reply
                (ascii "Joined successfully! Your user ID is: " ++ (fmt_d assigned_id ++
                  (ascii ", nickname: " ++ fmt_s msg.content))))
            let w3 := broadcast w2
              (server_message 7 now_join
                (ascii "User [ID:" ++ (fmt_d assigned_id ++ (ascii "]" ++
                  (fmt_s msg.content ++ ascii " has joined the chat room")))))
              client_socket
            (w3, some { client_socket := client_socket,
                        client_username := strncpy msg.content (MAX_USERNAME_LEN - 1),
                        recv_buffer := garbage, recv_pos := 0 })
      else (closesocket w client_socket, none)

/-- The lookup loop that precedes a departure notice: the id of the first active slot on the
socket, `0` when there is none. -/
def find_user_id : List ClientInfo → SOCKET → Int
  | [], _ => 0
  | c :: rest, socket =>
    if c.socket = socket ∧ c.active ≠ 0 then c.user_id else find_user_id rest socket

/-- The departure notice: `User [ID:<id>]<name><tail>`. -/
def departure_text (user_id : Int) (client_username tail : List Byte) : List Byte :=
  ascii "User [ID:" ++ (fmt_d user_id ++ (ascii "]" ++ (fmt_s client_username ++ tail)))

/-- The `switch (msg.type)` of the main loop: the world afterwards, and whether the handler
has returned. -/
def dispatch (w : World) (client_socket : SOCKET) (client_username : List Byte)
    (msg : ChatMessage) (now : List Byte) : World × Bool :=
  if msg.type = 3 then (broadcast w msg client_socket, false)
  else if msg.type = 4 then
    (send_to_client w client_socket
      (server_message 3 now (ascii "Online users: " ++ get_user_list w.reg MAX_MESSAGE_LEN)),
      false)
  else if msg.type = 2 then
    let user_id := find_user_id w.reg.used client_socket
    let system_msg :=
      server_message 7 now (departure_text user_id client_username (ascii " has left the chat room"))
    (closesocket (broadcast (unregister w client_socket) system_msg client_socket) client_socket,
      true)
  else (w, false)

/-- One turn of the inner loop after `*line_end = '\0'`: the line at `line_start` is handed to
`deserialize_message` and, when it decodes, to the `switch`. -/
def handle_line (w : World) (client_socket : SOCKET) (client_username : List Byte)
    (line now : List Byte) : World × Bool :=
  let w1 : World := { w with lines := w.lines ++ [cstr line] }
  match deserialize_message line with
  | none => (w1, false)
  | some msg => dispatch w1 client_socket client_username msg now

/-- How a pass of the main loop ends: the handler returned from inside the `switch`, or it
goes on to the next `select` with its locals, or it did something the C standard leaves
undefined (`memmove` with a negative size; the same value stands for an inner loop that ran
out of fuel, which `process_lines_fuel` excludes). -/
inductive LoopResult where
  | returned (w : World)
  | scanned (w : World) (h : Handler)
  | undefined
  deriving DecidableEq

/-- The bytes of `buf` with `data` stored from offset `pos` on. -/
def write_at (buf : List Byte) (pos : Nat) (data : List Byte) : List Byte :=
  buf.take pos ++ (data ++ buf.drop (pos + data.length))

/-- The inner loop `while ((line_end = strchr(line_start, '\n')) != NULL)`, from the offset
`line_start` in `recv_buffer`: either the handler returned, or the loop ended with the world,
the locals and the last `line_start`.  `now` gives the timestamp read while the line at an
offset is processed.  `fuel` bounds the number of turns; a turn moves `line_start` forward, so
the length of the buffer plus one is enough. -/
def process_lines : Nat → (Nat → List Byte) → World → Handler → Nat →
    Option (World × Option (Handler × Nat))
  | 0, _, _, _, _ => none
  | fuel + 1, now, w, h, line_start =>
    match strchr (h.recv_buffer.drop line_start) NEWLINE with
    | none => some (w, some (h, line_start))
    | some (skipped, _) =>
      let line_end := line_start + skipped.length
      let h1 : Handler := { h with recv_buffer := write_at h.recv_buffer line_end [0] }
      let r := handle_line w h.client_socket h.client_username
        (h1.recv_buffer.drop line_start) (now line_start)
      if r.2 then some (r.1, none)
      else process_lines fuel now r.1 h1 (line_end + 1)

/-- The body of the main loop when `recv` returned the bytes `data`: they are appended to
`recv_buffer` if they fit, the complete lines are processed, and what is left is moved to
the front. -/
def on_data (now : Nat → List Byte) (w : World) (h : Handler) (data : List Byte) : LoopResult :=
  let h1 : Handler :=
    if h.recv_pos + data.length < 2 * MAX_BUFFER_SIZE - 1 then
      { h with recv_buffer := write_at h.recv_buffer h.recv_pos (data ++ [0]),
               recv_pos := h.recv_pos + data.length }
    else h
  match process_lines (h1.recv_buffer.length + 1) now w h1 0 with
  | none => LoopResult.undefined
  | some (w1, none) => LoopResult.returned w1
  | some (w1, some (h2, line_start)) =>
    if line_start > 0 then
      if line_start > h2.recv_pos then LoopResult.undefined
      else
        let remaining := h2.recv_pos - line_start
        LoopResult.scanned w1
          { h2 with recv_buffer :=
                      write_at h2.recv_buffer 0 ((h2.recv_buffer.drop line_start).take remaining),
                    recv_pos := remaining }
    else LoopResult.scanned w1 h2

/-- The main loop over a sequence of successful reads; `now i` gives the timestamps read
during the `i`-th pass from `first` on. -/
def run_reads (now : Nat → Nat → List Byte) : Nat → World → Handler → List (List Byte) →
    LoopResult
  | _, w, h, [] => LoopResult.scanned w h
  | first, w, h, data :: rest =>
    match on_data (now first) w h data with
    | LoopResult.scanned w1 h1 => run_reads now (first + 1) w1 h1 rest
    | r => r

/-- The end of `client_handler` after the main loop was left by `break`: `recv` returned at
most `0`. -/
def on_disconnect (w : World) (h : Handler) (now : List Byte) : World :=
  let user_id := find_user_id w.reg.used h.client_socket
  let system_msg :=
    server_message 7 now (departure_text user_id h.client_username (ascii " has disconnected"))
  broadcast (unregister w h.client_socket) system_msg h.client_socket

/-- The world in which no handler has run yet. -/
def World.init : World := { reg := Registry.init, sends := [], closes := [], lines := [] }

/-! ## Specification-side definitions and example states for the handler -/

/-- The entry `[ID:n]nickname` of a session in the list of online users. -/
def list_entry (c : ClientInfo) : List Byte :=
  ascii "[ID:" ++ (fmt_d c.user_id ++ (ascii "]" ++ c.username))

/-- The entries of a list joined by `", "`. -/
def join_entries : List (List Byte) → List Byte
  | [] => []
  | [e] => e
  | e :: e2 :: es => e ++ (ascii ", " ++ join_entries (e2 :: es))

/-- The body the specification gives the reply to a list request: `Online users: ` followed by
the entries of the active sessions, in table order, joined by `", "`. -/
def online_users (st : Registry) : List Byte :=
  ascii "Online users: " ++ join_entries (st.active_sessions.map list_entry)

/-- The entries of the active slots of a list, each preceded by `", "`. -/
def more_entries : List ClientInfo → List Byte
  | [] => []
  | c :: rest =>
    if c.active ≠ 0 then ascii ", " ++ (list_entry c ++ more_entries rest) else more_entries rest

/-- The reply to a list request whose body is the specified one cut to the 2047 bytes of the
body array. -/
def list_reply (st : Registry) (now : List Byte) : ChatMessage :=
  { type := 3, timestamp := now, username := ascii "SERVER",
    content := (online_users st).take (MAX_MESSAGE_LEN - 1),
    content_length := (((online_users st).take (MAX_MESSAGE_LEN - 1)).length : Int) }

/-- The timestamp used in the examples. -/
def ts_example : List Byte := ascii "2024-01-01 00:00:00"

/-- The world after `alice` registered on connection 1 and `bob` on connection 2. -/
def w_two : World :=
  { reg := run Registry.init [Op.add 1 (ascii "alice"), Op.add 2 (ascii "bob")],
    sends := [], closes := [], lines := [] }

/-- The 63-byte nickname `1<ii>aaa...a`. -/
def long_nick (i : Nat) : List Byte := natDigits 3 (100 + i) ++ List.replicate 60 97

/-- The registrations of `n` connections `1 .. n` under 63-byte nicknames. -/
def fill_long (n : Nat) : List Op := (List.range n).map (fun i => Op.add (i + 1) (long_nick i))

/-- The world after 33 connections registered under 63-byte nicknames. -/
def w_long : World :=
  { reg := run Registry.init (fill_long 33), sends := [], closes := [], lines := [] }

/-- Two active sessions on connection 1. -/
def st_shared_socket : Registry :=
  run Registry.init [Op.add 1 (ascii "a"), Op.add 1 (ascii "b")]

/-- The locals of the handler of connection 2 when it enters the main loop, the receive buffer
zeroed. -/
def h_bob : Handler :=
  { client_socket := 2, client_username := ascii "bob",
    recv_buffer := List.replicate (2 * MAX_BUFFER_SIZE) 0, recv_pos := 0 }

/-- The `'\n'`-terminated segments of a byte stream, without their `'\n'`, and the partial line
after the last `'\n'`. -/
def split_lines : List Byte → List (List Byte) × List Byte
  | [] => ([], [])
  | b :: rest =>
    if b = NEWLINE then ([] :: (split_lines rest).1, (split_lines rest).2)
    else
      match (split_lines rest).1 with
      | [] => ([], b :: (split_lines rest).2)
      | l :: ls => ((b :: l) :: ls, (split_lines rest).2)

/-- A run of 4095 bytes `a`. -/
def long_run : List Byte := List.replicate 4095 97

/-- A read in which a NUL byte precedes the `'\n'`: `a`, NUL, `b`, `'\n'`. -/
def read_with_nul : List Byte := [97, 0, 98, 10]

/-- The `Leave` message of `bob`. -/
def msg_leave : ChatMessage :=
  { type := 2, timestamp := ascii "t", username := ascii "bob", content := [],
    content_length := 0 }

/-- The chat message `hi` of `bob`. -/
def msg_hi : ChatMessage :=
  { type := 3, timestamp := ascii "t", username := ascii "bob", content := ascii "hi",
    content_length := 2 }

/-- The list request of `bob`. -/
def msg_list : ChatMessage :=
  { type := 4, timestamp := ascii "t", username := ascii "bob", content := [],
    content_length := 0 }

/-- A read that holds a `Leave` line and a chat line after it. -/
def read_leave_then_chat : List Byte := ascii "2|t|bob|0|\n3|t|bob|2|hi\n"

/-- Two reads that cut the second of two lines in two and end in a partial line. -/
def reads_two_lines : List (List Byte) := [ascii "3|t|bob|2|hi\n4|t|", ascii "bob|0|\nxy"]

/-- A chat message a client may put on a line: of type `Message`, its fields within the bounds
of the struct and free of NUL and `'\n'`, timestamp and sender free of `'|'`, and the declared
length that of the body. -/
abbrev valid_message (m : ChatMessage) : Prop :=
  m.type = 3 ∧
    (m.timestamp.length ≤ 31 ∧ 0 ∉ m.timestamp ∧ PIPE ∉ m.timestamp ∧ NEWLINE ∉ m.timestamp) ∧
    (m.username.length ≤ 63 ∧ 0 ∉ m.username ∧ PIPE ∉ m.username ∧ NEWLINE ∉ m.username) ∧
    (m.content.length ≤ 2047 ∧ 0 ∉ m.content ∧ NEWLINE ∉ m.content) ∧
    m.content_length = (m.content.length : Int)

/-- The chat message `a|b` of `bob`. -/
def msg_pipe_bob : ChatMessage :=
  { type := 3, timestamp := ascii "t", username := ascii "bob", content := ascii "a|b",
    content_length := 3 }

/-- Two reads that bring the lines of `msg_hi` and `msg_pipe_bob`, cut inside the first
body. -/
def reads_fifo : List (List Byte) := [ascii "3|t|bob|2|h", ascii "i\n3|t|bob|3|a|b\n"]

/-! ## Handlers that run at the same time -/

/-- A step of a thread on what the threads share: it takes `client_mutex`
(`WaitForSingleObject`), gives it back (`ReleaseMutex`), or makes one call of `send`. -/
inductive Event where
  | acquire
  | release
  | send (socket : SOCKET) (data : List Byte)
  deriving DecidableEq

/-- The steps of `broadcast_message(msg, sender_socket)` on a table that stays as it is
meanwhile: the line is built, the mutex is taken, the send loop makes its calls, the mutex is
given back. -/
def broadcast_message_steps (st : Registry) (msg : ChatMessage) (sender_socket : SOCKET) :
    List Event :=
  let r := serialize_message msg MAX_BUFFER_SIZE
  if r.1 < 0 then []
  else
    Event.acquire ::
      ((broadcast_loop st.used sender_socket (r.2.take r.1.toNat)).map
        (fun e => Event.send e.1 e.2) ++ [Event.release])

/-- The steps of `send_to_client(socket, msg)`: the line is built and two calls of `send` are
made, the line and then the `'\n'`; the mutex is not taken. -/
def send_to_client_steps (socket : SOCKET) (msg : ChatMessage) : List Event :=
  let r := serialize_message msg MAX_BUFFER_SIZE
  if r.1 < 0 then []
  else [Event.send socket (r.2.take r.1.toNat), Event.send socket [NEWLINE]]

/-- The steps of the case `MSG_LIST` of the `switch` on a table that stays as it is meanwhile:
`get_user_list` reads the table under the mutex, then the reply goes out through
`send_to_client`. -/
def list_steps (st : Registry) (client_socket : SOCKET) (now : List Byte) : List Event :=
  [Event.acquire, Event.release] ++
    send_to_client_steps client_socket
      (server_message 3 now (ascii "Online users: " ++ get_user_list st MAX_MESSAGE_LEN))

/-- The `send` calls among the steps of a thread, in order. -/
def sends_of : List Event → List Send
  | [] => []
  | Event.send s d :: rest => (s, d) :: sends_of rest
  | _ :: rest => sends_of rest

/-- One step of the thread `t` when `holder` has the mutex: the holder afterwards and the `send`
call made, or `none` when the thread has to wait (the mutex is held) or gives back a mutex it
does not hold. -/
def take_step (t : Bool) (holder : Option Bool) : Event → Option (Option Bool × List Send)
  | Event.acquire => if holder = none then some (some t, []) else none
  | Event.release => if holder = some t then some (none, []) else none
  | Event.send s d => some (holder, [(s, d)])

/-- Two threads take their steps in the order of a schedule: `false` lets the first thread take
its next step, `true` the second.  The result is the log of the `send` calls in the order
made; it is `none` when the schedule names a thread that has finished or that has to wait, or
when it ends before both threads have. -/
def run_threads : List Bool → Option Bool → List Event → List Event → Option (List Send)
  | [], _, [], [] => some []
  | false :: sched, holder, e :: a, b =>
    match take_step false holder e with
    | none => none
    | some (holder1, out) => (run_threads sched holder1 a b).map (fun log => out ++ log)
  | true :: sched, holder, a, e :: b =>
    match take_step true holder e with
    | none => none
    | some (holder1, out) => (run_threads sched holder1 a b).map (fun log => out ++ log)
  | _, _, _, _ => none

/-- The list request of `alice`. -/
def msg_list_alice : ChatMessage :=
  { type := 4, timestamp := ascii "t", username := ascii "alice", content := [],
    content_length := 0 }

/-- The reply to a list request in `w_two`. -/
def reply_two : ChatMessage :=
  { type := 3, timestamp := ts_example, username := ascii "SERVER",
    content := ascii "Online users: [ID:1]alice, [ID:2]bob", content_length := 36 }

/-- A schedule in which the handler of `alice` (the second thread) reads the table and sends
the line of its reply, the handler of `bob` (the first thread) then relays a chat line under
the mutex, and the handler of `alice` sends its `'\n'` last. -/
def schedule_between : List Bool := [true, true, true, false, false, false, false, true]

/-- A schedule in which the handler of `bob` takes all its steps before the handler of
`alice` takes hers. -/
def schedule_apart : List Bool := [false, false, false, false, true, true, true, true]

/-! ## Lemmas on the libc model -/

theorem cstr_eq_self {s : List Byte} (h : 0 ∉ s) : cstr s = s := by
  unfold cstr
  rw [List.takeWhile_eq_self_iff]
  intro b hb
  have : b ≠ 0 := fun e => h (e ▸ hb)
  simpa using this

theorem cstr_no_nul (s : List Byte) : 0 ∉ cstr s := by
  unfold cstr
  intro h
  have := List.mem_takeWhile_imp h
  simp at this

theorem cstr_idem (s : List Byte) : cstr (cstr s) = cstr s := cstr_eq_self (cstr_no_nul s)

theorem strchr_split (c : Byte) (b rest : List Byte) (hc : c ∉ b) (h0 : 0 ∉ b) :
    strchr (b ++ c :: rest) c = some (b, c :: rest) := by
  induction b with
  | nil => simp [strchr]
  | cons x xs ih =>
    have hx : x ≠ c := fun e => hc (by simp [e])
    have hx0 : x ≠ 0 := fun e => h0 (by simp [e])
    have hc2 : c ∉ xs := fun e => hc (List.mem_cons_of_mem _ e)
    have h02 : 0 ∉ xs := fun e => h0 (List.mem_cons_of_mem _ e)
    simp [strchr, hx, hx0, ih hc2 h02]

theorem strchr_nul (c : Byte) (b rest : List Byte) (hc : c ∉ b) (h0 : 0 ∈ b) :
    strchr (b ++ rest) c = none := by
  induction b with
  | nil => simp at h0
  | cons x xs ih =>
    have hx : x ≠ c := fun e => hc (by simp [e])
    have hc2 : c ∉ xs := fun e => hc (List.mem_cons_of_mem _ e)
    by_cases hx0 : x = 0
    · subst hx0
      simp [strchr, hx]
    · have h02 : 0 ∈ xs := by
        rcases List.mem_cons.mp h0 with e | e
        · exact absurd e.symm hx0
        · exact e
      simp [strchr, hx, hx0, ih hc2 h02]

theorem digitsValue_append (ds : List Byte) (d : Byte) :
    digitsValue (ds ++ [d]) = 10 * digitsValue ds + (d - 48) := by
  simp [digitsValue, List.foldl_append]

theorem natDigits_spec (fuel : Nat) : ∀ n, n < 10 ^ fuel → fuel ≠ 0 →
    natDigits fuel n ≠ [] ∧ (∀ d ∈ natDigits fuel n, isdigit d = true) ∧
      digitsValue (natDigits fuel n) = n := by
  induction fuel with
  | zero => intro n _ h; exact absurd rfl h
  | succ f ih =>
    intro n hn _
    unfold natDigits
    by_cases h10 : n < 10
    · simp only [h10, if_true]
      refine ⟨by simp, ?_, ?_⟩
      · intro d hd
        simp at hd
        subst hd
        simp [isdigit]
        unfold Byte at *
        omega
      · simp [digitsValue]
    · simp only [h10, if_false]
      have hf : f ≠ 0 := by
        intro e
        subst e
        simp at hn
        omega
      have hdiv : n / 10 < 10 ^ f := by
        rw [pow_succ] at hn
        omega
      obtain ⟨_, h2, h3⟩ := ih (n / 10) hdiv hf
      refine ⟨by simp, ?_, ?_⟩
      · intro d hd
        rcases List.mem_append.mp hd with h | h
        · exact h2 d h
        · simp at h
          subst h
          simp [isdigit]
          unfold Byte at *
          omega
      · rw [digitsValue_append, h3]
        unfold Byte at *
        omega

theorem natDigits_length (fuel : Nat) : ∀ n k, n < 10 ^ k → k ≠ 0 →
    (natDigits fuel n).length ≤ k := by
  induction fuel with
  | zero => intro n k _ _; simp [natDigits]
  | succ f ih =>
    intro n k hn hk
    unfold natDigits
    by_cases h10 : n < 10
    · simp only [h10, if_true, List.length_singleton]
      omega
    · simp only [h10, if_false, List.length_append, List.length_singleton]
      obtain ⟨j, rfl⟩ := Nat.exists_eq_succ_of_ne_zero hk
      have hj : j ≠ 0 := by
        intro e
        subst e
        simp at hn
        omega
      have hdiv : n / 10 < 10 ^ j := by
        rw [pow_succ] at hn
        omega
      have := ih (n / 10) j hdiv hj
      omega

theorem lt_ten_pow_succ (n : Nat) : n < 10 ^ (n + 1) := by
  have h1 : n < 10 ^ n := Nat.lt_pow_self (by norm_num) n
  have h2 : 10 ^ n ≤ 10 ^ (n + 1) := Nat.pow_le_pow_right (by norm_num) (Nat.le_succ n)
  omega

/-- The digits written for `n` by `%d`: a non-empty run of digits whose value is `n`. -/
theorem natDigits_self (n : Nat) :
    natDigits (n + 1) n ≠ [] ∧ (∀ d ∈ natDigits (n + 1) n, isdigit d = true) ∧
      digitsValue (natDigits (n + 1) n) = n :=
  natDigits_spec (n + 1) n (lt_ten_pow_succ n) (Nat.succ_ne_zero n)

theorem takeWhile_isdigit_append (ds rest : List Byte) (hd : ∀ d ∈ ds, isdigit d = true)
    (hr : ∀ c, rest.head? = some c → isdigit c = false) :
    (ds ++ rest).takeWhile isdigit = ds := by
  induction ds with
  | nil =>
    cases rest with
    | nil => rfl
    | cons c r => simp [List.takeWhile, hr c rfl]
  | cons x xs ih =>
    have hx : isdigit x = true := hd x (by simp)
    simp [List.takeWhile, hx]
    exact ih (fun d h => hd d (List.mem_cons_of_mem _ h))

theorem dropWhile_isdigit_append (ds rest : List Byte) (hd : ∀ d ∈ ds, isdigit d = true)
    (hr : ∀ c, rest.head? = some c → isdigit c = false) :
    (ds ++ rest).dropWhile isdigit = rest := by
  induction ds with
  | nil =>
    cases rest with
    | nil => rfl
    | cons c r => simp [List.dropWhile, hr c rfl]
  | cons x xs ih =>
    have hx : isdigit x = true := hd x (by simp)
    simp [List.dropWhile, hx]
    exact ih (fun d h => hd d (List.mem_cons_of_mem _ h))

theorem isdigit_bounds {d : Byte} (h : isdigit d = true) : (48 : Nat) ≤ d ∧ d ≤ (57 : Nat) := by
  simpa [isdigit] using h

/-- What `strtol` does on a numeral: an optional minus sign and a non-empty run of digits,
followed by a byte that is not a digit. -/
theorem strtol_numeral (neg : Bool) (ds rest : List Byte) (hne : ds ≠ [])
    (hd : ∀ d ∈ ds, isdigit d = true) (hr : ∀ c, rest.head? = some c → isdigit c = false) :
    strtol ((if neg then [45] else []) ++ (ds ++ rest)) =
      (clampLong (if neg then -(digitsValue ds : Int) else (digitsValue ds : Int)), rest) := by
  obtain ⟨d, ds', rfl⟩ := List.exists_cons_of_ne_nil hne
  have hdb := isdigit_bounds (hd d (by simp))
  have htk := takeWhile_isdigit_append (d :: ds') rest hd hr
  have hdr := dropWhile_isdigit_append (d :: ds') rest hd hr
  cases neg with
  | true =>
    have hsp : isspace 45 = false := by decide
    simp only [strtol, if_true, List.singleton_append, List.dropWhile_cons, hsp,
      List.head?_cons, List.tail_cons, Bool.false_eq_true, if_false]
    simp only [beq_self_eq_true, Bool.true_or, if_true, htk, hdr]
    simp
  | false =>
    have hsp : isspace d = false := by
      simp [isspace]
      unfold Byte at *
      omega
    have h45 : (some d == some (45 : Byte)) = false := by
      simp
      unfold Byte at *
      omega
    have h43 : (some d == some (43 : Byte)) = false := by
      simp
      unfold Byte at *
      omega
    have e : ([] : List Byte) ++ (d :: ds' ++ rest) = d :: (ds' ++ rest) := rfl
    have hs : (d :: (ds' ++ rest)).dropWhile isspace = d :: (ds' ++ rest) := by
      simp [List.dropWhile, hsp]
    simp only [Bool.false_eq_true, if_false, e]
    unfold strtol
    simp only [hs, List.head?_cons, h45, h43, Bool.or_self, Bool.false_eq_true, if_false]
    rw [← List.cons_append, htk, hdr]
    simp

theorem strtol_fmt_d (v : Int) (rest : List Byte)
    (hr : ∀ c, rest.head? = some c → isdigit c = false) :
    strtol (fmt_d v ++ rest) = (clampLong v, rest) := by
  obtain ⟨h1, h2, h3⟩ := natDigits_self v.natAbs
  have key := strtol_numeral (decide (v < 0)) (natDigits (v.natAbs + 1) v.natAbs) rest h1 h2 hr
  by_cases hv : v < 0
  · have e : fmt_d v ++ rest = [45] ++ (natDigits (v.natAbs + 1) v.natAbs ++ rest) := by
      simp [fmt_d, hv]
    rw [e]
    simp only [hv, decide_True, if_true] at key
    rw [key, h3]
    congr 2
    omega
  · have e : fmt_d v ++ rest = [] ++ (natDigits (v.natAbs + 1) v.natAbs ++ rest) := by
      simp [fmt_d, hv]
    rw [e]
    simp only [hv, decide_False, Bool.false_eq_true, if_false] at key
    rw [key, h3]
    congr 2
    omega

theorem clampLong_of_int {v : Int} (h1 : LONG_MIN ≤ v) (h2 : v ≤ LONG_MAX) : clampLong v = v := by
  unfold clampLong
  rw [if_neg (by omega), if_neg (by omega)]

theorem fmt_d_length (v : Int) (k : Nat) (hk : k ≠ 0) (h : v.natAbs < 10 ^ k) :
    (fmt_d v).length ≤ k + 1 := by
  have := natDigits_length (v.natAbs + 1) v.natAbs k h hk
  unfold fmt_d
  split <;> simp <;> omega

theorem pipe_not_digit : ∀ c, (PIPE :: (l : List Byte)).head? = some c → isdigit c = false := by
  intro c h
  simp at h
  subst h
  decide

/-- The line written for a well-formed message, whose declared length is the body's. -/
theorem format_line_wf (m : ChatMessage) (hts0 : 0 ∉ m.timestamp) (hun0 : 0 ∉ m.username)
    (hc0 : 0 ∉ m.content) (hlen : m.content_length = (m.content.length : Int)) :
    format_line m = fmt_d m.type ++ PIPE :: (m.timestamp ++ PIPE :: (m.username ++ PIPE ::
      (fmt_d m.content_length ++ PIPE :: m.content))) := by
  have hp : ¬ m.content_length < 0 := by omega
  simp [format_line, fmt_s, fmt_s_prec, cstr_eq_self hts0, cstr_eq_self hun0,
    cstr_eq_self hc0, hp, hlen]

theorem format_line_length_le (m : ChatMessage)
    (hty : LONG_MIN ≤ m.type ∧ m.type ≤ LONG_MAX)
    (hts : m.timestamp.length ≤ 31) (hts0 : 0 ∉ m.timestamp)
    (hun : m.username.length ≤ 63) (hun0 : 0 ∉ m.username)
    (hc : m.content.length ≤ 2047) (hc0 : 0 ∉ m.content)
    (hlen : m.content_length = (m.content.length : Int)) :
    (format_line m).length ≤ 2161 := by
  rw [format_line_wf m hts0 hun0 hc0 hlen]
  have h1 : (fmt_d m.type).length ≤ 10 + 1 :=
    fmt_d_length m.type 10 (by decide) (by
      unfold LONG_MIN LONG_MAX at hty
      omega)
  have h2 : (fmt_d m.content_length).length ≤ 4 + 1 :=
    fmt_d_length m.content_length 4 (by decide) (by omega)
  simp only [List.length_append, List.length_cons]
  omega

theorem strncpy_own_length (a rest : List Byte) (h0 : 0 ∉ a) :
    strncpy (a ++ rest) a.length = a := by
  have e : cstr (a ++ rest) = a ++ cstr rest := by
    unfold cstr
    rw [List.takeWhile_append_of_pos]
    intro b hb
    have : b ≠ 0 := fun e => h0 (e ▸ hb)
    simpa using this
  unfold strncpy
  rw [e, List.take_left]

theorem deserialize_format_line (m : ChatMessage)
    (hty : LONG_MIN ≤ m.type ∧ m.type ≤ LONG_MAX)
    (hts : m.timestamp.length ≤ 31) (hts0 : 0 ∉ m.timestamp) (htsp : PIPE ∉ m.timestamp)
    (hun : m.username.length ≤ 63) (hun0 : 0 ∉ m.username) (hunp : PIPE ∉ m.username)
    (hc : m.content.length ≤ 2047) (hc0 : 0 ∉ m.content)
    (hlen : m.content_length = (m.content.length : Int)) :
    deserialize_message (format_line m) = some m := by
  rw [format_line_wf m hts0 hun0 hc0 hlen]
  unfold deserialize_message
  rw [strtol_fmt_d _ _ pipe_not_digit, clampLong_of_int hty.1 hty.2]
  simp only [List.head?_cons, ne_eq, not_true_eq_false, if_false, List.tail_cons]
  rw [strchr_split PIPE _ _ htsp hts0]
  simp only [List.tail_cons]
  rw [strchr_split PIPE _ _ hunp hun0]
  simp only [List.tail_cons]
  rw [strtol_fmt_d _ _ pipe_not_digit,
    clampLong_of_int (by unfold LONG_MIN; omega) (by unfold LONG_MAX; omega)]
  have hts' : ¬ m.timestamp.length ≥ TIMESTAMP_SIZE := by unfold TIMESTAMP_SIZE; omega
  have hun' : ¬ m.username.length ≥ MAX_USERNAME_LEN := by unfold MAX_USERNAME_LEN; omega
  have hr1 : ¬ (m.content_length < 0 ∨ m.content_length ≥ (MAX_MESSAGE_LEN : Int)) := by
    unfold MAX_MESSAGE_LEN
    omega
  have hr2 : ¬ m.content_length.toNat ≥ MAX_MESSAGE_LEN := by
    unfold MAX_MESSAGE_LEN
    omega
  simp only [hts', hun', hr1, hr2, if_false, strncpy_own_length _ _ hts0, strncpy_own_length _ _ hun0]
  by_cases hpos : m.content_length > 0
  · simp only [hpos, if_true, memcpy]
    have e : m.content_length.toNat = m.content.length := by omega
    rw [e]
    simp only [List.head?_cons, not_true_eq_false, if_false, List.tail_cons, List.take_length]
  · simp only [hpos, if_false]
    have e : m.content = [] := List.length_eq_zero.mp (by omega)
    simp only [List.head?_cons, not_true_eq_false, if_false]
    rw [← e]

theorem dropWhile_append_stop (p : Byte → Bool) (a rest : List Byte) (c : Byte)
    (hc : p c = false) : (a ++ c :: rest).dropWhile p = a.dropWhile p ++ c :: rest := by
  induction a with
  | nil => simp [List.dropWhile, hc]
  | cons x xs ih =>
    by_cases hx : p x = true
    · simp [List.dropWhile, hx, ih]
    · simp [List.dropWhile, hx]

theorem not_mem_dropWhile {p : Byte → Bool} {a : List Byte} {c : Byte} (h : c ∉ a) :
    c ∉ a.dropWhile p :=
  fun hm => h ((List.dropWhile_sublist p).subset hm)

theorem strtol_snd (nptr : List Byte) :
    (strtol nptr).2 = nptr ∨
      (strtol nptr).2 =
        (if (nptr.dropWhile isspace).head? == some 45 || (nptr.dropWhile isspace).head? == some 43
          then (nptr.dropWhile isspace).tail else nptr.dropWhile isspace).dropWhile isdigit := by
  unfold strtol
  dsimp only
  exact (ite_eq_or_eq _ _ _).imp (fun h => by rw [h]) (fun h => by rw [h])

/-- Where `strtol` leaves `endptr` in a field that ends at a `'|'`: inside the field or on
the `'|'`. -/
theorem strtol_endptr (a rest : List Byte) (ha : PIPE ∉ a) :
    ∃ a', (strtol (a ++ PIPE :: rest)).2 = a' ++ PIPE :: rest ∧ PIPE ∉ a' := by
  have hsp : isspace PIPE = false := by decide
  have hdg : isdigit PIPE = false := by decide
  rcases strtol_snd (a ++ PIPE :: rest) with h | h
  · exact ⟨a, h, ha⟩
  · rw [h, dropWhile_append_stop isspace a rest PIPE hsp]
    have hs : PIPE ∉ a.dropWhile isspace := not_mem_dropWhile ha
    cases hcase : a.dropWhile isspace with
    | nil =>
      refine ⟨[], ?_, by simp⟩
      have e1 : (some PIPE == some (45 : Byte)) = false := by decide
      have e2 : (some PIPE == some (43 : Byte)) = false := by decide
      simp only [List.nil_append, List.head?_cons, e1, e2, Bool.or_self,
        Bool.false_eq_true, if_false, List.dropWhile_cons, hdg]
    | cons x xs =>
      rw [hcase] at hs
      have hxs : PIPE ∉ xs := fun e => hs (List.mem_cons_of_mem _ e)
      by_cases hsign : (some x == some (45 : Byte) || some x == some (43 : Byte)) = true
      · refine ⟨xs.dropWhile isdigit, ?_, not_mem_dropWhile hxs⟩
        simp only [List.cons_append, List.head?_cons, hsign, if_true, List.tail_cons]
        exact dropWhile_append_stop isdigit xs rest PIPE hdg
      · refine ⟨(x :: xs).dropWhile isdigit, ?_, not_mem_dropWhile hs⟩
        simp only [List.cons_append, List.head?_cons, hsign, if_false]
        exact dropWhile_append_stop isdigit (x :: xs) rest PIPE hdg

theorem clampLong_neg {v : Int} (h : v < 0) : clampLong v < 0 := by
  unfold clampLong LONG_MAX LONG_MIN
  split
  · omega
  · split <;> omega

theorem clampLong_big {v : Int} (h : 2047 < v) : 2047 < clampLong v := by
  unfold clampLong LONG_MAX LONG_MIN
  split
  · omega
  · split <;> omega

/-- A line whose length field is a numeral below zero or above 2047 is rejected. -/
theorem deserialize_reject_length (a b c ds rest : List Byte) (neg : Bool)
    (ha : PIPE ∉ a) (hb : PIPE ∉ b) (hc : PIPE ∉ c)
    (hne : ds ≠ []) (hd : ∀ d ∈ ds, isdigit d = true)
    (hn : (if neg then -(digitsValue ds : Int) else (digitsValue ds : Int)) < 0 ∨
      2047 < (if neg then -(digitsValue ds : Int) else (digitsValue ds : Int))) :
    deserialize_message (a ++ PIPE :: (b ++ PIPE :: (c ++ PIPE ::
      ((if neg then [45] else []) ++ (ds ++ PIPE :: rest))))) = none := by
  obtain ⟨a', ha', hpa⟩ := strtol_endptr a (b ++ PIPE :: (c ++ PIPE ::
      ((if neg then [45] else []) ++ (ds ++ PIPE :: rest)))) ha
  have hst : strtol (a ++ PIPE :: (b ++ PIPE :: (c ++ PIPE ::
      ((if neg then [45] else []) ++ (ds ++ PIPE :: rest))))) =
      ((strtol (a ++ PIPE :: (b ++ PIPE :: (c ++ PIPE ::
      ((if neg then [45] else []) ++ (ds ++ PIPE :: rest)))))).1, a' ++ PIPE :: (b ++ PIPE ::
      (c ++ PIPE :: ((if neg then [45] else []) ++ (ds ++ PIPE :: rest))))) := Prod.ext rfl ha'
  unfold deserialize_message
  rw [hst]
  cases a' with
  | cons x xs =>
    have hx : x ≠ PIPE := fun e => hpa (by simp [e])
    simp [hx]
  | nil =>
    simp only [List.nil_append, List.head?_cons, ne_eq, not_true_eq_false, if_false,
      List.tail_cons]
    by_cases hb0 : (0 : Byte) ∈ b
    · have e := strchr_nul PIPE b (PIPE :: (c ++ PIPE ::
        ((if neg then [45] else []) ++ (ds ++ PIPE :: rest)))) hb hb0
      rw [e]
    · rw [strchr_split PIPE b _ hb hb0]
      simp only [List.tail_cons]
      by_cases hc0 : (0 : Byte) ∈ c
      · have e := strchr_nul PIPE c (PIPE ::
          ((if neg then [45] else []) ++ (ds ++ PIPE :: rest))) hc hc0
        rw [e]
      · rw [strchr_split PIPE c _ hc hc0]
        simp only [List.tail_cons]
        rw [strtol_numeral neg ds (PIPE :: rest) hne hd pipe_not_digit]
        simp only [List.head?_cons, ne_eq, not_true_eq_false, if_false]
        have hrej : clampLong (if neg then -(digitsValue ds : Int) else (digitsValue ds : Int)) < 0 ∨
            clampLong (if neg then -(digitsValue ds : Int) else (digitsValue ds : Int)) ≥
              (MAX_MESSAGE_LEN : Int) := by
          rcases hn with h | h
          · exact Or.inl (clampLong_neg h)
          · right
            have := clampLong_big h
            unfold MAX_MESSAGE_LEN
            omega
        rw [if_pos hrej]

/-- A message that `deserialize_message` returns has a length within the body array. -/
theorem deserialize_some_bounds (buffer : List Byte) (m : ChatMessage)
    (h : deserialize_message buffer = some m) :
    0 ≤ m.content_length ∧ m.content_length ≤ 2047 ∧ m.content.length ≤ 2047 ∧
      (m.content.length : Int) ≤ m.content_length := by
  unfold deserialize_message at h
  generalize strtol buffer = r1 at h
  obtain ⟨ty, e1⟩ := r1
  dsimp only at h
  by_cases c1 : e1.head? ≠ some PIPE
  · rw [if_pos c1] at h
    exact absurd h (by simp)
  rw [if_neg c1] at h
  generalize strchr e1.tail PIPE = r2 at h
  cases r2 with
  | none => exact absurd h (by simp)
  | some r2 =>
    obtain ⟨sk, te⟩ := r2
    dsimp only at h
    generalize strchr te.tail PIPE = r3 at h
    cases r3 with
    | none => exact absurd h (by simp)
    | some r3 =>
      obtain ⟨sk2, ue⟩ := r3
      dsimp only at h
      generalize strtol ue.tail = r4 at h
      obtain ⟨len, e2⟩ := r4
      dsimp only at h
      by_cases c2 : e2.head? ≠ some PIPE
      · rw [if_pos c2] at h
        exact absurd h (by simp)
      rw [if_neg c2] at h
      by_cases c3 : len < 0 ∨ len ≥ (MAX_MESSAGE_LEN : Int)
      · rw [if_pos c3] at h
        exact absurd h (by simp)
      rw [if_neg c3] at h
      unfold MAX_MESSAGE_LEN at c3 h
      by_cases c4 : len > 0
      · rw [if_pos c4] at h
        have c5 : ¬ len.toNat ≥ 2048 := by omega
        simp only [c5, if_false, Option.some.injEq] at h
        subst h
        simp only [memcpy, List.length_take]
        omega
      · rw [if_neg c4] at h
        simp only [Option.some.injEq] at h
        subst h
        simp only [List.length_nil]
        omega

/-- The two outcomes of `serialize_message`. -/
theorem serialize_message_cases (m : ChatMessage) (buffer_size : Nat) :
    (buffer_size ≤ (format_line m).length ∧ (serialize_message m buffer_size).1 = -1) ∨
      ((format_line m).length < buffer_size ∧
        serialize_message m buffer_size = (((format_line m).length : Int), format_line m)) := by
  unfold serialize_message
  by_cases h : buffer_size ≤ (format_line m).length
  · left
    have hc : (((format_line m).length : Nat) : Int) < 0 ∨
        (format_line m).length ≥ buffer_size := Or.inr h
    exact ⟨h, by rw [if_pos hc]⟩
  · right
    have hc : ¬ ((((format_line m).length : Nat) : Int) < 0 ∨
        (format_line m).length ≥ buffer_size) := by omega
    exact ⟨by omega, by rw [if_neg hc]⟩

/-! ## The codec: claims -/

/-- C1: round trip.  A message whose type is an `int`, whose timestamp (at most 31 bytes) and
sender (at most 63 bytes) are C strings without `'|'`, whose body is a C string of at most
2047 bytes and whose `content_length` is the body's length, serialises into a 4096-byte buffer
with a non-negative result, and `deserialize_message` on the line written returns `0` with a
message equal to it in every field; the body may hold `'|'`. -/
theorem serialize_deserialize_roundtrip (m : ChatMessage)
    (hty : INT_MIN ≤ m.type ∧ m.type ≤ INT_MAX)
    (hts : m.timestamp.length ≤ 31) (hts0 : 0 ∉ m.timestamp) (htsp : PIPE ∉ m.timestamp)
    (hun : m.username.length ≤ 63) (hun0 : 0 ∉ m.username) (hunp : PIPE ∉ m.username)
    (hc : m.content.length ≤ 2047) (hc0 : 0 ∉ m.content)
    (hlen : m.content_length = (m.content.length : Int)) :
    0 ≤ (serialize_message m MAX_BUFFER_SIZE).1 ∧
      deserialize_message (serialize_message m MAX_BUFFER_SIZE).2 = some m := by
  have hl := format_line_length_le m hty hts hts0 hun hun0 hc hc0 hlen
  have hd := deserialize_format_line m hty hts hts0 htsp hun hun0 hunp hc hc0 hlen
  have hcap : ¬ ((((format_line m).length : Nat) : Int) < 0 ∨
      (format_line m).length ≥ MAX_BUFFER_SIZE) := by
    unfold MAX_BUFFER_SIZE
    omega
  unfold serialize_message
  simp only [hcap, if_false]
  exact ⟨by omega, hd⟩

theorem serialize_deserialize_roundtrip_witness :
    PIPE ∈ msg_pipe_body.content ∧
      0 ≤ (serialize_message msg_pipe_body MAX_BUFFER_SIZE).1 ∧
      deserialize_message (serialize_message msg_pipe_body MAX_BUFFER_SIZE).2
        = some msg_pipe_body :=
  ⟨by decide, serialize_deserialize_roundtrip msg_pipe_body (by decide) (by decide) (by decide)
    (by decide) (by decide) (by decide) (by decide) (by decide) (by decide) (by decide)⟩

/-- C6: on the buffer holding the line `3|t|u|5|ab`, which declares five body bytes and has
two, `deserialize_message` returns `0`: it keeps the declared length 5 and copies five bytes,
the line's terminator and the two bytes after it among them. -/
theorem deserialize_short_body_accepted :
    cstr buf_short_body = ascii "3|t|u|5|ab" ∧
      deserialize_message buf_short_body =
        some { type := 3, timestamp := ascii "t", username := ascii "u",
               content := ascii "ab" ++ 0 :: ascii "XY", content_length := 5 } := by
  decide

/-- C7: `deserialize_message` returns `0` on lines whose kind field or length field is empty:
`strtol` converts nothing, yields `0` and leaves `endptr` on the `'|'`. -/
theorem deserialize_empty_field_accepted :
    deserialize_message (ascii "|2024-01-01 00:00:00|alice|0|") =
        some { type := 0, timestamp := ascii "2024-01-01 00:00:00", username := ascii "alice",
               content := [], content_length := 0 } ∧
      deserialize_message (ascii "3|2024-01-01 00:00:00|alice||hi") =
        some { type := 3, timestamp := ascii "2024-01-01 00:00:00", username := ascii "alice",
               content := [], content_length := 0 } := by
  decide

/-- C9, as stated, fails twice.  The ten-byte line `3|t|u|2|ab` does not exceed a capacity
of ten bytes, yet `serialize_message` returns `-1`.  And the message that declares five body
bytes for the body `ab` is serialised with success as `3|t|u|5|ab`, whose body field holds two
bytes. -/
theorem serialize_message_counterexample :
    ((format_line msg_ten_bytes).length = 10 ∧ (serialize_message msg_ten_bytes 10).1 = -1) ∧
      (msg_long_declared.content_length = 5 ∧
        serialize_message msg_long_declared MAX_BUFFER_SIZE =
          (10, ascii "3|t|u|5|" ++ ascii "ab")) := by
  decide

/-- C9, amended.  `serialize_message` returns `-1` exactly when the line together with its
terminating NUL does not fit, that is when the capacity is at most the line's length;
otherwise it writes the line and returns its length.  The line is `decimal(type)`, `'|'`,
timestamp, `'|'`, sender, `'|'`, `decimal(content_length)`, `'|'` and a body field; when
`0 ≤ content_length ≤ strlen(content)` the body field is the first `content_length` bytes of
the body and so occupies exactly `content_length` bytes. -/
theorem serialize_message_spec (m : ChatMessage) (buffer_size : Nat) :
    ((serialize_message m buffer_size).1 = -1 ↔ buffer_size ≤ (format_line m).length) ∧
      ((format_line m).length < buffer_size →
        serialize_message m buffer_size = (((format_line m).length : Int), format_line m)) ∧
      (0 ≤ m.content_length → m.content_length ≤ (strlen m.content : Int) →
        format_line m =
          fmt_d m.type ++ PIPE :: (cstr m.timestamp ++ PIPE :: (cstr m.username ++ PIPE ::
            (fmt_d m.content_length ++ PIPE :: (cstr m.content).take m.content_length.toNat)))
        ∧ (((cstr m.content).take m.content_length.toNat).length : Int) = m.content_length) := by
  refine ⟨?_, ?_, ?_⟩
  · rcases serialize_message_cases m buffer_size with h | h
    · exact ⟨fun _ => h.1, fun _ => h.2⟩
    · rw [h.2]
      constructor
      · intro e
        have e2 : (((format_line m).length : Nat) : Int) = -1 := e
        omega
      · intro e
        omega
  · intro h
    rcases serialize_message_cases m buffer_size with h2 | h2
    · omega
    · exact h2.2
  · intro h0 hle
    have hp : ¬ m.content_length < 0 := by omega
    refine ⟨by simp only [format_line, fmt_s, fmt_s_prec, hp, if_false], ?_⟩
    rw [List.length_take]
    unfold strlen at hle
    omega

theorem serialize_message_spec_witness :
    (0 : Int) ≤ msg_pipe_body.content_length ∧
      msg_pipe_body.content_length ≤ (strlen msg_pipe_body.content : Int) ∧
      (format_line msg_pipe_body).length < MAX_BUFFER_SIZE ∧
      serialize_message msg_pipe_body MAX_BUFFER_SIZE =
        (((format_line msg_pipe_body).length : Int), format_line msg_pipe_body) ∧
      (((cstr msg_pipe_body.content).take msg_pipe_body.content_length.toNat).length : Int)
        = msg_pipe_body.content_length :=
  ⟨by decide, by decide, by decide,
    (serialize_message_spec msg_pipe_body MAX_BUFFER_SIZE).2.1 (by decide),
    ((serialize_message_spec msg_pipe_body MAX_BUFFER_SIZE).2.2 (by decide) (by decide)).2⟩

/-- C8: the length field is checked against the body array.  A line whose third and fourth
`'|'` enclose a numeral (an optional minus sign and digits) that denotes a negative integer or
an integer above 2047, however large, makes `deserialize_message` return `-1`; and whenever it
returns `0`, `0 ≤ content_length ≤ 2047` and at most 2047 body bytes were copied. -/
theorem deserialize_length_checked :
    (∀ (a b c ds rest : List Byte) (neg : Bool),
        PIPE ∉ a → PIPE ∉ b → PIPE ∉ c → ds ≠ [] → (∀ d ∈ ds, isdigit d = true) →
        ((if neg then -(digitsValue ds : Int) else (digitsValue ds : Int)) < 0 ∨
          2047 < (if neg then -(digitsValue ds : Int) else (digitsValue ds : Int))) →
        deserialize_message (a ++ PIPE :: (b ++ PIPE :: (c ++ PIPE ::
          ((if neg then [45] else []) ++ (ds ++ PIPE :: rest))))) = none) ∧
      (∀ (buffer : List Byte) (m : ChatMessage), deserialize_message buffer = some m →
        0 ≤ m.content_length ∧ m.content_length ≤ 2047 ∧ m.content.length ≤ 2047) :=
  ⟨fun a b c ds rest neg ha hb hc hne hd hn =>
      deserialize_reject_length a b c ds rest neg ha hb hc hne hd hn,
    fun buffer m h =>
      ⟨(deserialize_some_bounds buffer m h).1, (deserialize_some_bounds buffer m h).2.1,
        (deserialize_some_bounds buffer m h).2.2.1⟩⟩

theorem deserialize_length_checked_witness :
    (2047 : Int) < (digitsValue (ascii "99999999999999999999") : Int) ∧
      deserialize_message (ascii "3" ++ PIPE :: (ascii "t" ++ PIPE :: (ascii "u" ++ PIPE ::
        ([] ++ (ascii "99999999999999999999" ++ PIPE :: ascii "hi"))))) = none ∧
      deserialize_message (ascii "3|t|u|2|hi") = some ⟨3, ascii "t", ascii "u", ascii "hi", 2⟩ ∧
      (0 : Int) ≤ 2 ∧ (2 : Int) ≤ 2047 ∧ (ascii "hi").length ≤ 2047 :=
  ⟨by decide,
    deserialize_length_checked.1 (ascii "3") (ascii "t") (ascii "u")
      (ascii "99999999999999999999") (ascii "hi") false (by decide) (by decide) (by decide)
      (by decide) (by decide) (Or.inr (by decide)),
    by decide,
    deserialize_length_checked.2 (ascii "3|t|u|2|hi") ⟨3, ascii "t", ascii "u", ascii "hi", 2⟩
      (by decide)⟩

/-! ## Lemmas on the client table -/

theorem take_succ_set (l : List ClientInfo) (e : ClientInfo) :
    ∀ n, n < l.length → (l.set n e).take (n + 1) = l.take n ++ [e] := by
  induction l with
  | nil => intro n h; simp at h
  | cons x xs ih =>
    intro n h
    cases n with
    | zero => simp
    | succ k =>
      simp only [List.set_cons_succ, List.take_succ_cons, List.cons_append, List.cons.injEq,
        true_and]
      exact ih k (by simpa using h)

theorem init_wf : Registry.init.wf := by
  constructor
  · simp [Registry.init]
  · simp [Registry.init]

theorem duplicate_loop_iff (l : List ClientInfo) (username : List Byte) :
    duplicate_loop l username = true ↔
      ∃ c ∈ l, c.active ≠ 0 ∧ cstr c.username = cstr username := by
  induction l with
  | nil => simp [duplicate_loop]
  | cons x xs ih =>
    unfold duplicate_loop
    by_cases hx : x.active ≠ 0 ∧ strcmp x.username username = 0
    · rw [if_pos hx]
      have : cstr x.username = cstr username := by
        have h2 := hx.2
        unfold strcmp at h2
        by_contra hne
        rw [if_neg hne] at h2
        exact absurd h2 (by decide)
      simp only [List.mem_cons, true_iff]
      exact ⟨x, Or.inl rfl, hx.1, this⟩
    · rw [if_neg hx, ih]
      constructor
      · rintro ⟨c, hc, h⟩
        exact ⟨c, List.mem_cons_of_mem _ hc, h⟩
      · rintro ⟨c, hc, h1, h2⟩
        rcases List.mem_cons.mp hc with e | e
        · subst e
          exact absurd ⟨h1, by simp [strcmp, h2]⟩ hx
        · exact ⟨c, e, h1, h2⟩

/-- The three outcomes of `add_client`. -/
theorem add_client_cases (st : Registry) (socket : SOCKET) (username : List Byte) :
    (MAX_CLIENTS ≤ st.client_count ∧ add_client st socket username = (-1, none, st)) ∨
    (st.client_count < MAX_CLIENTS ∧ duplicate_loop st.used username = true ∧
      add_client st socket username = (-2, none, st)) ∨
    (st.client_count < MAX_CLIENTS ∧ duplicate_loop st.used username = false ∧
      add_client st socket username = (0, some st.next_user_id,
        { clients := st.clients.set st.client_count (new_entry st socket username),
          client_count := st.client_count + 1,
          next_user_id := st.next_user_id + 1 })) := by
  unfold add_client
  by_cases h1 : st.client_count ≥ MAX_CLIENTS
  · left
    exact ⟨h1, by rw [if_pos h1]⟩
  · right
    have h1' : st.client_count < MAX_CLIENTS := by omega
    rw [if_neg h1]
    by_cases h2 : duplicate_loop st.used username = true
    · left
      exact ⟨h1', h2, by rw [if_pos h2]⟩
    · right
      refine ⟨h1', by simpa using h2, ?_⟩
      rw [if_neg h2]

theorem used_after_add (st : Registry) (e : ClientInfo) (hwf : st.wf)
    (h : st.client_count < MAX_CLIENTS) :
    Registry.used { clients := st.clients.set st.client_count e,
                    client_count := st.client_count + 1,
                    next_user_id := st.next_user_id + 1 } = st.used ++ [e] := by
  unfold Registry.used
  exact take_succ_set st.clients e st.client_count (by rw [hwf.1]; exact h)

theorem remove_loop_length (l : List ClientInfo) (socket : SOCKET) :
    (remove_loop l socket).1.length = l.length := by
  induction l with
  | nil => rfl
  | cons x xs ih =>
    unfold remove_loop
    split
    · simp
    · simp [ih]

theorem used_after_remove (st : Registry) (socket : SOCKET) :
    (remove_client st socket).1.used = (remove_loop st.used socket).1 := by
  unfold remove_client Registry.used
  dsimp only
  have hlen := remove_loop_length (st.clients.take st.client_count) socket
  by_cases h : st.client_count ≤ st.clients.length
  · have : (remove_loop (st.clients.take st.client_count) socket).1.length = st.client_count := by
      rw [hlen, List.length_take]
      omega
    exact List.take_left' this
  · have hd : st.clients.drop st.client_count = [] := List.drop_eq_nil_of_le (by omega)
    rw [hd, List.append_nil]
    apply List.take_of_length_le
    rw [hlen, List.length_take]
    omega

theorem step_wf (st : Registry) (op : Op) (hwf : st.wf) : (step st op).wf := by
  cases op with
  | add socket username =>
    unfold step
    dsimp only
    rcases add_client_cases st socket username with h | h | h
    · rw [h.2]
      exact hwf
    · rw [h.2.2]
      exact hwf
    · rw [h.2.2]
      constructor
      · simp only [List.length_set]
        exact hwf.1
      · exact h.1
  | remove socket =>
    unfold step remove_client
    dsimp only
    constructor
    · simp only [List.length_append, List.length_drop, remove_loop_length, Registry.used,
        List.length_take]
      have := hwf.1
      have := hwf.2
      omega
    · exact hwf.2

theorem run_wf (ops : List Op) : ∀ st : Registry, st.wf → (run st ops).wf := by
  induction ops with
  | nil => intro st h; exact h
  | cons op ops ih =>
    intro st h
    exact ih (step st op) (step_wf st op h)

theorem active_after_remove_loop (l : List ClientInfo) (socket : SOCKET) :
    (((remove_loop l socket).1.filter (fun c => c.active != 0)).map (fun c => c.username)).Sublist
      ((l.filter (fun c => c.active != 0)).map (fun c => c.username)) := by
  induction l with
  | nil => exact List.Sublist.refl _
  | cons x xs ih =>
    unfold remove_loop
    by_cases h : x.socket = socket ∧ x.active ≠ 0
    · rw [if_pos h]
      have hx : (x.active != 0) = true := by simpa using h.2
      simp only [List.filter_cons, hx, if_true, List.map_cons, bne_self_eq_false,
        Bool.false_eq_true, if_false]
      exact List.sublist_cons_self _ _
    · rw [if_neg h]
      by_cases hx : (x.active != 0) = true
      · simp only [List.filter_cons, hx, if_true, List.map_cons]
        exact List.Sublist.cons₂ _ ih
      · simp only [List.filter_cons, hx, if_false]
        exact ih

theorem strncpy_of_short {username : List Byte} (h : strlen username ≤ 63) :
    strncpy username (MAX_USERNAME_LEN - 1) = cstr username := by
  unfold strncpy
  apply List.take_of_length_le
  unfold strlen at h
  unfold MAX_USERNAME_LEN
  omega

theorem step_active_names_nodup (st : Registry) (op : Op) (hwf : st.wf)
    (hv : op.valid = true) (hn : st.active_names.Nodup) : (step st op).active_names.Nodup := by
  cases op with
  | add socket username =>
    unfold step
    dsimp only
    rcases add_client_cases st socket username with h | h | h
    · rw [h.2]
      exact hn
    · rw [h.2.2]
      exact hn
    · rw [h.2.2]
      have hlen : strlen username ≤ 63 := by
        simp only [Op.valid, Bool.and_eq_true, decide_eq_true_eq] at hv
        exact hv.2
      have hnd : ¬ ∃ c ∈ st.used, c.active ≠ 0 ∧ cstr c.username = cstr username := by
        rw [← duplicate_loop_iff, h.2.1]
        simp
      simp only [Registry.active_names, Registry.active_sessions, used_after_add st _ hwf h.1,
        List.filter_append, List.map_append]
      have he : (List.filter (fun c => c.active != 0) [new_entry st socket username]).map
          (fun c => c.username) = [cstr username] := by
        simp [new_entry, strncpy_of_short hlen]
      rw [he]
      apply List.Nodup.append hn (List.nodup_singleton _)
      intro x hx1 hx2
      simp only [List.mem_singleton] at hx2
      subst hx2
      obtain ⟨c, hc, hcx⟩ := List.mem_map.mp hx1
      have hc' := List.mem_filter.mp hc
      apply hnd
      refine ⟨c, hc'.1, by simpa using hc'.2, ?_⟩
      rw [hcx, cstr_idem]
  | remove socket =>
    unfold step
    dsimp only
    simp only [Registry.active_names, Registry.active_sessions, used_after_remove]
    exact List.Nodup.sublist (active_after_remove_loop st.used socket) hn

theorem run_active_names_nodup (ops : List Op) : ∀ st : Registry, st.wf →
    (∀ op ∈ ops, op.valid = true) → st.active_names.Nodup → (run st ops).active_names.Nodup := by
  induction ops with
  | nil => intro st _ _ h; exact h
  | cons op ops ih =>
    intro st hwf hv hn
    exact ih (step st op) (step_wf st op hwf) (fun o ho => hv o (List.mem_cons_of_mem _ ho))
      (step_active_names_nodup st op hwf (hv op (List.mem_cons_self _ _)) hn)

theorem remove_loop_skip (l l2 : List ClientInfo) (socket : SOCKET)
    (h : ∀ c ∈ l, ¬ (c.socket = socket ∧ c.active ≠ 0)) :
    remove_loop (l ++ l2) socket = (l ++ (remove_loop l2 socket).1, (remove_loop l2 socket).2) := by
  induction l with
  | nil => rfl
  | cons x xs ih =>
    have hx := h x (List.mem_cons_self _ _)
    have ih' := ih (fun c hc => h c (List.mem_cons_of_mem _ hc))
    simp only [List.cons_append]
    rw [remove_loop, if_neg hx, ih']

/-- Registering on a connection that owns no active session and unregistering it again
leaves the used slots followed by the new slot, marked inactive. -/
theorem used_after_add_remove (st : Registry) (socket : SOCKET) (username : List Byte)
    (hwf : st.wf) (hsock : ∀ c ∈ st.active_sessions, c.socket ≠ socket)
    (hadd : (add_client st socket username).1 = 0) :
    (remove_client (add_client st socket username).2.2 socket).1.used =
      st.used ++ [{ new_entry st socket username with active := 0 }] := by
  rcases add_client_cases st socket username with h | h | h
  · rw [h.2] at hadd
    simp at hadd
  · rw [h.2.2] at hadd
    simp at hadd
  · rw [h.2.2]
    dsimp only
    rw [used_after_remove, used_after_add st _ hwf h.1, remove_loop_skip]
    · simp [remove_loop, new_entry]
    · intro c hc hcs
      apply hsock c _ hcs.1
      exact List.mem_filter.mpr ⟨hc, by simpa using hcs.2⟩

theorem remove_loop_user_ids (l : List ClientInfo) (socket : SOCKET) :
    (remove_loop l socket).1.map (fun c => c.user_id) = l.map (fun c => c.user_id) := by
  induction l with
  | nil => rfl
  | cons x xs ih =>
    unfold remove_loop
    split
    · rfl
    · simp only [List.map_cons, ih]

theorem range_shift (n : Int) (k : Nat) :
    n :: (List.range k).map (fun (i : Nat) => n + 1 + (i : Int)) =
      (List.range (k + 1)).map (fun (i : Nat) => n + (i : Int)) := by
  rw [List.range_succ_eq_map, List.map_cons, List.map_map]
  congr 1
  · simp
  · apply List.map_congr_left
    intro i _
    simp only [Function.comp, Nat.succ_eq_add_one, Nat.cast_add, Nat.cast_one]
    omega

/-- The ids handed out in a run from a well-formed state: consecutive from `next_user_id`,
and appended to the ids of the used slots. -/
theorem assigned_ids_run (ops : List Op) : ∀ st : Registry, st.wf →
    assigned_ids st ops =
        (List.range (assigned_ids st ops).length).map (fun (i : Nat) => st.next_user_id + (i : Int)) ∧
      (run st ops).used.map (fun c => c.user_id) =
        st.used.map (fun c => c.user_id) ++ assigned_ids st ops := by
  induction ops with
  | nil =>
    intro st _
    simp [assigned_ids, run]
  | cons op ops ih =>
    intro st hwf
    cases op with
    | add socket username =>
      have hrun : run st (Op.add socket username :: ops) =
          run (add_client st socket username).2.2 ops := rfl
      rw [hrun]
      unfold assigned_ids
      dsimp only
      rcases add_client_cases st socket username with h | h | h
      · rw [h.2]
        simpa using ih st hwf
      · rw [h.2.2]
        simpa using ih st hwf
      · have hwf' := step_wf st (Op.add socket username) hwf
        unfold step at hwf'
        dsimp only at hwf'
        rw [h.2.2] at hwf' ⊢
        dsimp only at hwf' ⊢
        obtain ⟨ih1, ih2⟩ := ih _ hwf'
        simp only [if_true, Option.toList, List.singleton_append, List.length_cons]
        constructor
        · rw [← range_shift]
          congr 1
        · rw [ih2, used_after_add st _ hwf h.1]
          simp [new_entry]
    | remove socket =>
      have hrun : run st (Op.remove socket :: ops) = run (remove_client st socket).1 ops := rfl
      have hwf' := step_wf st (Op.remove socket) hwf
      unfold step at hwf'
      dsimp only at hwf'
      obtain ⟨ih1, ih2⟩ := ih _ hwf'
      rw [hrun]
      unfold assigned_ids
      refine ⟨ih1, ?_⟩
      rw [ih2, used_after_remove, remove_loop_user_ids]

theorem delivered_broadcast_loop_sender (l : List ClientInfo) (sender_socket : SOCKET)
    (buffer : List Byte) : delivered (broadcast_loop l sender_socket buffer) sender_socket = [] := by
  induction l with
  | nil => rfl
  | cons x xs ih =>
    unfold broadcast_loop
    by_cases h : x.active ≠ 0 ∧ x.socket ≠ sender_socket
    · rw [if_pos h]
      simp only [delivered, h.2, if_false]
      exact ih
    · rw [if_neg h]
      exact ih

theorem delivered_broadcast_loop_other (l : List ClientInfo) (sender_socket s : SOCKET)
    (buffer : List Byte) (hs : s ≠ sender_socket) :
    delivered (broadcast_loop l sender_socket buffer) s =
      copies ((l.filter (fun c => c.active != 0)).filter (fun c => c.socket == s)).length
        (buffer ++ [NEWLINE]) := by
  induction l with
  | nil => rfl
  | cons x xs ih =>
    unfold broadcast_loop
    by_cases hact : x.active ≠ 0
    · have hf : (x.active != 0) = true := by simpa using hact
      by_cases hsock : x.socket = s
      · have h : x.active ≠ 0 ∧ x.socket ≠ sender_socket := ⟨hact, by rw [hsock]; exact hs⟩
        have hb : (x.socket == s) = true := by simpa using hsock
        rw [if_pos h]
        subst hsock
        simp only [delivered, if_true, ih, List.filter_cons, hf, hb, List.length_cons,
          copies, List.append_assoc]
      · have hb : (x.socket == s) = false := by simpa using hsock
        simp only [List.filter_cons, hf, hb, if_true, Bool.false_eq_true, if_false]
        split
        · simp only [delivered, hsock, if_false]
          exact ih
        · exact ih
    · have hf : (x.active != 0) = false := by simpa using hact
      have h : ¬ (x.active ≠ 0 ∧ x.socket ≠ sender_socket) := fun e => hact e.1
      rw [if_neg h]
      simp only [List.filter_cons, hf, Bool.false_eq_true, if_false]
      exact ih

theorem broadcast_loop_length (l : List ClientInfo) (sender_socket : SOCKET)
    (buffer : List Byte) :
    (broadcast_loop l sender_socket buffer).length =
      2 * ((l.filter (fun c => c.active != 0)).filter
        (fun c => c.socket != sender_socket)).length := by
  induction l with
  | nil => rfl
  | cons x xs ih =>
    unfold broadcast_loop
    by_cases hact : x.active ≠ 0
    · have hf : (x.active != 0) = true := by simpa using hact
      by_cases hsock : x.socket = sender_socket
      · have h : ¬ (x.active ≠ 0 ∧ x.socket ≠ sender_socket) := fun e => e.2 hsock
        have hb : (x.socket != sender_socket) = false := by simpa using hsock
        rw [if_neg h]
        simp only [List.filter_cons, hf, hb, if_true, Bool.false_eq_true, if_false]
        exact ih
      · have h : x.active ≠ 0 ∧ x.socket ≠ sender_socket := ⟨hact, hsock⟩
        have hb : (x.socket != sender_socket) = true := by simpa using hsock
        rw [if_pos h]
        simp only [List.filter_cons, hf, hb, if_true, List.length_cons, ih]
        omega
    · have hf : (x.active != 0) = false := by simpa using hact
      have h : ¬ (x.active ≠ 0 ∧ x.socket ≠ sender_socket) := fun e => hact e.1
      rw [if_neg h]
      simp only [List.filter_cons, hf, Bool.false_eq_true, if_false]
      exact ih

/-! ## The client table: claims -/

/-- C2: nickname uniqueness.  After any sequence of `add_client` calls with nicknames of 1 to
63 bytes and `remove_client` calls on the initial registry, each call one atomic step, the
nicknames of the active sessions are pairwise distinct: every nickname value is held by at
most one active session. -/
theorem nickname_unique (ops : List Op) (hv : ∀ op ∈ ops, op.valid = true) :
    (run Registry.init ops).active_names.Nodup ∧
      (run Registry.init ops).active_sessions.Pairwise (fun a b => a.username ≠ b.username) := by
  have h := run_active_names_nodup ops Registry.init init_wf hv (by
    simp [Registry.active_names, Registry.active_sessions, Registry.used, Registry.init])
  refine ⟨h, ?_⟩
  unfold Registry.active_names List.Nodup at h
  exact List.pairwise_map.mp h

theorem nickname_unique_witness :
    (∀ op ∈ ops_alice, op.valid = true) ∧
      (run Registry.init ops_alice).active_names = [ascii "bob", ascii "alice", ascii "Alice"] ∧
      (run Registry.init ops_alice).active_names.Nodup :=
  ⟨by decide, by decide, (nickname_unique ops_alice (by decide)).1⟩

/-- C3: the duplicate answer.  In every registry state in which `add_client` does not return
`-1`, it returns `-2` if and only if an active session among the used slots holds the
nickname, compared as C strings byte for byte.  A nickname held only by inactive sessions does
not block: after a successful registration on a connection that owned no active session and
the removal of that connection, `add_client` with the same nickname does not return `-2`, and
returns `0` unless the table is full. -/
theorem add_client_duplicate_iff :
    (∀ (st : Registry) (socket : SOCKET) (username : List Byte),
        (add_client st socket username).1 ≠ -1 →
        ((add_client st socket username).1 = -2 ↔
          ∃ c ∈ st.used, c.active ≠ 0 ∧ cstr c.username = cstr username)) ∧
      (∀ (st : Registry) (socket socket2 : SOCKET) (username : List Byte),
        st.wf → (∀ c ∈ st.active_sessions, c.socket ≠ socket) →
        (add_client st socket username).1 = 0 →
        (add_client (remove_client (add_client st socket username).2.2 socket).1
            socket2 username).1 ≠ -2 ∧
          ((remove_client (add_client st socket username).2.2 socket).1.client_count
              < MAX_CLIENTS →
            (add_client (remove_client (add_client st socket username).2.2 socket).1
              socket2 username).1 = 0)) := by
  constructor
  · intro st socket username hfull
    rw [← duplicate_loop_iff]
    rcases add_client_cases st socket username with h | h | h
    · rw [h.2] at hfull
      exact absurd rfl hfull
    · rw [h.2.2, h.2.1]
      simp
    · rw [h.2.2, h.2.1]
      simp
  · intro st socket socket2 username hwf hsock hadd
    have hused := used_after_add_remove st socket username hwf hsock hadd
    have hnodup : duplicate_loop st.used username = false := by
      rcases add_client_cases st socket username with h | h | h
      · rw [h.2] at hadd
        simp at hadd
      · rw [h.2.2] at hadd
        simp at hadd
      · exact h.2.1
    have hnd : ¬ ∃ c ∈ st.used, c.active ≠ 0 ∧ cstr c.username = cstr username := by
      rw [← duplicate_loop_iff, hnodup]
      simp
    have hnew : duplicate_loop
        (remove_client (add_client st socket username).2.2 socket).1.used username = false := by
      rw [← Bool.not_eq_true, duplicate_loop_iff, hused]
      rintro ⟨c, hc, hact, hname⟩
      rcases List.mem_append.mp hc with hc | hc
      · exact hnd ⟨c, hc, hact, hname⟩
      · simp only [List.mem_singleton] at hc
        subst hc
        exact hact rfl
    rcases add_client_cases (remove_client (add_client st socket username).2.2 socket).1
        socket2 username with h | h | h
    · rw [h.2]
      exact ⟨by simp, fun hlt => absurd hlt (by omega)⟩
    · rw [hnew] at h
      exact absurd h.2.1 (by decide)
    · rw [h.2.2]
      exact ⟨by simp, fun _ => rfl⟩

theorem add_client_duplicate_iff_witness :
    (add_client Registry.init 1 (ascii "alice")).1 = 0 ∧
      (add_client (add_client Registry.init 1 (ascii "alice")).2.2 2 (ascii "alice")).1 = -2 ∧
      (add_client (add_client Registry.init 1 (ascii "alice")).2.2 2 (ascii "Alice")).1 = 0 ∧
      (add_client (remove_client (add_client Registry.init 1 (ascii "alice")).2.2 1).1
        2 (ascii "alice")).1 = 0 :=
  ⟨by decide, by decide, by decide,
    (add_client_duplicate_iff.2 Registry.init 1 2 (ascii "alice") init_wf
      (by decide) (by decide)).2 (by decide)⟩

set_option maxRecDepth 1000000 in
/-- C4: after 100 registrations and the departure of connection 1, 99 sessions are active
and no active session is called `zed`, yet `add_client` returns `-1`: the check counts the
slots ever used, and `remove_client` frees none. -/
theorem add_client_full_after_leave :
    (run Registry.init (fill 100 ++ [Op.remove 1])).active_sessions.length = 99 ∧
      ascii "zed" ∉ (run Registry.init (fill 100 ++ [Op.remove 1])).active_names ∧
      (add_client (run Registry.init (fill 100 ++ [Op.remove 1])) 500 (ascii "zed")).1 = -1 := by
  decide

/-- C5: user ids are sequential and never reused.  In every run of `add_client` and
`remove_client` calls on the initial registry the ids returned by the successful
registrations are `1, 2, .., k` in that order, they are the ids stored in the used slots
(active or not), no two slots share an id, at most 100 ids are handed out, and a registration
advances `next_user_id` by one when it succeeds and leaves it alone when it fails. -/
theorem user_ids_sequential (ops : List Op) :
    assigned_ids Registry.init ops =
        (List.range (assigned_ids Registry.init ops).length).map (fun (i : Nat) => (i : Int) + 1) ∧
      (run Registry.init ops).used.map (fun c => c.user_id) = assigned_ids Registry.init ops ∧
      ((run Registry.init ops).used.map (fun c => c.user_id)).Nodup ∧
      (assigned_ids Registry.init ops).length ≤ MAX_CLIENTS ∧
      ∀ (socket : SOCKET) (username : List Byte),
        (add_client (run Registry.init ops) socket username).2.2.next_user_id =
          (run Registry.init ops).next_user_id +
            (if (add_client (run Registry.init ops) socket username).1 = 0 then 1 else 0) := by
  obtain ⟨h1, h2⟩ := assigned_ids_run ops Registry.init init_wf
  have h1' : assigned_ids Registry.init ops =
      (List.range (assigned_ids Registry.init ops).length).map (fun (i : Nat) => (i : Int) + 1) := by
    rw [h1]
    simp only [List.length_map, List.length_range]
    apply List.map_congr_left
    intro i _
    simp only [Registry.init]
    omega
  have h2' : (run Registry.init ops).used.map (fun c => c.user_id) =
      assigned_ids Registry.init ops := by
    rw [h2]
    simp [Registry.used, Registry.init]
  refine ⟨h1', h2', ?_, ?_, ?_⟩
  · rw [h2', h1']
    apply List.Nodup.map _ (List.nodup_range _)
    intro a b hab
    simp only at hab
    omega
  · have hwf := run_wf ops Registry.init init_wf
    have hlen : (assigned_ids Registry.init ops).length =
        ((run Registry.init ops).used.map (fun c => c.user_id)).length := by rw [h2']
    rw [hlen, List.length_map, Registry.used, List.length_take]
    have := hwf.2
    omega
  · intro socket username
    rcases add_client_cases (run Registry.init ops) socket username with h | h | h
    · rw [h.2]
      simp
    · rw [h.2.2]
      simp
    · rw [h.2.2]
      simp

/-- C10: broadcast.  When the message serialises into the 4096-byte buffer,
`broadcast_message` leaves the registry as it was, hands nothing to the excluded connection,
and hands to every other connection the line followed by one `'\n'` once for each active
session on that connection: once when exactly one active session owns it, not at all when
none does.  It makes two `send` calls, the line and the `'\n'`, for each active session off the
excluded connection and no other call. -/
theorem broadcast_message_delivery (st : Registry) (msg : ChatMessage) (sender_socket : SOCKET)
    (henc : 0 ≤ (serialize_message msg MAX_BUFFER_SIZE).1) :
    (broadcast_message st msg sender_socket).1 = st ∧
      delivered (broadcast_message st msg sender_socket).2 sender_socket = [] ∧
      (∀ s : SOCKET, s ≠ sender_socket →
        delivered (broadcast_message st msg sender_socket).2 s =
          copies (st.sessions_on s) ((serialize_message msg MAX_BUFFER_SIZE).2 ++ [NEWLINE])) ∧
      (broadcast_message st msg sender_socket).2.length =
        2 * (st.active_sessions.filter (fun c => c.socket != sender_socket)).length := by
  have hlt : ¬ (serialize_message msg MAX_BUFFER_SIZE).1 < 0 := by omega
  have hline : (serialize_message msg MAX_BUFFER_SIZE).2.take
      (serialize_message msg MAX_BUFFER_SIZE).1.toNat = (serialize_message msg MAX_BUFFER_SIZE).2 := by
    rcases serialize_message_cases msg MAX_BUFFER_SIZE with h | h
    · omega
    · rw [h.2]
      simp
  unfold broadcast_message
  dsimp only
  rw [if_neg hlt, hline]
  refine ⟨rfl, delivered_broadcast_loop_sender _ _ _, ?_, broadcast_loop_length _ _ _⟩
  intro s hs
  exact delivered_broadcast_loop_other st.used sender_socket s _ hs

theorem broadcast_message_delivery_witness :
    (0 : Int) ≤ (serialize_message msg_pipe_body MAX_BUFFER_SIZE).1 ∧
      st_three.sessions_on 2 = 1 ∧ st_three.sessions_on 3 = 0 ∧
      delivered (broadcast_message st_three msg_pipe_body 1).2 1 = [] ∧
      delivered (broadcast_message st_three msg_pipe_body 1).2 2 =
        copies (st_three.sessions_on 2)
          ((serialize_message msg_pipe_body MAX_BUFFER_SIZE).2 ++ [NEWLINE]) :=
  ⟨by decide, by decide, by decide,
    (broadcast_message_delivery st_three msg_pipe_body 1 (by decide)).2.1,
    (broadcast_message_delivery st_three msg_pipe_body 1 (by decide)).2.2.1 2 (by decide)⟩

/-! ## Further lemmas on the client table -/

theorem remove_loop_identity (l : List ClientInfo) (socket : SOCKET) :
    (remove_loop l socket).1.map (fun c => (c.socket, c.user_id, c.username)) =
      l.map (fun c => (c.socket, c.user_id, c.username)) := by
  induction l with
  | nil => rfl
  | cons x xs ih =>
    unfold remove_loop
    split
    · rfl
    · simp only [List.map_cons, ih]

/-- One call keeps the table invariant: the count and the next id move together, and the
used slots hold the ids `1 .. client_count`. -/
theorem step_table (st : Registry) (op : Op) (hwf : st.wf)
    (hnext : st.next_user_id = (st.client_count : Int) + 1)
    (hids : st.used.map (fun c => c.user_id) =
      (List.range st.client_count).map (fun (i : Nat) => (i : Int) + 1)) :
    (step st op).next_user_id = ((step st op).client_count : Int) + 1 ∧
      (step st op).used.map (fun c => c.user_id) =
        (List.range (step st op).client_count).map (fun (i : Nat) => (i : Int) + 1) := by
  cases op with
  | add socket username =>
    unfold step
    dsimp only
    rcases add_client_cases st socket username with h | h | h
    · rw [h.2]
      exact ⟨hnext, hids⟩
    · rw [h.2.2]
      exact ⟨hnext, hids⟩
    · rw [h.2.2]
      dsimp only
      refine ⟨by rw [hnext]; push_cast; ring, ?_⟩
      rw [used_after_add st _ hwf h.1, List.map_append, hids, List.range_succ, List.map_append]
      simp [new_entry, hnext]
  | remove socket =>
    unfold step
    dsimp only
    rw [used_after_remove, remove_loop_user_ids]
    exact ⟨hnext, hids⟩

theorem run_table (ops : List Op) : ∀ st : Registry, st.wf →
    st.next_user_id = (st.client_count : Int) + 1 →
    st.used.map (fun c => c.user_id) =
      (List.range st.client_count).map (fun (i : Nat) => (i : Int) + 1) →
    (run st ops).next_user_id = ((run st ops).client_count : Int) + 1 ∧
      (run st ops).used.map (fun c => c.user_id) =
        (List.range (run st ops).client_count).map (fun (i : Nat) => (i : Int) + 1) := by
  induction ops with
  | nil => intro st _ h1 h2; exact ⟨h1, h2⟩
  | cons op ops ih =>
    intro st hwf h1 h2
    have h := step_table st op hwf h1 h2
    exact ih (step st op) (step_wf st op hwf) h.1 h.2

/-- One call neither lowers the count nor touches the socket, id or nickname of a used
slot. -/
theorem step_slots (st : Registry) (op : Op) (hwf : st.wf) :
    st.client_count ≤ (step st op).client_count ∧
      ((step st op).used.map (fun c => (c.socket, c.user_id, c.username))).take st.client_count =
        st.used.map (fun c => (c.socket, c.user_id, c.username)) := by
  have hlen : st.used.length = st.client_count := by
    unfold Registry.used
    rw [List.length_take, hwf.1]
    exact Nat.min_eq_left hwf.2
  cases op with
  | add socket username =>
    unfold step
    dsimp only
    rcases add_client_cases st socket username with h | h | h
    · rw [h.2]
      refine ⟨le_refl _, ?_⟩
      apply List.take_of_length_le
      simp [hlen]
    · rw [h.2.2]
      refine ⟨le_refl _, ?_⟩
      apply List.take_of_length_le
      simp [hlen]
    · rw [h.2.2]
      dsimp only
      refine ⟨Nat.le_succ _, ?_⟩
      rw [used_after_add st _ hwf h.1, List.map_append]
      apply List.take_left'
      simp [hlen]
  | remove socket =>
    unfold step
    dsimp only
    refine ⟨le_refl _, ?_⟩
    rw [used_after_remove, remove_loop_identity]
    apply List.take_of_length_le
    simp [hlen]

theorem remove_loop_none (l : List ClientInfo) (socket : SOCKET)
    (h : ∀ c ∈ l, ¬ (c.socket = socket ∧ c.active ≠ 0)) : remove_loop l socket = (l, []) := by
  have := remove_loop_skip l [] socket h
  simpa [remove_loop] using this

theorem sessions_on_zero_iff (st : Registry) (socket : SOCKET) :
    st.sessions_on socket = 0 ↔ ∀ c ∈ st.used, ¬ (c.socket = socket ∧ c.active ≠ 0) := by
  unfold Registry.sessions_on Registry.active_sessions
  rw [List.length_eq_zero, List.filter_eq_nil_iff]
  constructor
  · intro h c hc hcs
    exact h c (List.mem_filter.mpr ⟨hc, by simpa using hcs.2⟩) (by simpa using hcs.1)
  · intro h c hc hs
    have hc' := List.mem_filter.mp hc
    exact h c hc'.1 ⟨by simpa using hs, by simpa using hc'.2⟩

/-- The first active slot on a socket, with the slots before and after it. -/
theorem first_active_split (l : List ClientInfo) (socket : SOCKET)
    (h : ∃ c ∈ l, c.socket = socket ∧ c.active ≠ 0) :
    ∃ pre x post, l = pre ++ x :: post ∧
      (∀ c ∈ pre, ¬ (c.socket = socket ∧ c.active ≠ 0)) ∧ x.socket = socket ∧ x.active ≠ 0 := by
  induction l with
  | nil =>
    obtain ⟨c, hc, _⟩ := h
    simp at hc
  | cons y ys ih =>
    by_cases hy : y.socket = socket ∧ y.active ≠ 0
    · exact ⟨[], y, ys, rfl, by simp, hy.1, hy.2⟩
    · obtain ⟨c, hc, hcs⟩ := h
      have hc' : c ∈ ys := by
        rcases List.mem_cons.mp hc with e | e
        · subst e
          exact absurd hcs hy
        · exact e
      obtain ⟨pre, x, post, e, hpre, hx1, hx2⟩ := ih ⟨c, hc', hcs⟩
      refine ⟨y :: pre, x, post, by rw [e]; rfl, ?_, hx1, hx2⟩
      intro c hc
      rcases List.mem_cons.mp hc with e | e
      · subst e
        exact hy
      · exact hpre c e

theorem remove_loop_at (pre post : List ClientInfo) (x : ClientInfo) (socket : SOCKET)
    (hpre : ∀ c ∈ pre, ¬ (c.socket = socket ∧ c.active ≠ 0))
    (hx : x.socket = socket ∧ x.active ≠ 0) :
    remove_loop (pre ++ x :: post) socket = (pre ++ { x with active := 0 } :: post, [socket]) := by
  rw [remove_loop_skip pre (x :: post) socket hpre, remove_loop, if_pos hx, hx.1]

theorem remove_client_noop (st : Registry) (socket : SOCKET)
    (h : st.sessions_on socket = 0) : remove_client st socket = (st, []) := by
  unfold remove_client
  dsimp only
  rw [remove_loop_none st.used socket ((sessions_on_zero_iff st socket).mp h)]
  dsimp only
  unfold Registry.used
  rw [List.take_append_drop]

theorem count_active_on (l : List ClientInfo) (socket : SOCKET) :
    ((l.filter (fun c => c.active != 0)).filter (fun c => c.socket == socket)).length = 0 ↔
      ∀ c ∈ l, ¬ (c.socket = socket ∧ c.active ≠ 0) := by
  rw [List.length_eq_zero, List.filter_eq_nil_iff]
  constructor
  · intro h c hc hcs
    exact h c (List.mem_filter.mpr ⟨hc, by simpa using hcs.2⟩) (by simpa using hcs.1)
  · intro h c hc hs
    have hc' := List.mem_filter.mp hc
    exact h c hc'.1 ⟨by simpa using hs, by simpa using hc'.2⟩

/-- What `remove_client` does when the connection owns an active session: the first such
slot is marked inactive, nothing else changes, and the socket is closed once. -/
theorem remove_client_active (st : Registry) (socket : SOCKET) (pre post : List ClientInfo)
    (x : ClientInfo) (hused : st.used = pre ++ x :: post)
    (hpre : ∀ c ∈ pre, ¬ (c.socket = socket ∧ c.active ≠ 0))
    (hx : x.socket = socket ∧ x.active ≠ 0) :
    remove_client st socket =
        ({ st with clients := (pre ++ { x with active := 0 } :: post) ++
                      st.clients.drop st.client_count }, [socket]) ∧
      (remove_client st socket).1.used = pre ++ { x with active := 0 } :: post := by
  constructor
  · unfold remove_client
    dsimp only
    rw [hused, remove_loop_at pre post x socket hpre hx]
  · rw [used_after_remove, hused, remove_loop_at pre post x socket hpre hx]

theorem sessions_on_split (st : Registry) (socket : SOCKET) (pre post : List ClientInfo)
    (x : ClientInfo) (hused : st.used = pre ++ x :: post)
    (hpre : ∀ c ∈ pre, ¬ (c.socket = socket ∧ c.active ≠ 0))
    (hx : x.socket = socket ∧ x.active ≠ 0) :
    st.sessions_on socket =
      1 + ((post.filter (fun c => c.active != 0)).filter (fun c => c.socket == socket)).length := by
  have h0 := (count_active_on pre socket).mpr hpre
  have ha : (x.active != 0) = true := by simpa using hx.2
  have hs : (x.socket == socket) = true := by simpa using hx.1
  unfold Registry.sessions_on Registry.active_sessions
  rw [hused]
  simp only [List.filter_append, List.length_append, h0, List.filter_cons, ha, hs, if_true,
    List.length_cons]
  omega

theorem sessions_on_after_remove (st : Registry) (socket : SOCKET) (pre post : List ClientInfo)
    (x : ClientInfo) (hused : st.used = pre ++ x :: post)
    (hpre : ∀ c ∈ pre, ¬ (c.socket = socket ∧ c.active ≠ 0))
    (hx : x.socket = socket ∧ x.active ≠ 0) :
    (remove_client st socket).1.sessions_on socket + 1 = st.sessions_on socket := by
  have h0 := (count_active_on pre socket).mpr hpre
  rw [sessions_on_split st socket pre post x hused hpre hx]
  unfold Registry.sessions_on Registry.active_sessions
  rw [(remove_client_active st socket pre post x hused hpre hx).2]
  simp only [List.filter_append, List.length_append, h0, List.filter_cons, bne_self_eq_false,
    Bool.false_eq_true, if_false]
  omega

theorem remove_client_twice (st : Registry) (socket : SOCKET) (h : st.sessions_on socket ≤ 1) :
    remove_client (remove_client st socket).1 socket = ((remove_client st socket).1, []) := by
  by_cases h0 : st.sessions_on socket = 0
  · rw [remove_client_noop st socket h0]
    exact remove_client_noop st socket h0
  · have hex : ∃ c ∈ st.used, c.socket = socket ∧ c.active ≠ 0 := by
      by_contra hne
      apply h0
      rw [sessions_on_zero_iff]
      intro c hc hcs
      exact hne ⟨c, hc, hcs⟩
    obtain ⟨pre, x, post, hused, hpre, hx1, hx2⟩ := first_active_split st.used socket hex
    have := sessions_on_after_remove st socket pre post x hused hpre ⟨hx1, hx2⟩
    exact remove_client_noop _ socket (by omega)

/-! ## Lemmas on the list of online users -/

theorem take_take_append (a y : List Byte) (n : Nat) :
    ((a.take n) ++ y).take n = (a ++ y).take n := by
  by_cases h : a.length ≤ n
  · rw [List.take_of_length_le h]
  · have h1 : n ≤ (a.take n).length := by
      rw [List.length_take]
      omega
    rw [List.take_append_of_le_length h1, List.take_append_of_le_length (by omega),
      List.take_take, Nat.min_self]

theorem take_append_take (a b : List Byte) (n : Nat) :
    (a ++ b.take n).take n = (a ++ b).take n := by
  rw [List.take_append_eq_append_take, List.take_append_eq_append_take, List.take_take]
  congr 2
  omega

theorem natDigits_no_nul (fuel n : Nat) : (0 : Byte) ∉ natDigits fuel n := by
  induction fuel generalizing n with
  | zero => simp [natDigits]
  | succ f ih =>
    unfold natDigits
    split
    · simp only [List.mem_singleton]
      unfold Byte
      omega
    · simp only [List.mem_append, List.mem_singleton, not_or]
      refine ⟨ih _, ?_⟩
      unfold Byte
      omega

theorem fmt_d_no_nul (v : Int) : (0 : Byte) ∉ fmt_d v := by
  unfold fmt_d
  split
  · simp only [List.mem_cons, not_or]
    exact ⟨by decide, natDigits_no_nul _ _⟩
  · exact natDigits_no_nul _ _

theorem ascii_no_nul_id : (0 : Byte) ∉ ascii "[ID:" := by decide
theorem ascii_no_nul_br : (0 : Byte) ∉ ascii "]" := by decide
theorem ascii_no_nul_sep : (0 : Byte) ∉ ascii ", " := by decide

theorem list_entry_no_nul (c : ClientInfo) (h : 0 ∉ c.username) : (0 : Byte) ∉ list_entry c := by
  unfold list_entry
  simp only [List.mem_append, not_or]
  exact ⟨ascii_no_nul_id, fmt_d_no_nul _, ascii_no_nul_br, h⟩

theorem snprintf_id_name_eq (c : ClientInfo) (h0 : 0 ∉ c.username)
    (hlen : (list_entry c).length ≤ 127) :
    snprintf_id_name 128 c.user_id c.username = list_entry c := by
  unfold snprintf_id_name fmt_s
  rw [cstr_eq_self h0]
  exact List.take_of_length_le hlen

theorem strncat_take (buf x : List Byte) (size : Nat) (hb : 0 ∉ buf) (hx : 0 ∉ x)
    (hlen : buf.length ≤ size - 1) :
    strncat buf x (size - strlen buf - 1) = (buf ++ x).take (size - 1) := by
  unfold strncat strlen
  rw [cstr_eq_self hb, cstr_eq_self hx, List.take_append_eq_append_take,
    List.take_of_length_le hlen]
  congr 2
  omega

theorem not_mem_take {l : List Byte} {n : Nat} {b : Byte} (h : b ∉ l) : b ∉ l.take n :=
  fun hm => h (List.mem_of_mem_take hm)

/-- The loop of `get_user_list` once an entry is in the buffer: it appends the remaining
entries, and the buffer keeps what fits. -/
theorem user_list_loop_more (size : Nat) (l : List ClientInfo) :
    ∀ buf : List Byte, 0 ∉ buf → buf.length ≤ size - 1 →
    (∀ c ∈ l, 0 ∉ c.username ∧ (list_entry c).length ≤ 127) →
    user_list_loop l size buf false = (buf ++ more_entries l).take (size - 1) := by
  induction l with
  | nil =>
    intro buf _ hlen _
    simp only [user_list_loop, more_entries, List.append_nil]
    exact (List.take_of_length_le hlen).symm
  | cons c rest ih =>
    intro buf hb hlen hl
    have hc := hl c (List.mem_cons_self _ _)
    have hrest : ∀ d ∈ rest, 0 ∉ d.username ∧ (list_entry d).length ≤ 127 :=
      fun d hd => hl d (List.mem_cons_of_mem _ hd)
    unfold user_list_loop more_entries
    by_cases hact : c.active ≠ 0
    · rw [if_pos hact, if_pos hact]
      dsimp only
      rw [if_pos rfl, snprintf_id_name_eq c hc.1 hc.2,
        strncat_take buf (ascii ", ") size hb ascii_no_nul_sep hlen]
      have hb1 : (0 : Byte) ∉ (buf ++ ascii ", ").take (size - 1) :=
        not_mem_take (by simp only [List.mem_append, not_or]; exact ⟨hb, ascii_no_nul_sep⟩)
      have hl1 : ((buf ++ ascii ", ").take (size - 1)).length ≤ size - 1 := by
        rw [List.length_take]
        omega
      rw [strncat_take _ (list_entry c) size hb1 (list_entry_no_nul c hc.1) hl1,
        take_take_append]
      have hb2 : (0 : Byte) ∉ (buf ++ ascii ", " ++ list_entry c).take (size - 1) :=
        not_mem_take (by
          simp only [List.mem_append, not_or]
          exact ⟨⟨hb, ascii_no_nul_sep⟩, list_entry_no_nul c hc.1⟩)
      have hl2 : ((buf ++ ascii ", " ++ list_entry c).take (size - 1)).length ≤ size - 1 := by
        rw [List.length_take]
        omega
      rw [ih _ hb2 hl2 hrest, take_take_append]
      simp only [List.append_assoc]
    · rw [if_neg hact, if_neg hact]
      exact ih buf hb hlen hrest

theorem join_entries_cons (e : List Byte) (l : List ClientInfo) :
    join_entries (e :: (l.filter (fun c => c.active != 0)).map list_entry) =
      e ++ more_entries l := by
  induction l generalizing e with
  | nil => simp [join_entries, more_entries]
  | cons c rest ih =>
    unfold more_entries
    by_cases hact : c.active ≠ 0
    · have hf : (c.active != 0) = true := by simpa using hact
      rw [if_pos hact]
      simp only [List.filter_cons, hf, if_true, List.map_cons, join_entries]
      rw [ih]
    · have hf : (c.active != 0) = false := by simpa using hact
      rw [if_neg hact]
      simp only [List.filter_cons, hf, Bool.false_eq_true, if_false]
      exact ih e

/-- The loop of `get_user_list` from the empty buffer: the joined entries of the active
slots, cut to the size of the buffer. -/
theorem user_list_loop_first (size : Nat) (l : List ClientInfo)
    (hl : ∀ c ∈ l, 0 ∉ c.username ∧ (list_entry c).length ≤ 127) :
    user_list_loop l size [] true =
      (join_entries ((l.filter (fun c => c.active != 0)).map list_entry)).take (size - 1) := by
  induction l with
  | nil => simp [user_list_loop, join_entries]
  | cons c rest ih =>
    have hc := hl c (List.mem_cons_self _ _)
    have hrest : ∀ d ∈ rest, 0 ∉ d.username ∧ (list_entry d).length ≤ 127 :=
      fun d hd => hl d (List.mem_cons_of_mem _ hd)
    unfold user_list_loop
    by_cases hact : c.active ≠ 0
    · have hf : (c.active != 0) = true := by simpa using hact
      rw [if_pos hact]
      dsimp only
      rw [if_neg (by decide), snprintf_id_name_eq c hc.1 hc.2]
      have e0 : strncat [] (list_entry c) (size - strlen [] - 1) =
          (list_entry c).take (size - 1) := by
        have := strncat_take [] (list_entry c) size (by simp) (list_entry_no_nul c hc.1)
          (Nat.zero_le _)
        simpa using this
      rw [e0]
      have hb : (0 : Byte) ∉ (list_entry c).take (size - 1) :=
        not_mem_take (list_entry_no_nul c hc.1)
      have hlen : ((list_entry c).take (size - 1)).length ≤ size - 1 := by
        rw [List.length_take]
        omega
      rw [user_list_loop_more size rest _ hb hlen hrest, take_take_append]
      simp only [List.filter_cons, hf, if_true, List.map_cons]
      rw [join_entries_cons]
    · have hf : (c.active != 0) = false := by simpa using hact
      rw [if_neg hact]
      simp only [List.filter_cons, hf, Bool.false_eq_true, if_false]
      exact ih hrest

theorem step_names (st : Registry) (op : Op) (hwf : st.wf)
    (h : ∀ c ∈ st.used, 0 ∉ c.username ∧ c.username.length ≤ 63) :
    ∀ c ∈ (step st op).used, 0 ∉ c.username ∧ c.username.length ≤ 63 := by
  cases op with
  | add socket username =>
    unfold step
    dsimp only
    rcases add_client_cases st socket username with h1 | h1 | h1
    · rw [h1.2]
      exact h
    · rw [h1.2.2]
      exact h
    · rw [h1.2.2]
      dsimp only
      rw [used_after_add st _ hwf h1.1]
      intro c hc
      rcases List.mem_append.mp hc with hc | hc
      · exact h c hc
      · simp only [List.mem_singleton] at hc
        subst hc
        simp only [new_entry, strncpy, MAX_USERNAME_LEN]
        refine ⟨not_mem_take (cstr_no_nul _), ?_⟩
        rw [List.length_take]
        omega
  | remove socket =>
    unfold step
    dsimp only
    rw [used_after_remove]
    intro c hc
    have hm : (c.socket, c.user_id, c.username) ∈
        (remove_loop st.used socket).1.map (fun c => (c.socket, c.user_id, c.username)) :=
      List.mem_map_of_mem _ hc
    rw [remove_loop_identity] at hm
    obtain ⟨c0, hc0, e⟩ := List.mem_map.mp hm
    have e3 : c0.username = c.username := by
      have := congrArg (fun t => t.2.2) e
      simpa using this
    rw [← e3]
    exact h c0 hc0

theorem run_names (ops : List Op) : ∀ st : Registry, st.wf →
    (∀ c ∈ st.used, 0 ∉ c.username ∧ c.username.length ≤ 63) →
    ∀ c ∈ (run st ops).used, 0 ∉ c.username ∧ c.username.length ≤ 63 := by
  induction ops with
  | nil => intro st _ h; exact h
  | cons op ops ih =>
    intro st hwf h
    exact ih (step st op) (step_wf st op hwf) (step_names st op hwf h)

/-- In a reachable registry every used slot has a NUL-free nickname of at most 63 bytes and an
entry `[ID:n]nickname` that fits the 128-byte `temp` of `get_user_list`. -/
theorem reachable_entries (ops : List Op) :
    ∀ c ∈ (run Registry.init ops).used, 0 ∉ c.username ∧ (list_entry c).length ≤ 127 := by
  have hwf := run_wf ops Registry.init init_wf
  have hn := run_names ops Registry.init init_wf (by simp [Registry.init, Registry.used])
  have ht := run_table ops Registry.init init_wf (by simp [Registry.init])
    (by simp [Registry.init, Registry.used])
  intro c hc
  refine ⟨(hn c hc).1, ?_⟩
  have hid : c.user_id ∈ (run Registry.init ops).used.map (fun c => c.user_id) :=
    List.mem_map_of_mem _ hc
  rw [ht.2] at hid
  obtain ⟨i, hi, e⟩ := List.mem_map.mp hid
  have hi' : i < (run Registry.init ops).client_count := List.mem_range.mp hi
  have hcount := hwf.2
  unfold MAX_CLIENTS at hcount
  have hd : (fmt_d c.user_id).length ≤ 3 + 1 :=
    fmt_d_length c.user_id 3 (by decide) (by omega)
  have hu := (hn c hc).2
  have h4 : (ascii "[ID:").length = 4 := by decide
  have h1 : (ascii "]").length = 1 := by decide
  unfold list_entry
  simp only [List.length_append, h4, h1]
  omega

theorem join_entries_no_nul (es : List (List Byte)) (h : ∀ e ∈ es, (0 : Byte) ∉ e) :
    (0 : Byte) ∉ join_entries es := by
  induction es with
  | nil => simp [join_entries]
  | cons e rest ih =>
    cases rest with
    | nil => simpa [join_entries] using h e (List.mem_cons_self _ _)
    | cons e2 es =>
      simp only [join_entries, List.mem_append, not_or]
      exact ⟨h e (List.mem_cons_self _ _), ascii_no_nul_sep,
        ih (fun x hx => h x (List.mem_cons_of_mem _ hx))⟩

theorem join_entries_length (es : List (List Byte)) :
    (es.map List.length).sum ≤ (join_entries es).length := by
  induction es with
  | nil => simp [join_entries]
  | cons e rest ih =>
    cases rest with
    | nil => simp [join_entries]
    | cons e2 es =>
      simp only [join_entries, List.length_append, List.map_cons, List.sum_cons] at ih ⊢
      omega

theorem online_users_length_ge (st : Registry) :
    (st.active_sessions.map (fun c => c.username.length)).sum ≤ (online_users st).length := by
  have h1 := join_entries_length (st.active_sessions.map list_entry)
  have h2 : (st.active_sessions.map (fun c => c.username.length)).sum ≤
      ((st.active_sessions.map list_entry).map List.length).sum := by
    rw [List.map_map]
    apply List.sum_le_sum
    intro c _
    simp only [Function.comp, list_entry, List.length_append]
    omega
  unfold online_users
  rw [List.length_append]
  omega

/-- A message within the bounds of the struct serialises into the 4096-byte buffer. -/
theorem serialize_fits (m : ChatMessage)
    (hty : INT_MIN ≤ m.type ∧ m.type ≤ INT_MAX)
    (hts : m.timestamp.length ≤ 31) (hts0 : 0 ∉ m.timestamp)
    (hun : m.username.length ≤ 63) (hun0 : 0 ∉ m.username)
    (hc : m.content.length ≤ 2047) (hc0 : 0 ∉ m.content)
    (hlen : m.content_length = (m.content.length : Int)) :
    serialize_message m MAX_BUFFER_SIZE = (((format_line m).length : Int), format_line m) := by
  have hl := format_line_length_le m hty hts hts0 hun hun0 hc hc0 hlen
  rcases serialize_message_cases m MAX_BUFFER_SIZE with h | h
  · unfold MAX_BUFFER_SIZE at h
    omega
  · exact h.2

theorem server_message_fits (type : Int) (now text : List Byte)
    (hty : INT_MIN ≤ type ∧ type ≤ INT_MAX) (hnow0 : 0 ∉ now) (hnow : now.length ≤ 31) :
    serialize_message (server_message type now text) MAX_BUFFER_SIZE =
      (((format_line (server_message type now text)).length : Int),
        format_line (server_message type now text)) := by
  apply serialize_fits
  · exact hty
  · exact hnow
  · exact hnow0
  · show (ascii "SERVER").length ≤ 63
    decide
  · show (0 : Byte) ∉ ascii "SERVER"
    decide
  · simp only [server_message, MAX_MESSAGE_LEN, List.length_take]
    omega
  · exact not_mem_take (cstr_no_nul text)
  · rfl

theorem send_server_message (w : World) (socket : SOCKET) (type : Int) (now text : List Byte)
    (hty : INT_MIN ≤ type ∧ type ≤ INT_MAX) (hnow0 : 0 ∉ now) (hnow : now.length ≤ 31) :
    send_to_client w socket (server_message type now text) =
      { w with sends := w.sends ++
          [(socket, format_line (server_message type now text)), (socket, [NEWLINE])] } := by
  unfold send_to_client
  dsimp only
  rw [server_message_fits type now text hty hnow0 hnow]
  have h : ¬ (((format_line (server_message type now text)).length : Nat) : Int) < 0 := by omega
  simp only [h, if_false, Int.toNat_ofNat, List.take_length]

theorem get_user_list_reachable (ops : List Op) :
    get_user_list (run Registry.init ops) MAX_MESSAGE_LEN =
      (join_entries ((run Registry.init ops).active_sessions.map list_entry)).take
        (MAX_MESSAGE_LEN - 1) :=
  user_list_loop_first MAX_MESSAGE_LEN _ (reachable_entries ops)

/-- The list case of the `switch` in a reachable registry: one message goes to the
requesting connection, and its body is the specified one cut to 2047 bytes. -/
theorem dispatch_list (ops : List Op) (w : World) (hw : w.reg = run Registry.init ops)
    (client_socket : SOCKET) (client_username : List Byte) (msg : ChatMessage)
    (hty : msg.type = 4) (now : List Byte) (hnow0 : 0 ∉ now) (hnow : now.length ≤ 31) :
    dispatch w client_socket client_username msg now =
      ({ w with sends := w.sends ++
          [(client_socket, format_line (list_reply w.reg now)), (client_socket, [NEWLINE])] },
        false) := by
  have h3 : ¬ msg.type = 3 := by omega
  have hmsg : server_message 3 now (ascii "Online users: " ++ get_user_list w.reg MAX_MESSAGE_LEN)
      = list_reply w.reg now := by
    have hnn : (0 : Byte) ∉ ascii "Online users: " ++
        (join_entries (w.reg.active_sessions.map list_entry)).take (MAX_MESSAGE_LEN - 1) := by
      simp only [List.mem_append, not_or]
      refine ⟨by decide, not_mem_take (join_entries_no_nul _ ?_)⟩
      intro e he
      obtain ⟨c, hc, rfl⟩ := List.mem_map.mp he
      rw [hw] at hc
      exact list_entry_no_nul c
        (reachable_entries ops c (List.mem_filter.mp hc).1).1
    have hc : (cstr (ascii "Online users: " ++ get_user_list w.reg MAX_MESSAGE_LEN)).take
        (MAX_MESSAGE_LEN - 1) = (online_users w.reg).take (MAX_MESSAGE_LEN - 1) := by
      rw [hw, get_user_list_reachable ops, ← hw, cstr_eq_self hnn, take_append_take]
      rfl
    unfold server_message list_reply
    rw [hc]
  unfold dispatch
  rw [if_neg h3, if_pos hty,
    send_server_message w client_socket 3 now _ (by decide) hnow0 hnow, hmsg]

/-! ## The client table: further claims -/

/-- C13, as stated, fails: with two active sessions on connection 1 the first
`remove_client(1)` marks the first of them inactive and the second call marks the other, so
two calls do not leave the registry one call leaves. -/
theorem remove_client_twice_counterexample :
    st_shared_socket.sessions_on 1 = 2 ∧
      (remove_client (remove_client st_shared_socket 1).1 1).1 ≠
        (remove_client st_shared_socket 1).1 ∧
      (remove_client (remove_client st_shared_socket 1).1 1).2 = [1] := by
  decide

/-- C13, amended.  When no active session is on the connection, `remove_client` leaves the
registry as it is and closes nothing.  When at most one active session is on it, a second call
changes nothing and closes nothing.  When the connection owns an active session, the first such
slot gets `active = 0`, every other slot, the count and the next id stay, and the socket is
closed once. -/
theorem remove_client_idempotent :
    (∀ (st : Registry) (socket : SOCKET), st.sessions_on socket = 0 →
        remove_client st socket = (st, [])) ∧
      (∀ (st : Registry) (socket : SOCKET), st.sessions_on socket ≤ 1 →
        remove_client (remove_client st socket).1 socket = ((remove_client st socket).1, [])) ∧
      (∀ (st : Registry) (socket : SOCKET), 0 < st.sessions_on socket →
        ∃ pre x post, st.used = pre ++ x :: post ∧
          (∀ c ∈ pre, ¬ (c.socket = socket ∧ c.active ≠ 0)) ∧
          x.socket = socket ∧ x.active ≠ 0 ∧
          remove_client st socket =
            ({ st with clients := (pre ++ { x with active := 0 } :: post) ++
                          st.clients.drop st.client_count }, [socket]) ∧
          (remove_client st socket).1.used = pre ++ { x with active := 0 } :: post) := by
  refine ⟨remove_client_noop, remove_client_twice, ?_⟩
  intro st socket hpos
  have hex : ∃ c ∈ st.used, c.socket = socket ∧ c.active ≠ 0 := by
    by_contra hne
    have : st.sessions_on socket = 0 := by
      rw [sessions_on_zero_iff]
      intro c hc hcs
      exact hne ⟨c, hc, hcs⟩
    omega
  obtain ⟨pre, x, post, hused, hpre, hx1, hx2⟩ := first_active_split st.used socket hex
  have h := remove_client_active st socket pre post x hused hpre ⟨hx1, hx2⟩
  exact ⟨pre, x, post, hused, hpre, hx1, hx2, h.1, h.2⟩

theorem remove_client_idempotent_witness :
    st_three.sessions_on 3 = 0 ∧ remove_client st_three 3 = (st_three, []) ∧
      st_three.sessions_on 2 ≤ 1 ∧
      remove_client (remove_client st_three 2).1 2 = ((remove_client st_three 2).1, []) :=
  ⟨by decide, remove_client_idempotent.1 st_three 3 (by decide), by decide,
    remove_client_idempotent.2.1 st_three 2 (by decide)⟩

/-- C18: the table-bound invariant.  In every state reached from the initial registry by
`add_client` and `remove_client` calls the table has its 100 entries, `client_count ≤ 100`,
`next_user_id = client_count + 1` and the used slots hold the ids `1 .. client_count` in
order.  From such a state a successful `add_client` writes the slot `client_count`, which lies
inside the table, and no call lowers `client_count` or changes the socket, id or nickname of a
used slot. -/
theorem table_bound_invariant (ops : List Op) :
    (run Registry.init ops).clients.length = MAX_CLIENTS ∧
      (run Registry.init ops).client_count ≤ MAX_CLIENTS ∧
      (run Registry.init ops).next_user_id = ((run Registry.init ops).client_count : Int) + 1 ∧
      (run Registry.init ops).used.map (fun c => c.user_id) =
        (List.range (run Registry.init ops).client_count).map (fun (i : Nat) => (i : Int) + 1) ∧
      (∀ (socket : SOCKET) (username : List Byte),
        (add_client (run Registry.init ops) socket username).1 = 0 →
          (run Registry.init ops).client_count < (run Registry.init ops).clients.length ∧
          (add_client (run Registry.init ops) socket username).2.2.clients =
            (run Registry.init ops).clients.set (run Registry.init ops).client_count
              (new_entry (run Registry.init ops) socket username)) ∧
      (∀ op : Op,
        (run Registry.init ops).client_count ≤ (step (run Registry.init ops) op).client_count ∧
        ((step (run Registry.init ops) op).used.map
            (fun c => (c.socket, c.user_id, c.username))).take
              (run Registry.init ops).client_count =
          (run Registry.init ops).used.map (fun c => (c.socket, c.user_id, c.username))) := by
  have hwf := run_wf ops Registry.init init_wf
  have ht := run_table ops Registry.init init_wf (by simp [Registry.init])
    (by simp [Registry.init, Registry.used])
  refine ⟨hwf.1, hwf.2, ht.1, ht.2, ?_, fun op => step_slots _ op hwf⟩
  intro socket username hadd
  rcases add_client_cases (run Registry.init ops) socket username with h | h | h
  · rw [h.2] at hadd
    simp at hadd
  · rw [h.2.2] at hadd
    simp at hadd
  · rw [h.2.2, hwf.1]
    exact ⟨h.1, rfl⟩

theorem table_bound_invariant_witness :
    (add_client (run Registry.init ops_alice) 9 (ascii "zed")).1 = 0 ∧
      (run Registry.init ops_alice).client_count = 4 ∧
      (run Registry.init ops_alice).client_count < (run Registry.init ops_alice).clients.length :=
  ⟨by decide, by decide,
    ((table_bound_invariant ops_alice).2.2.2.2.1 9 (ascii "zed") (by decide)).1⟩

/-! ## Lemmas on the connection handler -/

/-- The inner loop is left at a line whose processing makes the handler return. -/
theorem process_lines_return (fuel : Nat) (now : Nat → List Byte) (w : World) (h : Handler)
    (line_start : Nat) (skipped found : List Byte)
    (hs : strchr (h.recv_buffer.drop line_start) NEWLINE = some (skipped, found))
    (hret : (handle_line w h.client_socket h.client_username
      ((write_at h.recv_buffer (line_start + skipped.length) [0]).drop line_start)
      (now line_start)).2 = true) :
    process_lines (fuel + 1) now w h line_start =
      some ((handle_line w h.client_socket h.client_username
        ((write_at h.recv_buffer (line_start + skipped.length) [0]).drop line_start)
        (now line_start)).1, none) := by
  unfold process_lines
  rw [hs]
  dsimp only
  rw [if_pos hret]

/-! ## Lemmas on line framing -/

theorem split_lines_no_newline (s : List Byte) (h : NEWLINE ∉ s) : split_lines s = ([], s) := by
  induction s with
  | nil => rfl
  | cons b rest ih =>
    have hb : b ≠ NEWLINE := fun e => h (by simp [e])
    have hr : NEWLINE ∉ rest := fun e => h (List.mem_cons_of_mem _ e)
    unfold split_lines
    rw [if_neg hb, ih hr]

theorem split_lines_segment (seg rest : List Byte) (h : NEWLINE ∉ seg) :
    split_lines (seg ++ NEWLINE :: rest) = (seg :: (split_lines rest).1, (split_lines rest).2) := by
  induction seg with
  | nil =>
    simp only [List.nil_append]
    rw [split_lines, if_pos rfl]
  | cons b seg ih =>
    have hb : b ≠ NEWLINE := fun e => h (by simp [e])
    have hr : NEWLINE ∉ seg := fun e => h (List.mem_cons_of_mem _ e)
    simp only [List.cons_append]
    rw [split_lines, if_neg hb, ih hr]

theorem split_lines_partial_no_newline (s : List Byte) : NEWLINE ∉ (split_lines s).2 := by
  induction s with
  | nil => simp [split_lines]
  | cons b rest ih =>
    unfold split_lines
    by_cases hb : b = NEWLINE
    · rw [if_pos hb]
      exact ih
    · rw [if_neg hb]
      cases hl : (split_lines rest).1 with
      | nil =>
        simp only [List.mem_cons, not_or]
        exact ⟨fun e => hb e.symm, ih⟩
      | cons l ls => exact ih

/-- Framing a stream in two parts: the lines of the first part, then the lines of what the
first part left over followed by the second part. -/
theorem split_lines_append (a b : List Byte) :
    split_lines (a ++ b) =
      ((split_lines a).1 ++ (split_lines ((split_lines a).2 ++ b)).1,
        (split_lines ((split_lines a).2 ++ b)).2) := by
  induction a with
  | nil => simp [split_lines]
  | cons x a ih =>
    simp only [List.cons_append]
    by_cases hx : x = NEWLINE
    · rw [split_lines, if_pos hx, ih]
      conv_rhs => rw [split_lines, if_pos hx]
      simp
    · rw [split_lines, if_neg hx, ih]
      conv_rhs => rw [split_lines, if_neg hx]
      cases hl : (split_lines a).1 with
      | nil =>
        simp only [List.nil_append, List.cons_append]
        conv_rhs => rw [split_lines, if_neg hx]
      | cons l ls =>
        simp only [List.cons_append]

theorem first_occurrence (c : Byte) (l : List Byte) (h : c ∈ l) :
    ∃ l1 l2, l = l1 ++ c :: l2 ∧ c ∉ l1 := by
  induction l with
  | nil => simp at h
  | cons x xs ih =>
    by_cases hx : x = c
    · exact ⟨[], xs, by simp [hx], by simp⟩
    · have hc : c ∈ xs := by
        rcases List.mem_cons.mp h with e | e
        · exact absurd e.symm hx
        · exact e
      obtain ⟨l1, l2, e, hn⟩ := ih hc
      refine ⟨x :: l1, l2, by simp [e], ?_⟩
      simp only [List.mem_cons, not_or]
      exact ⟨fun e => hx e.symm, hn⟩

/-- A partial line left by a prefix of a stream is no longer than the line of the stream it
belongs to. -/
theorem partial_length_le (a b : List Byte) (n : Nat)
    (hl : ∀ l ∈ (split_lines (a ++ b)).1, l.length ≤ n)
    (hp : (split_lines (a ++ b)).2.length ≤ n) : (split_lines a).2.length ≤ n := by
  rw [split_lines_append] at hl hp
  by_cases hb : NEWLINE ∈ b
  · obtain ⟨b1, b2, e, hn⟩ := first_occurrence NEWLINE b hb
    have hseg : NEWLINE ∉ (split_lines a).2 ++ b1 := by
      simp only [List.mem_append, not_or]
      exact ⟨split_lines_partial_no_newline a, hn⟩
    have e2 : (split_lines a).2 ++ b = ((split_lines a).2 ++ b1) ++ NEWLINE :: b2 := by
      rw [e, List.append_assoc]
    rw [e2, split_lines_segment _ _ hseg] at hl
    have := hl ((split_lines a).2 ++ b1) (by simp)
    rw [List.length_append] at this
    omega
  · have hs : NEWLINE ∉ (split_lines a).2 ++ b := by
      simp only [List.mem_append, not_or]
      exact ⟨split_lines_partial_no_newline a, hb⟩
    rw [split_lines_no_newline _ hs] at hp
    simp only [List.length_append] at hp
    omega

theorem strchr_stop (c : Byte) (rest stale : List Byte) (hc0 : c ≠ 0) (hc : c ∉ rest) :
    strchr (rest ++ 0 :: stale) c = none := by
  have h := strchr_nul c (rest ++ [0]) stale
    (by
      simp only [List.mem_append, List.mem_singleton, not_or]
      exact ⟨hc, hc0⟩)
    (by simp)
  simpa using h

theorem write_at_middle (a b : List Byte) (x y : Byte) :
    write_at (a ++ x :: b) a.length [y] = a ++ y :: b := by
  unfold write_at
  rw [List.take_left]
  simp

/-- A match of `strchr` lies inside the bytes searched. -/
theorem strchr_length (c : Byte) :
    ∀ (l skipped found : List Byte), strchr l c = some (skipped, found) →
      skipped.length < l.length := by
  intro l
  induction l with
  | nil => intro skipped found h; simp [strchr] at h
  | cons b rest ih =>
    intro skipped found h
    unfold strchr at h
    by_cases hb : b = c
    · rw [if_pos hb] at h
      simp only [Option.some.injEq, Prod.mk.injEq] at h
      rw [← h.1]
      simp
    · rw [if_neg hb] at h
      by_cases h0 : b = 0
      · rw [if_pos h0] at h
        simp at h
      · rw [if_neg h0] at h
        cases hr : strchr rest c with
        | none => rw [hr] at h; simp at h
        | some p =>
          obtain ⟨sk, fd⟩ := p
          rw [hr] at h
          simp only [Option.some.injEq, Prod.mk.injEq] at h
          rw [← h.1]
          have := ih sk fd hr
          simp only [List.length_cons]
          omega

theorem write_at_length (buf : List Byte) (pos : Nat) (y : Byte) (h : pos < buf.length) :
    (write_at buf pos [y]).length = buf.length := by
  unfold write_at
  simp only [List.length_append, List.length_take, List.length_cons, List.length_nil,
    List.length_drop]
  omega

/-- The inner loop ends within as many turns as the buffer has bytes after `line_start`, plus
one: with that much fuel it returns a result. -/
theorem process_lines_fuel (now : Nat → List Byte) :
    ∀ (n : Nat) (w : World) (h : Handler) (line_start : Nat),
      h.recv_buffer.length ≤ n + line_start →
      (process_lines (n + 1) now w h line_start).isSome = true := by
  intro n
  induction n with
  | zero =>
    intro w h line_start hlt
    unfold process_lines
    cases hs : strchr (h.recv_buffer.drop line_start) NEWLINE with
    | none => rfl
    | some p =>
      obtain ⟨sk, fd⟩ := p
      have hl := strchr_length NEWLINE _ sk fd hs
      simp only [List.length_drop] at hl
      omega
  | succ n ih =>
    intro w h line_start hlt
    unfold process_lines
    cases hs : strchr (h.recv_buffer.drop line_start) NEWLINE with
    | none => rfl
    | some p =>
      obtain ⟨sk, fd⟩ := p
      have hl := strchr_length NEWLINE _ sk fd hs
      simp only [List.length_drop] at hl
      dsimp only
      by_cases hr : (handle_line w h.client_socket h.client_username
          ((write_at h.recv_buffer (line_start + sk.length) [0]).drop line_start)
          (now line_start)).2 = true
      · rw [if_pos hr]
        rfl
      · rw [if_neg hr]
        apply ih
        dsimp only
        rw [write_at_length _ _ _ (by omega)]
        omega

/-- The inner loop on a buffer that holds, from `line_start` on, NUL-free bytes and then a
NUL: it hands each complete line to `handle_line` and stops in front of the partial line.  `J`
is an invariant of the world, indexed by the lines processed so far, that every line keeps
without making the handler return. -/
theorem process_lines_spec (J : List (List Byte) → World → Prop) (c : SOCKET) (u : List Byte)
    (now : Nat → List Byte) :
    ∀ (fuel : Nat) (rest done stale : List Byte) (w : World) (h : Handler)
      (donel : List (List Byte)),
      h.client_socket = c → h.client_username = u →
      h.recv_buffer = done ++ (rest ++ 0 :: stale) →
      0 ∉ rest → rest.length < fuel →
      (∀ seg ∈ (split_lines rest).1, ∀ (dl : List (List Byte)) (v : World) (suffix t : List Byte),
        J dl v → (handle_line v c u (seg ++ 0 :: suffix) t).2 = false ∧
          J (dl ++ [seg]) (handle_line v c u (seg ++ 0 :: suffix) t).1) →
      J donel w →
      ∃ (w' : World) (done' : List Byte),
        process_lines fuel now w h done.length =
          some (w', some ({ h with recv_buffer := done' ++ ((split_lines rest).2 ++ 0 :: stale) },
            done'.length)) ∧
        done'.length + (split_lines rest).2.length = done.length + rest.length ∧
        J (donel ++ (split_lines rest).1) w' := by
  intro fuel
  induction fuel with
  | zero =>
    intro rest done stale w h donel _ _ _ _ hf
    exact absurd hf (Nat.not_lt_zero _)
  | succ f ih =>
    intro rest done stale w h donel hc hu hbuf h0 hf hstep hJ
    have hdrop : h.recv_buffer.drop done.length = rest ++ 0 :: stale := by
      rw [hbuf, List.drop_left]
    by_cases hnl : NEWLINE ∈ rest
    · obtain ⟨seg, rest2, e, hseg⟩ := first_occurrence NEWLINE rest hnl
      subst e
      have hseg0 : (0 : Byte) ∉ seg := fun hm => h0 (List.mem_append_left _ hm)
      have hrest0 : (0 : Byte) ∉ rest2 :=
        fun hm => h0 (List.mem_append_right _ (List.mem_cons_of_mem _ hm))
      have hs : strchr (h.recv_buffer.drop done.length) NEWLINE =
          some (seg, NEWLINE :: (rest2 ++ 0 :: stale)) := by
        rw [hdrop, List.append_assoc]
        exact strchr_split NEWLINE seg _ hseg hseg0
      have hw : write_at h.recv_buffer (done.length + seg.length) [0] =
          (done ++ seg ++ [0]) ++ (rest2 ++ 0 :: stale) := by
        have e1 : h.recv_buffer = (done ++ seg) ++ NEWLINE :: (rest2 ++ 0 :: stale) := by
          rw [hbuf]
          simp
        have e2 : done.length + seg.length = (done ++ seg).length := by simp
        rw [e1, e2, write_at_middle]
        simp
      have hline : (write_at h.recv_buffer (done.length + seg.length) [0]).drop done.length =
          seg ++ 0 :: (rest2 ++ 0 :: stale) := by
        rw [hw]
        have e3 : (done ++ seg ++ [0]) ++ (rest2 ++ 0 :: stale) =
            done ++ (seg ++ 0 :: (rest2 ++ 0 :: stale)) := by simp
        rw [e3, List.drop_left]
      have hsplit := split_lines_segment seg rest2 hseg
      have hmem : seg ∈ (split_lines (seg ++ NEWLINE :: rest2)).1 := by
        rw [hsplit]
        simp
      have hst := hstep seg hmem donel w (rest2 ++ 0 :: stale) (now done.length) hJ
      have hlen2 : rest2.length < f := by
        simp only [List.length_append, List.length_cons] at hf
        omega
      have hstep2 : ∀ s ∈ (split_lines rest2).1, ∀ (dl : List (List Byte)) (v : World)
          (suffix t : List Byte), J dl v →
          (handle_line v c u (s ++ 0 :: suffix) t).2 = false ∧
            J (dl ++ [s]) (handle_line v c u (s ++ 0 :: suffix) t).1 := by
        intro s hsm
        apply hstep s
        rw [hsplit]
        exact List.mem_cons_of_mem _ hsm
      obtain ⟨w', done', hp, hl, hJ'⟩ := ih rest2 (done ++ seg ++ [0]) stale
        (handle_line w c u (seg ++ 0 :: (rest2 ++ 0 :: stale)) (now done.length)).1
        { h with recv_buffer := write_at h.recv_buffer (done.length + seg.length) [0] }
        (donel ++ [seg]) hc hu hw hrest0 hlen2 hstep2 hst.2
      refine ⟨w', done', ?_, ?_, ?_⟩
      · unfold process_lines
        rw [hs]
        dsimp only
        rw [hline, hc, hu, hst.1]
        simp only [Bool.false_eq_true, if_false]
        have e4 : done.length + seg.length + 1 = (done ++ seg ++ [0]).length := by
          simp only [List.length_append, List.length_cons, List.length_nil]
        simp only [hc, hu] at hp
        rw [e4, hp, hsplit]
      · rw [hsplit]
        dsimp only
        simp only [List.length_append, List.length_cons, List.length_nil] at hl ⊢
        omega
      · rw [hsplit]
        dsimp only
        simpa using hJ'
    · have hs : strchr (h.recv_buffer.drop done.length) NEWLINE = none := by
        rw [hdrop]
        exact strchr_stop NEWLINE rest stale (by decide) hnl
      refine ⟨w, done, ?_, ?_, ?_⟩
      · unfold process_lines
        rw [hs, split_lines_no_newline rest hnl]
        dsimp only
        rw [← hbuf]
      · rw [split_lines_no_newline rest hnl]
      · rw [split_lines_no_newline rest hnl]
        simpa using hJ

/-- One pass of the main loop over bytes that fit the buffer: with the partial line `pending`
in the buffer and NUL-free bytes `data` received, the lines of `pending ++ data` are handed
over in order and its partial line is what the buffer holds afterwards. -/
theorem on_data_spec (J : List (List Byte) → World → Prop) (c : SOCKET) (u : List Byte)
    (now : Nat → List Byte) (w : World) (h : Handler) (pending data : List Byte)
    (donel : List (List Byte))
    (hc : h.client_socket = c) (hu : h.client_username = u)
    (hpos : h.recv_pos = pending.length) (hbuf : h.recv_buffer.take h.recv_pos = pending)
    (h0 : 0 ∉ pending ++ data)
    (hfit : pending.length + data.length < 2 * MAX_BUFFER_SIZE - 1)
    (hstep : ∀ seg ∈ (split_lines (pending ++ data)).1,
      ∀ (dl : List (List Byte)) (v : World) (suffix t : List Byte),
        J dl v → (handle_line v c u (seg ++ 0 :: suffix) t).2 = false ∧
          J (dl ++ [seg]) (handle_line v c u (seg ++ 0 :: suffix) t).1)
    (hJ : J donel w) :
    ∃ (w' : World) (h' : Handler),
      on_data now w h data = LoopResult.scanned w' h' ∧
      h'.client_socket = c ∧ h'.client_username = u ∧
      h'.recv_pos = (split_lines (pending ++ data)).2.length ∧
      h'.recv_buffer.take h'.recv_pos = (split_lines (pending ++ data)).2 ∧
      J (donel ++ (split_lines (pending ++ data)).1) w' := by
  have hfit' : h.recv_pos + data.length < 2 * MAX_BUFFER_SIZE - 1 := by rw [hpos]; exact hfit
  have hb1 : write_at h.recv_buffer h.recv_pos (data ++ [0]) =
      [] ++ ((pending ++ data) ++
        0 :: h.recv_buffer.drop (h.recv_pos + (data ++ [0]).length)) := by
    unfold write_at
    rw [hbuf]
    simp
  obtain ⟨w', done', hp, hl, hJ'⟩ := process_lines_spec J c u now
    ((write_at h.recv_buffer h.recv_pos (data ++ [0])).length + 1) (pending ++ data) []
    (h.recv_buffer.drop (h.recv_pos + (data ++ [0]).length)) w
    { h with recv_buffer := write_at h.recv_buffer h.recv_pos (data ++ [0]),
             recv_pos := h.recv_pos + data.length }
    donel hc hu hb1 h0
    (by
      rw [hb1]
      simp only [List.nil_append, List.length_append, List.length_cons]
      omega)
    hstep hJ
  simp only [List.length_nil, Nat.zero_add] at hp hl
  unfold on_data
  simp only [hfit', if_true]
  rw [hp]
  dsimp only
  by_cases hz : done'.length > 0
  · have hle : ¬ done'.length > h.recv_pos + data.length := by
      rw [hpos]
      simp only [List.length_append] at hl
      omega
    have hrem : h.recv_pos + data.length - done'.length =
        (split_lines (pending ++ data)).2.length := by
      rw [hpos]
      simp only [List.length_append] at hl
      omega
    rw [if_pos hz, if_neg hle, hrem]
    refine ⟨w', _, rfl, hc, hu, rfl, ?_, hJ'⟩
    dsimp only
    rw [List.drop_left, List.take_left]
    unfold write_at
    simp
  · have hd : done' = [] := List.length_eq_zero.mp (by omega)
    subst hd
    rw [if_neg hz]
    refine ⟨w', _, rfl, hc, hu, ?_, ?_, hJ'⟩
    · dsimp only
      rw [hpos]
      simp only [List.length_nil, List.length_append, Nat.zero_add] at hl
      omega
    · dsimp only
      have e : h.recv_pos + data.length = (split_lines (pending ++ data)).2.length := by
        rw [hpos]
        simp only [List.length_nil, List.length_append, Nat.zero_add] at hl
        omega
      rw [e]
      simp

theorem split_lines_partial_mem (s : List Byte) (x : Byte) (h : x ∈ (split_lines s).2) :
    x ∈ s := by
  induction s with
  | nil => simp [split_lines] at h
  | cons b rest ih =>
    unfold split_lines at h
    by_cases hb : b = NEWLINE
    · rw [if_pos hb] at h
      exact List.mem_cons_of_mem _ (ih h)
    · rw [if_neg hb] at h
      cases hl : (split_lines rest).1 with
      | nil =>
        rw [hl] at h
        rcases List.mem_cons.mp h with e | e
        · rw [e]
          exact List.mem_cons_self _ _
        · exact List.mem_cons_of_mem _ (ih e)
      | cons l ls =>
        rw [hl] at h
        exact List.mem_cons_of_mem _ (ih h)

theorem split_lines_line_mem (s : List Byte) (l : List Byte) (x : Byte)
    (hl : l ∈ (split_lines s).1) (hx : x ∈ l) : x ∈ s := by
  induction s generalizing l with
  | nil => simp [split_lines] at hl
  | cons b rest ih =>
    unfold split_lines at hl
    by_cases hb : b = NEWLINE
    · rw [if_pos hb] at hl
      rcases List.mem_cons.mp hl with e | e
      · rw [e] at hx
        simp at hx
      · exact List.mem_cons_of_mem _ (ih l e hx)
    · rw [if_neg hb] at hl
      cases hs : (split_lines rest).1 with
      | nil =>
        rw [hs] at hl
        simp at hl
      | cons l0 ls =>
        rw [hs] at hl
        rcases List.mem_cons.mp hl with e | e
        · rw [e] at hx
          rcases List.mem_cons.mp hx with e2 | e2
          · rw [e2]
            exact List.mem_cons_self _ _
          · exact List.mem_cons_of_mem _ (ih l0 (by rw [hs]; exact List.mem_cons_self _ _) e2)
        · exact List.mem_cons_of_mem _ (ih l (by rw [hs]; exact List.mem_cons_of_mem _ e) hx)

/-- The lines of a stream and its partial line, put together again, are the stream. -/
theorem split_lines_flatten (s : List Byte) :
    ((split_lines s).1.map (fun l => l ++ [NEWLINE])).flatten ++ (split_lines s).2 = s := by
  induction s with
  | nil => simp [split_lines]
  | cons b rest ih =>
    unfold split_lines
    by_cases hb : b = NEWLINE
    · rw [if_pos hb]
      simp only [List.map_cons, List.flatten_cons, List.nil_append, List.singleton_append,
        List.cons_append]
      rw [ih, hb]
    · rw [if_neg hb]
      cases hs : (split_lines rest).1 with
      | nil =>
        rw [hs] at ih
        simp only [List.map_nil, List.flatten_nil, List.nil_append] at ih ⊢
        rw [ih]
      | cons l0 ls =>
        rw [hs] at ih
        simp only [List.map_cons, List.flatten_cons, List.cons_append] at ih ⊢
        rw [ih]

/-- The main loop over reads of at most 4095 NUL-free bytes whose lines are at most 4095 bytes
long: no byte is turned away, the lines of the stream are handed over in order, and the
buffer holds the partial line of the stream afterwards. -/
theorem run_reads_spec (J : List (List Byte) → World → Prop) (c : SOCKET) (u : List Byte)
    (now : Nat → Nat → List Byte) :
    ∀ (chunks : List (List Byte)) (first : Nat) (w : World) (h : Handler)
      (pending : List Byte) (donel : List (List Byte)),
      h.client_socket = c → h.client_username = u →
      h.recv_pos = pending.length → h.recv_buffer.take h.recv_pos = pending →
      NEWLINE ∉ pending → 0 ∉ pending ++ chunks.flatten →
      (∀ d ∈ chunks, d.length ≤ 4095) →
      (∀ l ∈ (split_lines (pending ++ chunks.flatten)).1, l.length ≤ 4095) →
      (split_lines (pending ++ chunks.flatten)).2.length ≤ 4095 →
      (∀ seg ∈ (split_lines (pending ++ chunks.flatten)).1,
        ∀ (dl : List (List Byte)) (v : World) (suffix t : List Byte),
          J dl v → (handle_line v c u (seg ++ 0 :: suffix) t).2 = false ∧
            J (dl ++ [seg]) (handle_line v c u (seg ++ 0 :: suffix) t).1) →
      J donel w →
      ∃ (w' : World) (h' : Handler),
        run_reads now first w h chunks = LoopResult.scanned w' h' ∧
        h'.client_socket = c ∧ h'.client_username = u ∧
        h'.recv_pos = (split_lines (pending ++ chunks.flatten)).2.length ∧
        h'.recv_buffer.take h'.recv_pos = (split_lines (pending ++ chunks.flatten)).2 ∧
        J (donel ++ (split_lines (pending ++ chunks.flatten)).1) w' := by
  intro chunks
  induction chunks with
  | nil =>
    intro first w h pending donel hc hu hpos hbuf hnl _ _ _ _ _ hJ
    have e : split_lines (pending ++ ([] : List (List Byte)).flatten) = ([], pending) := by
      simp only [List.flatten_nil, List.append_nil]
      exact split_lines_no_newline pending hnl
    rw [e]
    exact ⟨w, h, rfl, hc, hu, hpos, hbuf, by simpa using hJ⟩
  | cons d ds ih =>
    intro first w h pending donel hc hu hpos hbuf hnl h0 hlen hline hpart hstep hJ
    have hw : pending ++ (d :: ds).flatten = (pending ++ d) ++ ds.flatten := by
      simp only [List.flatten_cons, List.append_assoc]
    rw [hw] at h0 hline hpart hstep ⊢
    have happ := split_lines_append (pending ++ d) ds.flatten
    have hpl : pending.length ≤ 4095 := by
      have := partial_length_le pending (d ++ ds.flatten) 4095
        (by rw [← List.append_assoc]; exact hline) (by rw [← List.append_assoc]; exact hpart)
      rw [split_lines_no_newline pending hnl] at this
      exact this
    have hd := hlen d (List.mem_cons_self _ _)
    have h0a : (0 : Byte) ∉ pending ++ d := fun hm => h0 (List.mem_append_left _ hm)
    have hsub : ∀ seg ∈ (split_lines (pending ++ d)).1,
        seg ∈ (split_lines (pending ++ d ++ ds.flatten)).1 := by
      intro seg hs
      rw [happ]
      exact List.mem_append_left _ hs
    have hsub2 : ∀ seg ∈ (split_lines ((split_lines (pending ++ d)).2 ++ ds.flatten)).1,
        seg ∈ (split_lines (pending ++ d ++ ds.flatten)).1 := by
      intro seg hs
      rw [happ]
      exact List.mem_append_right _ hs
    obtain ⟨w1, h1, hr1, hc1, hu1, hpos1, hbuf1, hJ1⟩ := on_data_spec J c u (now first) w h
      pending d donel hc hu hpos hbuf h0a
      (by unfold MAX_BUFFER_SIZE; omega)
      (fun seg hs => hstep seg (hsub seg hs)) hJ
    have h0b : (0 : Byte) ∉ (split_lines (pending ++ d)).2 ++ ds.flatten := by
      intro hm
      rcases List.mem_append.mp hm with e | e
      · exact h0a (split_lines_partial_mem _ _ e)
      · exact h0 (List.mem_append_right _ e)
    obtain ⟨w2, h2, hr2, hc2, hu2, hpos2, hbuf2, hJ2⟩ := ih (first + 1) w1 h1
      (split_lines (pending ++ d)).2 (donel ++ (split_lines (pending ++ d)).1)
      hc1 hu1 hpos1 hbuf1 (split_lines_partial_no_newline _) h0b
      (fun x hx => hlen x (List.mem_cons_of_mem _ hx))
      (fun l hl => hline l (hsub2 l hl))
      (by rw [happ] at hpart; exact hpart)
      (fun seg hs => hstep seg (hsub2 seg hs)) hJ1
    refine ⟨w2, h2, ?_, hc2, hu2, ?_, ?_, ?_⟩
    · unfold run_reads
      rw [hr1]
      exact hr2
    · rw [hpos2, happ]
    · rw [hbuf2, happ]
    · rw [happ]
      simpa using hJ2

theorem send_to_client_lines (w : World) (socket : SOCKET) (msg : ChatMessage) :
    (send_to_client w socket msg).lines = w.lines := by
  unfold send_to_client
  dsimp only
  split <;> rfl

theorem dispatch_lines (w : World) (c : SOCKET) (u : List Byte) (msg : ChatMessage)
    (now : List Byte) : (dispatch w c u msg now).1.lines = w.lines := by
  unfold dispatch
  split
  · rfl
  · split
    · exact send_to_client_lines _ _ _
    · split <;> rfl

theorem dispatch_continue (w : World) (c : SOCKET) (u : List Byte) (msg : ChatMessage)
    (now : List Byte) (h : msg.type ≠ 2) : (dispatch w c u msg now).2 = false := by
  unfold dispatch
  by_cases h3 : msg.type = 3
  · rw [if_pos h3]
  · rw [if_neg h3]
    by_cases h4 : msg.type = 4
    · rw [if_pos h4]
    · rw [if_neg h4, if_neg h]

theorem handle_line_lines (w : World) (c : SOCKET) (u line now : List Byte) :
    (handle_line w c u line now).1.lines = w.lines ++ [cstr line] := by
  unfold handle_line
  dsimp only
  cases deserialize_message line with
  | none => rfl
  | some msg => exact dispatch_lines _ _ _ _ _

theorem handle_line_continue (w : World) (c : SOCKET) (u line now : List Byte)
    (h : ∀ m, deserialize_message line = some m → m.type ≠ 2) :
    (handle_line w c u line now).2 = false := by
  unfold handle_line
  dsimp only
  cases hd : deserialize_message line with
  | none => rfl
  | some msg => exact dispatch_continue _ _ _ _ _ (h msg hd)

theorem cstr_terminated (seg suffix : List Byte) (h : 0 ∉ seg) :
    cstr (seg ++ 0 :: suffix) = seg := by
  unfold cstr
  rw [List.takeWhile_append_of_pos]
  · simp
  · intro b hb
    have : b ≠ 0 := fun e => h (e ▸ hb)
    simpa using this

/-- Framing for a stream without a departure: when no byte is NUL and no line or partial
line is longer than 4095 bytes, the lines handed to `deserialize_message` are the lines of the
stream, and the partial line stays in the buffer. -/
theorem run_reads_lines (now : Nat → Nat → List Byte) (w : World) (h : Handler)
    (chunks : List (List Byte)) (hpos : h.recv_pos = 0)
    (hlen : ∀ d ∈ chunks, d.length ≤ 4095) (h0 : 0 ∉ chunks.flatten)
    (hline : ∀ l ∈ (split_lines chunks.flatten).1, l.length ≤ 4095)
    (hpart : (split_lines chunks.flatten).2.length ≤ 4095)
    (hleave : ∀ l ∈ (split_lines chunks.flatten).1, ∀ (suffix : List Byte) (m : ChatMessage),
      deserialize_message (l ++ 0 :: suffix) = some m → m.type ≠ 2) :
    ∃ (w' : World) (h' : Handler),
      run_reads now 0 w h chunks = LoopResult.scanned w' h' ∧
      w'.lines = w.lines ++ (split_lines chunks.flatten).1 ∧
      h'.recv_buffer.take h'.recv_pos = (split_lines chunks.flatten).2 := by
  obtain ⟨w', h', hr, _, _, _, hbuf, hJ⟩ := run_reads_spec
    (fun dl v => v.lines = w.lines ++ dl) h.client_socket h.client_username now chunks 0 w h []
    [] rfl rfl (by rw [hpos]; rfl) (by rw [hpos]; rfl) (by simp) (by simpa using h0) hlen
    (by simpa using hline) (by simpa using hpart)
    (by
      intro seg hs dl v suffix t hv
      simp only [List.nil_append] at hs
      have hseg0 : (0 : Byte) ∉ seg := fun hm => h0 (split_lines_line_mem _ seg 0 hs hm)
      refine ⟨handle_line_continue _ _ _ _ _ (fun m hm => hleave seg hs suffix m hm), ?_⟩
      show (handle_line v h.client_socket h.client_username (seg ++ 0 :: suffix) t).1.lines =
        w.lines ++ (dl ++ [seg])
      rw [handle_line_lines, cstr_terminated seg suffix hseg0, hv, List.append_assoc])
    (by simp)
  simp only [List.nil_append] at hbuf hJ
  exact ⟨w', h', hr, hJ, hbuf⟩

/-- Decoding the line of a well-formed message, whatever follows the line in memory. -/
theorem deserialize_format_line_append (m : ChatMessage) (suffix : List Byte)
    (hty : LONG_MIN ≤ m.type ∧ m.type ≤ LONG_MAX)
    (hts : m.timestamp.length ≤ 31) (hts0 : 0 ∉ m.timestamp) (htsp : PIPE ∉ m.timestamp)
    (hun : m.username.length ≤ 63) (hun0 : 0 ∉ m.username) (hunp : PIPE ∉ m.username)
    (hc : m.content.length ≤ 2047) (hc0 : 0 ∉ m.content)
    (hlen : m.content_length = (m.content.length : Int)) :
    deserialize_message (format_line m ++ suffix) = some m := by
  have e : format_line m ++ suffix = fmt_d m.type ++ PIPE :: (m.timestamp ++ PIPE ::
      (m.username ++ PIPE :: (fmt_d m.content_length ++ PIPE :: (m.content ++ suffix)))) := by
    rw [format_line_wf m hts0 hun0 hc0 hlen]
    simp only [List.append_assoc, List.cons_append]
  rw [e]
  unfold deserialize_message
  rw [strtol_fmt_d _ _ pipe_not_digit, clampLong_of_int hty.1 hty.2]
  simp only [List.head?_cons, ne_eq, not_true_eq_false, if_false, List.tail_cons]
  rw [strchr_split PIPE _ _ htsp hts0]
  simp only [List.tail_cons]
  rw [strchr_split PIPE _ _ hunp hun0]
  simp only [List.tail_cons]
  rw [strtol_fmt_d _ _ pipe_not_digit,
    clampLong_of_int (by unfold LONG_MIN; omega) (by unfold LONG_MAX; omega)]
  have hts' : ¬ m.timestamp.length ≥ TIMESTAMP_SIZE := by unfold TIMESTAMP_SIZE; omega
  have hun' : ¬ m.username.length ≥ MAX_USERNAME_LEN := by unfold MAX_USERNAME_LEN; omega
  have hr1 : ¬ (m.content_length < 0 ∨ m.content_length ≥ (MAX_MESSAGE_LEN : Int)) := by
    unfold MAX_MESSAGE_LEN
    omega
  have hr2 : ¬ m.content_length.toNat ≥ MAX_MESSAGE_LEN := by
    unfold MAX_MESSAGE_LEN
    omega
  simp only [hts', hun', hr1, hr2, if_false, strncpy_own_length _ _ hts0,
    strncpy_own_length _ _ hun0]
  by_cases hpos : m.content_length > 0
  · simp only [hpos, if_true, memcpy]
    have e : m.content_length.toNat = m.content.length := by omega
    rw [e]
    simp only [List.head?_cons, not_true_eq_false, if_false, List.tail_cons, List.take_left]
  · simp only [hpos, if_false]
    have e : m.content = [] := List.length_eq_zero.mp (by omega)
    simp only [List.head?_cons, not_true_eq_false, if_false]
    rw [← e]

/-- A pass of the main loop that finds no `'\n'` in the buffer after appending. -/
theorem on_data_no_line (now : Nat → List Byte) (w : World) (h : Handler) (data : List Byte)
    (hfit : h.recv_pos + data.length < 2 * MAX_BUFFER_SIZE - 1)
    (hs : strchr (write_at h.recv_buffer h.recv_pos (data ++ [0])) NEWLINE = none) :
    on_data now w h data =
      LoopResult.scanned w
        { h with recv_buffer := write_at h.recv_buffer h.recv_pos (data ++ [0]),
                 recv_pos := h.recv_pos + data.length } := by
  unfold on_data
  simp only [hfit, if_true]
  unfold process_lines
  simp only [List.drop_zero, hs]
  simp

/-- A pass of the main loop when the bytes received do not fit the buffer: they are not
stored, and with no `'\n'` in the buffer nothing else happens. -/
theorem on_data_overflow (now : Nat → List Byte) (w : World) (h : Handler) (data : List Byte)
    (hfit : ¬ h.recv_pos + data.length < 2 * MAX_BUFFER_SIZE - 1)
    (hs : strchr h.recv_buffer NEWLINE = none) :
    on_data now w h data = LoopResult.scanned w h := by
  unfold on_data
  simp only [hfit, if_false]
  unfold process_lines
  simp only [List.drop_zero, hs]
  simp

theorem write_at_append (buf pending data : List Byte) (pos : Nat)
    (hbuf : buf.take pos = pending) :
    write_at buf pos (data ++ [0]) =
      (pending ++ data) ++ 0 :: buf.drop (pos + (data ++ [0]).length) := by
  unfold write_at
  rw [hbuf]
  simp

theorem long_run_length : long_run.length = 4095 := by
  unfold long_run
  exact List.length_replicate _ _

theorem long_run_mem (x : Byte) (h : x ∈ long_run) : x = 97 := by
  unfold long_run at h
  exact List.eq_of_mem_replicate h

theorem long_run_no_newline : NEWLINE ∉ long_run ++ long_run := by
  intro h
  rcases List.mem_append.mp h with e | e
  · exact absurd (long_run_mem _ e) (by decide)
  · exact absurd (long_run_mem _ e) (by decide)

/-- Three reads that fill the buffer: 4095 bytes, 4095 bytes, and the `'\n'` that ends the
line.  The `'\n'` is not stored, and no line is handed to the decoder. -/
theorem run_reads_overflow (now : Nat → Nat → List Byte) (w : World) (h : Handler)
    (hpos : h.recv_pos = 0) :
    ∃ h' : Handler, run_reads now 0 w h [long_run, long_run, [NEWLINE]] =
      LoopResult.scanned w h' := by
  have hb1 := write_at_append h.recv_buffer [] long_run h.recv_pos (by rw [hpos]; rfl)
  have hn1 : NEWLINE ∉ [] ++ long_run := by
    intro hm
    exact absurd (long_run_mem _ (by simpa using hm)) (by decide)
  have h1 := on_data_no_line (now 0) w h long_run
    (by rw [hpos, long_run_length]; unfold MAX_BUFFER_SIZE; omega)
    (by rw [hb1]; exact strchr_stop NEWLINE _ _ (by decide) hn1)
  have hb2 := write_at_append (write_at h.recv_buffer h.recv_pos (long_run ++ [0])) long_run
    long_run (h.recv_pos + long_run.length)
    (by
      rw [hb1, hpos]
      simp only [List.nil_append, Nat.zero_add]
      exact List.take_left _ _)
  have h2 := on_data_no_line (now (0 + 1)) w
    { h with recv_buffer := write_at h.recv_buffer h.recv_pos (long_run ++ [0]),
             recv_pos := h.recv_pos + long_run.length } long_run
    (by
      dsimp only
      rw [hpos, long_run_length]
      unfold MAX_BUFFER_SIZE
      omega)
    (by
      dsimp only
      rw [hb2]
      exact strchr_stop NEWLINE _ _ (by decide) long_run_no_newline)
  dsimp only at h2
  have h3 := on_data_overflow (now (0 + 1 + 1)) w
    { h with recv_buffer := write_at (write_at h.recv_buffer h.recv_pos (long_run ++ [0]))
               (h.recv_pos + long_run.length) (long_run ++ [0]),
             recv_pos := h.recv_pos + long_run.length + long_run.length } [NEWLINE]
    (by
      dsimp only
      rw [hpos, long_run_length]
      unfold MAX_BUFFER_SIZE
      simp)
    (by
      dsimp only
      rw [hb2]
      exact strchr_stop NEWLINE _ _ (by decide) long_run_no_newline)
  refine ⟨{ h with
    recv_buffer := (write_at (write_at h.recv_buffer h.recv_pos (long_run ++ [0]))
      (h.recv_pos + long_run.length) (long_run ++ [0])),
    recv_pos := h.recv_pos + long_run.length + long_run.length }, ?_⟩
  simp only [run_reads, h1, h2, h3]

theorem run_reads_nul (now : Nat → Nat → List Byte) (w : World) (h : Handler)
    (hpos : h.recv_pos = 0) :
    ∃ h' : Handler, run_reads now 0 w h [read_with_nul] = LoopResult.scanned w h' := by
  have hb := write_at_append h.recv_buffer [] read_with_nul h.recv_pos (by rw [hpos]; rfl)
  have h1 := on_data_no_line (now 0) w h read_with_nul
    (by rw [hpos]; decide)
    (by
      rw [hb]
      exact strchr_nul NEWLINE [97, 0] _ (by decide) (by decide))
  refine ⟨{ h with
    recv_buffer := (write_at h.recv_buffer h.recv_pos (read_with_nul ++ [0])),
    recv_pos := h.recv_pos + read_with_nul.length }, ?_⟩
  simp only [run_reads, h1]

/-- The read `read_leave_then_chat` makes the handler of `bob` return at the first line: the
second line is not handed to the decoder. -/
theorem run_reads_leave (now : Nat → Nat → List Byte) :
    ∃ w' : World, run_reads now 0 w_two h_bob [read_leave_then_chat] = LoopResult.returned w' ∧
      w'.lines = [ascii "2|t|bob|0|"] := by
  have hdata : read_leave_then_chat =
      format_line msg_leave ++ NEWLINE :: ascii "3|t|bob|2|hi\n" := by decide
  have hfit : h_bob.recv_pos + read_leave_then_chat.length < 2 * MAX_BUFFER_SIZE - 1 := by
    decide
  have hb : write_at h_bob.recv_buffer h_bob.recv_pos (read_leave_then_chat ++ [0]) =
      format_line msg_leave ++ NEWLINE :: (ascii "3|t|bob|2|hi\n" ++
        0 :: h_bob.recv_buffer.drop (h_bob.recv_pos + (read_leave_then_chat ++ [0]).length)) := by
    rw [write_at_append h_bob.recv_buffer [] read_leave_then_chat h_bob.recv_pos rfl, hdata]
    simp only [List.nil_append, List.append_assoc, List.cons_append]
  have hs : strchr ((write_at h_bob.recv_buffer h_bob.recv_pos
      (read_leave_then_chat ++ [0])).drop 0) NEWLINE =
      some (format_line msg_leave, NEWLINE :: (ascii "3|t|bob|2|hi\n" ++
        0 :: h_bob.recv_buffer.drop (h_bob.recv_pos + (read_leave_then_chat ++ [0]).length))) := by
    rw [List.drop_zero, hb]
    exact strchr_split NEWLINE _ _ (by decide) (by decide)
  have hline : (write_at (write_at h_bob.recv_buffer h_bob.recv_pos
      (read_leave_then_chat ++ [0])) (0 + (format_line msg_leave).length) [0]).drop 0 =
      format_line msg_leave ++ 0 :: (ascii "3|t|bob|2|hi\n" ++
        0 :: h_bob.recv_buffer.drop (h_bob.recv_pos + (read_leave_then_chat ++ [0]).length)) := by
    rw [List.drop_zero, hb, Nat.zero_add, write_at_middle]
  have hdec := deserialize_format_line_append msg_leave
    (0 :: (ascii "3|t|bob|2|hi\n" ++
        0 :: h_bob.recv_buffer.drop (h_bob.recv_pos + (read_leave_then_chat ++ [0]).length)))
    (by decide) (by decide) (by decide) (by decide) (by decide) (by decide) (by decide)
    (by decide) (by decide) (by decide)
  have hl : ∀ t : List Byte, handle_line w_two 2 (ascii "bob")
      (format_line msg_leave ++ 0 :: (ascii "3|t|bob|2|hi\n" ++
        0 :: h_bob.recv_buffer.drop (h_bob.recv_pos + (read_leave_then_chat ++ [0]).length))) t =
      dispatch { w_two with lines := w_two.lines ++ [format_line msg_leave] } 2 (ascii "bob")
        msg_leave t := by
    intro t
    unfold handle_line
    dsimp only
    rw [hdec, cstr_terminated _ _ (by decide)]
  have hret : ∀ t : List Byte, (dispatch { w_two with lines := w_two.lines ++
      [format_line msg_leave] } 2 (ascii "bob") msg_leave t).2 = true := by
    intro t
    unfold dispatch
    rfl
  have hp := process_lines_return
    ((write_at h_bob.recv_buffer h_bob.recv_pos (read_leave_then_chat ++ [0])).length)
    (now 0) w_two
    { h_bob with recv_buffer := write_at h_bob.recv_buffer h_bob.recv_pos
                   (read_leave_then_chat ++ [0]),
                 recv_pos := h_bob.recv_pos + read_leave_then_chat.length }
    0 _ _ hs (by
      dsimp only
      rw [hline]
      exact (hl (now 0 0)).symm ▸ hret (now 0 0))
  dsimp only at hp
  rw [hline] at hp
  refine ⟨(handle_line w_two h_bob.client_socket h_bob.client_username
        (format_line msg_leave ++ 0 :: (ascii "3|t|bob|2|hi\n" ++
          0 :: h_bob.recv_buffer.drop (h_bob.recv_pos + (read_leave_then_chat ++ [0]).length)))
        (now 0 0)).1, ?_, ?_⟩
  · simp only [run_reads, on_data, hfit, if_true]
    rw [hp]
  · have e : (handle_line w_two h_bob.client_socket h_bob.client_username
        (format_line msg_leave ++ 0 :: (ascii "3|t|bob|2|hi\n" ++
          0 :: h_bob.recv_buffer.drop (h_bob.recv_pos + (read_leave_then_chat ++ [0]).length)))
        (now 0 0)).1.lines = w_two.lines ++ [format_line msg_leave] := by
      rw [handle_line_lines, cstr_terminated _ _ (by decide)]
    rw [e]
    decide

/-- The kind of a message decoded from the line of a well-formed message. -/
theorem decode_type_of_format (m0 : ChatMessage) (suffix : List Byte) (m : ChatMessage)
    (hty : LONG_MIN ≤ m0.type ∧ m0.type ≤ LONG_MAX)
    (hts : m0.timestamp.length ≤ 31) (hts0 : 0 ∉ m0.timestamp) (htsp : PIPE ∉ m0.timestamp)
    (hun : m0.username.length ≤ 63) (hun0 : 0 ∉ m0.username) (hunp : PIPE ∉ m0.username)
    (hc : m0.content.length ≤ 2047) (hc0 : 0 ∉ m0.content)
    (hlen : m0.content_length = (m0.content.length : Int))
    (h : deserialize_message (format_line m0 ++ suffix) = some m) : m = m0 := by
  rw [deserialize_format_line_append m0 suffix hty hts hts0 htsp hun hun0 hunp hc hc0 hlen] at h
  exact (Option.some.inj h).symm

theorem long_run_line :
    split_lines ([long_run, long_run, [NEWLINE]].flatten) = ([long_run ++ long_run], []) := by
  have e : [long_run, long_run, [NEWLINE]].flatten = (long_run ++ long_run) ++ NEWLINE :: [] := by
    simp only [List.flatten_cons, List.flatten_nil, List.append_nil, List.append_assoc,
      List.singleton_append]
  rw [e, split_lines_segment _ _ long_run_no_newline]
  rfl

/-! ## Lemmas on relaying -/

theorem natDigits_ge (fuel n : Nat) : ∀ d ∈ natDigits fuel n, (48 : Nat) ≤ d := by
  induction fuel generalizing n with
  | zero => simp [natDigits]
  | succ f ih =>
    unfold natDigits
    split
    · intro d hd
      simp only [List.mem_singleton] at hd
      unfold Byte at *
      omega
    · intro d hd
      rcases List.mem_append.mp hd with e | e
      · exact ih _ d e
      · simp only [List.mem_singleton] at e
        unfold Byte at *
        omega

theorem fmt_d_no_newline (v : Int) : NEWLINE ∉ fmt_d v := by
  have key : ∀ fuel n, NEWLINE ∉ natDigits fuel n := by
    intro fuel n hm
    have := natDigits_ge fuel n _ hm
    unfold NEWLINE Byte at this
    omega
  unfold fmt_d
  split
  · simp only [List.mem_cons, not_or]
    exact ⟨by decide, key _ _⟩
  · exact key _ _

theorem valid_format_line (m : ChatMessage) (hv : valid_message m) :
    format_line m = fmt_d m.type ++ PIPE :: (m.timestamp ++ PIPE :: (m.username ++ PIPE ::
      (fmt_d m.content_length ++ PIPE :: m.content))) :=
  format_line_wf m hv.2.1.2.1 hv.2.2.1.2.1 hv.2.2.2.1.2.1 hv.2.2.2.2

theorem valid_no_newline (m : ChatMessage) (hv : valid_message m) :
    NEWLINE ∉ format_line m := by
  rw [valid_format_line m hv]
  simp only [List.mem_append, List.mem_cons, not_or]
  exact ⟨fmt_d_no_newline _, by decide, hv.2.1.2.2.2, by decide, hv.2.2.1.2.2.2, by decide,
    fmt_d_no_newline _, by decide, hv.2.2.2.1.2.2⟩

theorem valid_no_nul (m : ChatMessage) (hv : valid_message m) : (0 : Byte) ∉ format_line m := by
  rw [valid_format_line m hv]
  simp only [List.mem_append, List.mem_cons, not_or]
  exact ⟨fmt_d_no_nul _, by decide, hv.2.1.2.1, by decide, hv.2.2.1.2.1, by decide,
    fmt_d_no_nul _, by decide, hv.2.2.2.1.2.1⟩

theorem valid_type_range (m : ChatMessage) (hv : valid_message m) :
    LONG_MIN ≤ m.type ∧ m.type ≤ LONG_MAX := by
  rw [hv.1]
  decide

theorem valid_length (m : ChatMessage) (hv : valid_message m) :
    (format_line m).length ≤ 2161 :=
  format_line_length_le m (valid_type_range m hv) hv.2.1.1 hv.2.1.2.1 hv.2.2.1.1 hv.2.2.1.2.1
    hv.2.2.2.1.1 hv.2.2.2.1.2.1 hv.2.2.2.2

theorem valid_decode (m : ChatMessage) (hv : valid_message m) (suffix : List Byte) :
    deserialize_message (format_line m ++ suffix) = some m :=
  deserialize_format_line_append m suffix (valid_type_range m hv) hv.2.1.1 hv.2.1.2.1
    hv.2.1.2.2.1 hv.2.2.1.1 hv.2.2.1.2.1 hv.2.2.1.2.2.1 hv.2.2.2.1.1 hv.2.2.2.1.2.1 hv.2.2.2.2

/-- The stream of the lines of valid messages frames into those lines, with nothing left
over. -/
theorem split_lines_stream (msgs : List ChatMessage) (hv : ∀ m ∈ msgs, valid_message m) :
    split_lines ((msgs.map (fun m => format_line m ++ [NEWLINE])).flatten) =
      (msgs.map format_line, []) := by
  induction msgs with
  | nil => rfl
  | cons m rest ih =>
    have hm := hv m (List.mem_cons_self _ _)
    have e : ((m :: rest).map (fun m => format_line m ++ [NEWLINE])).flatten =
        format_line m ++ NEWLINE :: (rest.map (fun m => format_line m ++ [NEWLINE])).flatten := by
      simp only [List.map_cons, List.flatten_cons, List.append_assoc, List.singleton_append]
    rw [e, split_lines_segment _ _ (valid_no_newline m hm),
      ih (fun x hx => hv x (List.mem_cons_of_mem _ hx))]
    rfl

theorem delivered_append (a b : List Send) (s : SOCKET) :
    delivered (a ++ b) s = delivered a s ++ delivered b s := by
  induction a with
  | nil => rfl
  | cons e rest ih =>
    show delivered (e :: (rest ++ b)) s = delivered (e :: rest) s ++ delivered b s
    by_cases h : e.1 = s
    · simp only [delivered, h, if_true, ih, List.append_assoc]
    · simp only [delivered, h, if_false, ih]

theorem delivered_flatten (logs : List (List Send)) (s : SOCKET) :
    delivered logs.flatten s = (logs.map (fun l => delivered l s)).flatten := by
  induction logs with
  | nil => rfl
  | cons l rest ih =>
    simp only [List.flatten_cons, List.map_cons, delivered_append, ih]

/-- The main loop on the line of a valid chat message: the line is handed to the decoder and
relayed by `broadcast_message`, and the handler goes on. -/
theorem handle_line_chat (v : World) (c : SOCKET) (u t suffix : List Byte) (m : ChatMessage)
    (hv : valid_message m) :
    handle_line v c u (format_line m ++ 0 :: suffix) t =
      ({ v with lines := v.lines ++ [format_line m],
                sends := v.sends ++ broadcast_loop v.reg.used c (format_line m) }, false) := by
  have hfit := serialize_fits m (valid_type_range m hv) hv.2.1.1 hv.2.1.2.1 hv.2.2.1.1
    hv.2.2.1.2.1 hv.2.2.2.1.1 hv.2.2.2.1.2.1 hv.2.2.2.2
  have hneg : ¬ (((format_line m).length : Nat) : Int) < 0 := by omega
  unfold handle_line
  dsimp only
  rw [valid_decode m hv, cstr_terminated _ _ (valid_no_nul m hv)]
  dsimp only
  unfold dispatch
  rw [if_pos hv.1]
  unfold broadcast broadcast_message
  dsimp only
  rw [hfit]
  simp only [hneg, if_false, Int.toNat_ofNat, List.take_length]

/-- The main loop on the lines of valid chat messages, however the stream is cut into reads:
each line is relayed by `broadcast_message`, in order. -/
theorem run_reads_relay (now : Nat → Nat → List Byte) (w : World) (h : Handler)
    (msgs : List ChatMessage) (chunks : List (List Byte)) (hpos : h.recv_pos = 0)
    (hvalid : ∀ m ∈ msgs, valid_message m)
    (hstream : chunks.flatten = (msgs.map (fun m => format_line m ++ [NEWLINE])).flatten)
    (hlen : ∀ d ∈ chunks, d.length ≤ 4095) :
    ∃ (w' : World) (h' : Handler),
      run_reads now 0 w h chunks = LoopResult.scanned w' h' ∧
      w'.reg = w.reg ∧ w'.closes = w.closes ∧
      w'.lines = w.lines ++ msgs.map format_line ∧
      w'.sends = w.sends ++
        (msgs.map (fun m => broadcast_loop w.reg.used h.client_socket (format_line m))).flatten := by
  have hsplit : split_lines chunks.flatten = (msgs.map format_line, []) := by
    rw [hstream]
    exact split_lines_stream msgs hvalid
  have h0 : (0 : Byte) ∉ chunks.flatten := by
    intro hm
    have hm2 : (0 : Byte) ∈
        ((split_lines chunks.flatten).1.map (fun l => l ++ [NEWLINE])).flatten ++
          (split_lines chunks.flatten).2 := by
      rw [split_lines_flatten]
      exact hm
    rw [hsplit] at hm2
    simp only [List.append_nil, List.mem_flatten, List.mem_map] at hm2
    obtain ⟨l, ⟨a, ⟨m, hmem, rfl⟩, rfl⟩, hz⟩ := hm2
    rcases List.mem_append.mp hz with e | e
    · exact valid_no_nul m (hvalid m hmem) e
    · simp at e
  obtain ⟨w', h', hr, _, _, _, _, hJ⟩ := run_reads_spec
    (fun dl v => v.reg = w.reg ∧ v.closes = w.closes ∧ v.lines = w.lines ++ dl ∧
      v.sends = w.sends ++
        (dl.map (fun l => broadcast_loop w.reg.used h.client_socket l)).flatten)
    h.client_socket h.client_username now chunks 0 w h [] [] rfl rfl
    (by rw [hpos]; rfl) (by rw [hpos]; rfl) (by simp) (by simpa using h0) hlen
    (by
      intro l hl
      simp only [List.nil_append] at hl
      rw [hsplit] at hl
      obtain ⟨m, hmem, rfl⟩ := List.mem_map.mp hl
      have := valid_length m (hvalid m hmem)
      omega)
    (by
      simp only [List.nil_append]
      rw [hsplit]
      simp)
    (by
      intro seg hs dl v suffix t hv
      simp only [List.nil_append] at hs
      rw [hsplit] at hs
      obtain ⟨m, hmem, rfl⟩ := List.mem_map.mp hs
      rw [handle_line_chat v h.client_socket h.client_username t suffix m (hvalid m hmem)]
      refine ⟨rfl, ?_⟩
      obtain ⟨h1, h2, h3, h4⟩ := hv
      refine ⟨h1, h2, ?_, ?_⟩
      · show v.lines ++ [format_line m] = w.lines ++ (dl ++ [format_line m])
        rw [h3, List.append_assoc]
      · show v.sends ++ broadcast_loop v.reg.used h.client_socket (format_line m) = _
        rw [h4, h1]
        simp only [List.map_append, List.flatten_append, List.map_cons, List.map_nil,
          List.flatten_cons, List.flatten_nil, List.append_nil, List.append_assoc])
    ⟨rfl, rfl, by simp, by simp⟩
  simp only [List.nil_append] at hJ
  rw [hsplit] at hJ
  obtain ⟨h1, h2, h3, h4⟩ := hJ
  refine ⟨w', h', hr, h1, h2, h3, ?_⟩
  rw [h4, List.map_map]
  rfl

theorem copies_one (x : List Byte) : copies 1 x = x := by
  simp [copies]

/-! ## The connection handler: claims -/

set_option maxRecDepth 1000000 in
/-- C11, as stated, fails: with 33 sessions registered under 63-byte nicknames the reply to a
list request carries a body of at most 2047 bytes, while the entries of the 33 active sessions
take more than 2047 bytes, so sessions are missing from the list. -/
theorem list_reply_counterexample :
    w_long.reg.active_sessions.length = 33 ∧
      (dispatch w_long 1 (long_nick 0) ⟨4, [], [], [], 0⟩ ts_example).1.sends =
        [(1, format_line (list_reply w_long.reg ts_example)), (1, [NEWLINE])] ∧
      (list_reply w_long.reg ts_example).content.length ≤ 2047 ∧
      2047 < (online_users w_long.reg).length := by
  refine ⟨by decide, ?_, ?_, ?_⟩
  · rw [dispatch_list (fill_long 33) w_long rfl 1 (long_nick 0) ⟨4, [], [], [], 0⟩ rfl
      ts_example (by decide) (by decide)]
    rfl
  · simp only [list_reply, MAX_MESSAGE_LEN, List.length_take]
    omega
  · have h1 := online_users_length_ge w_long.reg
    have h2 : (w_long.reg.active_sessions.map (fun c => c.username.length)).sum = 2079 := by
      decide
    omega

/-- C11, amended.  In a registry reached from the initial one, the handler answers a list
request with two `send` calls to the requesting connection and none to another: the line of
one message of type `Message` from `SERVER`, and a `'\n'`.  The body of that message is the
first 2047 bytes of `Online users: ` followed by the entries `[ID:n]nickname` of the active
sessions, in table order, joined by `", "`; it is the whole of that text whenever the text is at
most 2047 bytes long. -/
theorem list_request_reply (ops : List Op) (w : World) (hw : w.reg = run Registry.init ops)
    (client_socket : SOCKET) (client_username : List Byte) (msg : ChatMessage)
    (hty : msg.type = 4) (now : List Byte) (hnow0 : 0 ∉ now) (hnow : now.length ≤ 31) :
    dispatch w client_socket client_username msg now =
        ({ w with sends := w.sends ++
            [(client_socket, format_line (list_reply w.reg now)), (client_socket, [NEWLINE])] },
          false) ∧
      (list_reply w.reg now).type = 3 ∧
      (list_reply w.reg now).content = (online_users w.reg).take 2047 ∧
      ((online_users w.reg).length ≤ 2047 →
        (list_reply w.reg now).content = online_users w.reg) := by
  refine ⟨dispatch_list ops w hw client_socket client_username msg hty now hnow0 hnow, rfl, rfl,
    ?_⟩
  intro h
  exact List.take_of_length_le h

theorem list_request_reply_witness :
    (0 : Byte) ∉ ts_example ∧ ts_example.length ≤ 31 ∧
      (online_users w_two.reg).length ≤ 2047 ∧
      online_users w_two.reg = ascii "Online users: [ID:1]alice, [ID:2]bob" ∧
      dispatch w_two 1 (ascii "alice") ⟨4, ts_example, ascii "alice", [], 0⟩ ts_example =
        ({ w_two with sends := w_two.sends ++
            [(1, format_line (list_reply w_two.reg ts_example)), (1, [NEWLINE])] }, false) ∧
      (list_reply w_two.reg ts_example).content = online_users w_two.reg :=
  ⟨by decide, by decide, by decide, by decide,
    (list_request_reply [Op.add 1 (ascii "alice"), Op.add 2 (ascii "bob")] w_two rfl 1
      (ascii "alice") ⟨4, ts_example, ascii "alice", [], 0⟩ rfl ts_example
      (by decide) (by decide)).1,
    (list_request_reply [Op.add 1 (ascii "alice"), Op.add 2 (ascii "bob")] w_two rfl 1
      (ascii "alice") ⟨4, ts_example, ascii "alice", [], 0⟩ rfl ts_example
      (by decide) (by decide)).2.2.2 (by decide)⟩

/-- C12: the handshake answers a first line of the wrong kind, and a first line that does not
decode, with no `send` at all: it closes the socket and returns.  A `Nickname` line with an
invalid nickname is answered with one `Error` message. -/
theorem handshake_silent_on_bad_line :
    handshake w_two 3 [] ts_example ts_example (FirstRead.data (ascii "3|t|carol|2|hi\n")) =
        ({ w_two with closes := [3] }, none) ∧
      handshake w_two 3 [] ts_example ts_example (FirstRead.data (ascii "hello\n")) =
        ({ w_two with closes := [3] }, none) ∧
      w_two.sends = [] ∧
      handshake w_two 3 [] ts_example ts_example (FirstRead.data (ascii "8|t|x|3|a|b\n")) =
        ({ w_two with
            sends := [(3, ascii "5|2024-01-01 00:00:00|SERVER|23|Invalid nickname format"),
                      (3, [NEWLINE])],
            closes := [3] }, none) := by
  decide

/-- C17: the socket of a connection that leaves is closed twice.  The handler of connection 2
that processes a `Leave` line returns after two `closesocket` calls on socket 2, the one of
`remove_client` and its own; the handler that finds the connection closed by the peer makes
one, that of `remove_client`, and so does the handler whose handshake times out. -/
theorem leave_closes_twice :
    (handle_line w_two 2 (ascii "bob") (ascii "2|t|bob|0|" ++ [0]) ts_example).2 = true ∧
      (handle_line w_two 2 (ascii "bob") (ascii "2|t|bob|0|" ++ [0]) ts_example).1.closes
        = [2, 2] ∧
      (on_disconnect w_two h_bob ts_example).closes = [2] ∧
      (handshake w_two 3 [] ts_example ts_example FirstRead.timeout).1.closes = [3] := by
  decide

/-- Relay by a handler whose steps no other thread interrupts.  A connection sends the lines
of valid chat messages `m1 .. mk`, each followed by `'\n'`, and the stream reaches the handler
cut into reads of at most 4095 bytes in any way.  The handler goes through all the reads with
the registry as it was, sends nothing to the sender's connection, and hands to every other
connection, once for each active session on it, the lines of `m1 .. mk` in the order sent, each
followed by one `'\n'`.  A connection with one active session is handed the very bytes that
were sent. -/
theorem relay_fifo (now : Nat → Nat → List Byte) (w : World) (h : Handler)
    (msgs : List ChatMessage) (chunks : List (List Byte)) (hpos : h.recv_pos = 0)
    (hvalid : ∀ m ∈ msgs, valid_message m)
    (hstream : chunks.flatten = (msgs.map (fun m => format_line m ++ [NEWLINE])).flatten)
    (hlen : ∀ d ∈ chunks, d ≠ [] ∧ d.length ≤ 4095) :
    ∃ (w' : World) (h' : Handler) (log : List Send),
      run_reads now 0 w h chunks = LoopResult.scanned w' h' ∧
      w'.reg = w.reg ∧ w'.closes = w.closes ∧ w'.sends = w.sends ++ log ∧
      delivered log h.client_socket = [] ∧
      (∀ s : SOCKET, s ≠ h.client_socket →
        delivered log s =
          (msgs.map (fun m =>
            copies (w.reg.sessions_on s) (format_line m ++ [NEWLINE]))).flatten) ∧
      (∀ s : SOCKET, s ≠ h.client_socket → w.reg.sessions_on s = 1 →
        delivered log s = chunks.flatten) := by
  obtain ⟨w', h', hr, h1, h2, _, h4⟩ := run_reads_relay now w h msgs chunks hpos hvalid hstream
    (fun d hd => (hlen d hd).2)
  have hother : ∀ s : SOCKET, s ≠ h.client_socket →
      delivered ((msgs.map (fun m =>
        broadcast_loop w.reg.used h.client_socket (format_line m))).flatten) s =
      (msgs.map (fun m =>
        copies (w.reg.sessions_on s) (format_line m ++ [NEWLINE]))).flatten := by
    intro s hs
    rw [delivered_flatten, List.map_map]
    congr 1
    apply List.map_congr_left
    intro m _
    exact delivered_broadcast_loop_other w.reg.used h.client_socket s (format_line m) hs
  refine ⟨w', h', _, hr, h1, h2, h4, ?_, hother, ?_⟩
  · rw [delivered_flatten, List.map_map]
    have e : ∀ m ∈ msgs, ((fun l => delivered l h.client_socket) ∘
        (fun m => broadcast_loop w.reg.used h.client_socket (format_line m))) m =
        (fun _ => ([] : List Byte)) m := by
      intro m _
      exact delivered_broadcast_loop_sender _ _ _
    rw [List.map_congr_left e]
    induction msgs with
    | nil => rfl
    | cons m rest ih => simp
  · intro s hs hone
    rw [hother s hs, hone, hstream]
    congr 1
    apply List.map_congr_left
    intro m _
    exact copies_one _

theorem relay_fifo_witness :
    (∀ m ∈ [msg_hi, msg_pipe_bob], valid_message m) ∧
      reads_fifo.flatten =
        ([msg_hi, msg_pipe_bob].map (fun m => format_line m ++ [NEWLINE])).flatten ∧
      w_two.reg.sessions_on 1 = 1 ∧
      ∃ (w' : World) (h' : Handler) (log : List Send),
        run_reads (fun _ _ => ts_example) 0 w_two h_bob reads_fifo = LoopResult.scanned w' h' ∧
        w'.reg = w_two.reg ∧ w'.closes = w_two.closes ∧ w'.sends = w_two.sends ++ log ∧
        delivered log h_bob.client_socket = [] ∧
        (∀ s : SOCKET, s ≠ h_bob.client_socket →
          delivered log s =
            ([msg_hi, msg_pipe_bob].map (fun m =>
              copies (w_two.reg.sessions_on s) (format_line m ++ [NEWLINE]))).flatten) ∧
        (∀ s : SOCKET, s ≠ h_bob.client_socket → w_two.reg.sessions_on s = 1 →
          delivered log s = reads_fifo.flatten) :=
  ⟨by decide, by decide, by decide,
    relay_fifo (fun _ _ => ts_example) w_two h_bob [msg_hi, msg_pipe_bob] reads_fifo rfl
      (by decide) (by decide) (by decide)⟩

/-- C14 fails when the receiver's own handler writes to the receiver's connection meanwhile.
In `w_two` the handler of `bob` (connection 2) relays the valid chat line `3|t|bob|2|hi` while
the handler of `alice` (connection 1) answers her list request.  `broadcast_message` makes its
two `send` calls under the mutex, `send_to_client` makes its two without it, so the relayed line
and its `'\n'` may fall between the line of the reply and the reply's `'\n'`.  Connection 1
then carries the reply and the chat line glued into one line, which decodes as the reply alone,
and an empty line: the chat line is never received.  When the two handlers do not overlap, the
chat line arrives as sent. -/
theorem relay_line_swallowed :
    valid_message msg_hi ∧
      sends_of (broadcast_message_steps w_two.reg msg_hi 2) =
        (handle_line w_two 2 (ascii "bob") (format_line msg_hi ++ [0]) ts_example).1.sends ∧
      sends_of (list_steps w_two.reg 1 ts_example) =
        (handle_line w_two 1 (ascii "alice") (format_line msg_list_alice ++ [0])
          ts_example).1.sends ∧
      broadcast_message_steps w_two.reg msg_hi 2 =
        [Event.acquire, Event.send 1 (format_line msg_hi), Event.send 1 [NEWLINE],
          Event.release] ∧
      list_steps w_two.reg 1 ts_example =
        [Event.acquire, Event.release, Event.send 1 (format_line reply_two),
          Event.send 1 [NEWLINE]] ∧
      (∃ log : List Send,
        run_threads schedule_between none (broadcast_message_steps w_two.reg msg_hi 2)
          (list_steps w_two.reg 1 ts_example) = some log ∧
        delivered log 1 =
          format_line reply_two ++ (format_line msg_hi ++ [NEWLINE, NEWLINE]) ∧
        split_lines (delivered log 1) = ([format_line reply_two ++ format_line msg_hi, []], []) ∧
        format_line msg_hi ∉ (split_lines (delivered log 1)).1 ∧
        deserialize_message ((format_line reply_two ++ format_line msg_hi) ++ [0]) =
          some reply_two ∧
        deserialize_message [0] = none) ∧
      (∃ log : List Send,
        run_threads schedule_apart none (broadcast_message_steps w_two.reg msg_hi 2)
          (list_steps w_two.reg 1 ts_example) = some log ∧
        split_lines (delivered log 1) = ([format_line msg_hi, format_line reply_two], [])) := by
  refine ⟨by decide, by decide, by decide, by decide, by decide,
    ⟨[(1, format_line reply_two), (1, format_line msg_hi), (1, [NEWLINE]), (1, [NEWLINE])],
      by decide, by decide, by decide, by decide, by decide, by decide⟩,
    ⟨[(1, format_line msg_hi), (1, [NEWLINE]), (1, format_line reply_two), (1, [NEWLINE])],
      by decide, by decide⟩⟩

/-- C16, as stated, fails three ways.  A line of 8190 bytes that arrives in two reads of 4095
bytes fills the buffer, the read that brings its `'\n'` is turned away, and the line is never
handed to the decoder.  A line that holds a NUL byte is never found by `strchr`.  And the
line that follows a `Leave` line in the same read is not handed to the decoder, because the
handler has returned. -/
theorem line_framing_counterexample :
    ((split_lines ([long_run, long_run, [NEWLINE]].flatten)).1 = [long_run ++ long_run] ∧
        ∃ h' : Handler, run_reads (fun _ _ => ts_example) 0 w_two h_bob
          [long_run, long_run, [NEWLINE]] = LoopResult.scanned w_two h') ∧
      ((split_lines ([read_with_nul].flatten)).1 = [[97, 0, 98]] ∧
        ∃ h' : Handler, run_reads (fun _ _ => ts_example) 0 w_two h_bob [read_with_nul] =
          LoopResult.scanned w_two h') ∧
      w_two.lines = [] ∧
      ((split_lines ([read_leave_then_chat].flatten)).1 =
          [ascii "2|t|bob|0|", ascii "3|t|bob|2|hi"] ∧
        ∃ w' : World, run_reads (fun _ _ => ts_example) 0 w_two h_bob [read_leave_then_chat] =
          LoopResult.returned w' ∧ w'.lines = [ascii "2|t|bob|0|"]) := by
  refine ⟨⟨?_, run_reads_overflow _ w_two h_bob rfl⟩, ⟨by decide, run_reads_nul _ w_two h_bob rfl⟩,
    rfl, ⟨by decide, run_reads_leave _⟩⟩
  rw [long_run_line]

/-- C16, amended.  For reads of at most 4095 bytes each that bring no NUL byte, in a stream
whose lines and trailing partial line are at most 4095 bytes long and of which no line decodes
to a `Leave` message, the main loop, entered with an empty buffer, goes through all the reads;
the lines it hands to `deserialize_message` are the `'\n'`-terminated segments of the
concatenated stream, each once and in order; the buffer holds the trailing partial line
afterwards; and the lines handed over, each with its `'\n'`, followed by the buffered partial
line are the bytes received: none is dropped or duplicated. -/
theorem line_framing (now : Nat → Nat → List Byte) (w : World) (h : Handler)
    (chunks : List (List Byte)) (hpos : h.recv_pos = 0)
    (hlen : ∀ d ∈ chunks, d ≠ [] ∧ d.length ≤ 4095) (h0 : 0 ∉ chunks.flatten)
    (hline : ∀ l ∈ (split_lines chunks.flatten).1, l.length ≤ 4095)
    (hpart : (split_lines chunks.flatten).2.length ≤ 4095)
    (hleave : ∀ l ∈ (split_lines chunks.flatten).1, ∀ (suffix : List Byte) (m : ChatMessage),
      deserialize_message (l ++ 0 :: suffix) = some m → m.type ≠ 2) :
    ∃ (w' : World) (h' : Handler) (handed : List (List Byte)),
      run_reads now 0 w h chunks = LoopResult.scanned w' h' ∧
      w'.lines = w.lines ++ handed ∧
      handed = (split_lines chunks.flatten).1 ∧
      h'.recv_buffer.take h'.recv_pos = (split_lines chunks.flatten).2 ∧
      (handed.map (fun l => l ++ [NEWLINE])).flatten ++ h'.recv_buffer.take h'.recv_pos =
        chunks.flatten := by
  obtain ⟨w', h', hr, hl, hb⟩ := run_reads_lines now w h chunks hpos (fun d hd => (hlen d hd).2)
    h0 hline hpart hleave
  refine ⟨w', h', (split_lines chunks.flatten).1, hr, hl, rfl, hb, ?_⟩
  rw [hb]
  exact split_lines_flatten _

theorem line_framing_witness :
    split_lines reads_two_lines.flatten =
        ([format_line msg_hi, format_line msg_list], ascii "xy") ∧
      ∃ (w' : World) (h' : Handler) (handed : List (List Byte)),
        run_reads (fun _ _ => ts_example) 0 w_two h_bob reads_two_lines =
          LoopResult.scanned w' h' ∧
        w'.lines = w_two.lines ++ handed ∧
        handed = (split_lines reads_two_lines.flatten).1 ∧
        h'.recv_buffer.take h'.recv_pos = (split_lines reads_two_lines.flatten).2 ∧
        (handed.map (fun l => l ++ [NEWLINE])).flatten ++ h'.recv_buffer.take h'.recv_pos =
          reads_two_lines.flatten :=
  ⟨by decide,
    line_framing (fun _ _ => ts_example) w_two h_bob reads_two_lines rfl (by decide) (by decide)
      (by decide) (by decide)
      (by
        have e : (split_lines reads_two_lines.flatten).1 =
            [format_line msg_hi, format_line msg_list] := by decide
        intro l hl suffix m hm
        rw [e] at hl
        rcases List.mem_cons.mp hl with e1 | e1
        · subst e1
          have := decode_type_of_format msg_hi (0 :: suffix) m (by decide) (by decide)
            (by decide) (by decide) (by decide) (by decide) (by decide) (by decide) (by decide)
            (by decide) hm
          rw [this]
          decide
        · rcases List.mem_cons.mp e1 with e2 | e2
          · subst e2
            have := decode_type_of_format msg_list (0 :: suffix) m (by decide) (by decide)
              (by decide) (by decide) (by decide) (by decide) (by decide) (by decide) (by decide)
              (by decide) hm
            rw [this]
            decide
          · simp at e2)⟩

end Chat
